import Mathlib

/-!
# VLVector: a vector with inline storage that spills to the heap

A shallow embedding of `src/vl_vector.h` (class template
`VLVector<T, StaticCapacity>`) and a verification of its storage management.

## The memory model

* `size_t` values are natural numbers; every `size_t` operation of the source
  is written with an explicit `% SIZE_MOD` (`SIZE_MOD = 2 ^ 64`).
* The free store is a list of blocks.  `new T[n]` appends a block of `n`
  default elements and returns its index; `delete[]` turns the block into
  `none`.  A pointer whose block is `none` dangles.
* A `T*` / iterator is a `Ptr`: a region (the container's own
  `_static_storage`, a heap block, or null) and an offset.
* Input iterator ranges `[first, last)` that come from outside the container
  are lists.
* A `const T&` argument is a `ConstRef`: the value of an object outside the
  container's storage, or the address of an object inside it, which is read
  when the code reads it.
* An operation yields an `Outcome`: it returns, or an exception propagates
  (the state at the throw is kept), or the behaviour is undefined (a read or
  write outside a live array, a double `delete[]`, an invalid iterator range).
* `std::copy`, `std::move`, `std::move_backward`, `std::fill_n` are the
  element-by-element loops of the standard library; moving an element is
  modelled as copying it.
-/

namespace VLVec

/-! ## Machine integers -/

/-- Modulus of `size_t` arithmetic (64-bit unsigned). -/
def SIZE_MOD : Nat := 2 ^ 64

/-- Macro `UPSIZE_CAP(size, k)`, that is `(3 * (size + k)) / 2` in `size_t`. -/
def UPSIZE_CAP (size k : Nat) : Nat :=
  (3 * ((size + k) % SIZE_MOD) % SIZE_MOD) / 2

/-! ## Pointers, exceptions, outcomes -/

/-- Where a pointer points: nowhere, into the container's `_static_storage`,
or into the heap block with the given index. -/
inductive Region where
  | null
  | stat
  | heap (id : Nat)
  deriving DecidableEq, Repr

/-- A `T*` (all iterators of `VLVector` are raw pointers). -/
structure Ptr where
  region : Region
  off : Nat
  deriving DecidableEq, Repr

/-- Pointer plus integer. -/
def Ptr.add (p : Ptr) (n : Nat) : Ptr := ⟨p.region, p.off + n⟩

/-- Pointer minus integer; leaving the array at its front is undefined. -/
def Ptr.sub (p : Ptr) (n : Nat) : Option Ptr :=
  if n ≤ p.off then some ⟨p.region, p.off - n⟩ else none

/-- The number of steps from `first` to `last` (`std::distance`); defined for
two pointers into one array with `first` not after `last`. -/
def distance (first last : Ptr) : Option Nat :=
  if first.region = last.region ∧ first.off ≤ last.off then
    some (last.off - first.off)
  else none

/-- The exceptions the container lets escape. -/
inductive Exn where
  | bad_alloc
  | out_of_range
  deriving DecidableEq, Repr

/-- Result of running an operation from a state of type `σ`. -/
inductive Outcome (σ ρ : Type) where
  | undefined
  | thrown (s : σ) (e : Exn)
  | ret (s : σ) (r : ρ)
  deriving DecidableEq, Repr

/-- Continue with the value of a step that cannot throw, or stop at undefined
behaviour. -/
def orUndefined {β σ ρ : Type} (o : Option β) (k : β → Outcome σ ρ) : Outcome σ ρ :=
  match o with
  | none => Outcome.undefined
  | some b => k b

/-- An argument of type `const T&` (`const_reference`).  It refers either to
an object the call cannot reach (a temporary, a local variable), and is then
given by the value that object holds, or to an object inside the storage the
container works on (one of its own elements, as in `v.push_back(v[0])`), and
is then given by its address and read at the point where the code reads
it. -/
inductive ConstRef (α : Type) where
  | value (x : α)
  | object (p : Ptr)
  deriving DecidableEq, Repr

/-! ## The container and the store -/

/-- Data members of `VLVector<T, StaticCapacity>`.  `_heap_storage` is `none`
for `nullptr` and `some b` for a pointer to heap block `b`. -/
structure VLVector (α : Type) (StaticCapacity : Nat) where
  _size : Nat
  _capacity : Nat
  _static_storage : List α
  _heap_storage : Option Nat
  deriving DecidableEq, Repr

/-- One container together with the free store it lives in. -/
structure State (α : Type) (C : Nat) where
  heap : List (Option (List α))
  v : VLVector α C
  deriving DecidableEq, Repr

section Ops

variable {α : Type} {C : Nat}

/-- The array a region denotes, if it is live. -/
def State.load (s : State α C) : Region → Option (List α)
  | Region.null => none
  | Region.stat => some s.v._static_storage
  | Region.heap b => (s.heap[b]?).join

/-- Replace the array of a region. -/
def State.store (s : State α C) : Region → List α → State α C
  | Region.null, _ => s
  | Region.stat, l => { s with v := { s.v with _static_storage := l } }
  | Region.heap b, l => { s with heap := s.heap.set b (some l) }

/-- Read through a pointer: `*p`. -/
def State.read (s : State α C) (p : Ptr) : Option α :=
  (s.load p.region).bind fun l => l[p.off]?

/-- Write through a pointer: `*p = x`. -/
def State.write (s : State α C) (p : Ptr) (x : α) : Option (State α C) :=
  match s.load p.region with
  | some l => if p.off < l.length then some (s.store p.region (l.set p.off x)) else none
  | none => none

/-- Read through a `const T&` argument. -/
def State.deref (s : State α C) : ConstRef α → Option α
  | ConstRef.value x => some x
  | ConstRef.object p => s.read p

/-- The elements of the range `[first, first + n)`, read in order. -/
def State.read_range (s : State α C) (first : Ptr) (n : Nat) : Option (List α) :=
  (s.load first.region).bind fun l =>
    if first.off + n ≤ l.length then some ((l.drop first.off).take n) else none

/-- Expression `new T[n]`, when the allocation succeeds: a fresh block of `n`
default-initialised elements. -/
def State.new_array [Inhabited α] (s : State α C) (n : Nat) : State α C × Nat :=
  ({ s with heap := s.heap ++ [some (List.replicate n default)] }, s.heap.length)

/-- Statement `delete[] p`: nothing for `nullptr`, frees a live block, and is
undefined for a pointer that dangles. -/
def State.delete_array (s : State α C) : Option Nat → Option (State α C)
  | none => some s
  | some b =>
    match s.heap[b]? with
    | some (some _) => some { s with heap := s.heap.set b none }
    | _ => none

/-- Assignment `_size = n`. -/
def State.set_size (s : State α C) (n : Nat) : State α C :=
  { s with v := { s.v with _size := n } }

/-- Loop of `std::copy` / `std::move`: `n` assignments `*d++ = *first++`. -/
def copy_loop : Nat → State α C → Ptr → Ptr → Option (State α C)
  | 0, s, _, _ => some s
  | n + 1, s, first, d =>
    (s.read first).bind fun x =>
    (s.write d x).bind fun s1 =>
    copy_loop n s1 (first.add 1) (d.add 1)

/-- Call `std::copy(first, last, d_first)` on pointers; returns the end of the
destination range. -/
def std_copy (s : State α C) (first last d_first : Ptr) : Option (State α C × Ptr) :=
  (distance first last).bind fun n =>
  (copy_loop n s first d_first).map fun s1 => (s1, d_first.add n)

/-- Call `std::move(first, last, d_first)` (the algorithm). -/
def std_move (s : State α C) (first last d_first : Ptr) : Option (State α C × Ptr) :=
  std_copy s first last d_first

/-- Call `std::copy(first, last, d_first)` for an input range given as a list. -/
def std_copy_in : List α → State α C → Ptr → Option (State α C × Ptr)
  | [], s, d => some (s, d)
  | x :: xs, s, d => (s.write d x).bind fun s1 => std_copy_in xs s1 (d.add 1)

/-- Loop of `std::move_backward`: `n` assignments `*--d_last = *--last`. -/
def move_backward_loop : Nat → State α C → Ptr → Ptr → Option (State α C)
  | 0, s, _, _ => some s
  | n + 1, s, last, d_last =>
    (last.sub 1).bind fun last1 =>
    (d_last.sub 1).bind fun d1 =>
    (s.read last1).bind fun x =>
    (s.write d1 x).bind fun s1 =>
    move_backward_loop n s1 last1 d1

/-- Call `std::move_backward(first, last, d_last)`; returns the start of the
destination range. -/
def std_move_backward (s : State α C) (first last d_last : Ptr) :
    Option (State α C × Ptr) :=
  (distance first last).bind fun n =>
  (move_backward_loop n s last d_last).bind fun s1 =>
  (d_last.sub n).map fun r => (s1, r)

/-- Call `std::fill_n(d_first, count, value)`. -/
def std_fill_n : Nat → State α C → Ptr → α → Option (State α C)
  | 0, s, _, _ => some s
  | n + 1, s, d, x => (s.write d x).bind fun s1 => std_fill_n n s1 (d.add 1) x

/-! ### Observers -/

/-- Member `size()`. -/
def size (s : State α C) : Nat := s.v._size

/-- Member `capacity()`. -/
def capacity (s : State α C) : Nat := s.v._capacity

/-- Member `empty()`. -/
def empty (s : State α C) : Bool := s.v._size == 0

/-- Member `data()`: the heap pointer when `_size > StaticCapacity`, the static
array otherwise. -/
def data (s : State α C) : Ptr :=
  if s.v._size > C then
    match s.v._heap_storage with
    | some b => ⟨Region.heap b, 0⟩
    | none => ⟨Region.null, 0⟩
  else ⟨Region.stat, 0⟩

/-- Member `begin()`. -/
def begin (s : State α C) : Ptr := data s

/-- Member `cbegin()`. -/
def cbegin (s : State α C) : Ptr := data s

/-- Member `end()`. -/
def end_ (s : State α C) : Ptr := (data s).add s.v._size

/-- Member `cend()`. -/
def cend (s : State α C) : Ptr := (data s).add s.v._size

/-- The sequence held by the container: what iterating `[begin(), end())`
reads. -/
def elements (s : State α C) : Option (List α) :=
  s.read_range (begin s) s.v._size

/-! ### Private helper -/

/-- Member `alloc_new_heap_storage(num_of_adding_elem)`: sets `_capacity`
first, then allocates.  `alloc_ok = false` is the run in which `new` throws
`std::bad_alloc`. -/
def alloc_new_heap_storage [Inhabited α] (alloc_ok : Bool) (s : State α C)
    (num_of_adding_elem : Nat) : Outcome (State α C) Nat :=
  let s1 : State α C :=
    { s with v := { s.v with _capacity := UPSIZE_CAP s.v._size num_of_adding_elem } }
  if alloc_ok then
    Outcome.ret (s1.new_array s1.v._capacity).1 (s1.new_array s1.v._capacity).2
  else if s1.v._size > C then
    orUndefined (s1.delete_array s1.v._heap_storage) fun s2 =>
    Outcome.thrown s2 Exn.bad_alloc
  else Outcome.thrown s1 Exn.bad_alloc

/-- Common ending of the growth paths: `if (_size > StaticCapacity)
delete[] _heap_storage; _heap_storage = new_heap_storage;`. -/
def adopt (s : State α C) (new_heap_storage : Nat) : Option (State α C) :=
  (if s.v._size > C then s.delete_array s.v._heap_storage else some s).map fun s1 =>
  { s1 with v := { s1.v with _heap_storage := some new_heap_storage } }

/-- Common ending of the shrink paths: `delete[] _heap_storage;
_heap_storage = nullptr; _capacity = StaticCapacity;`. -/
def to_static (s : State α C) : Option (State α C) :=
  (s.delete_array s.v._heap_storage).map fun s1 =>
  { s1 with v := { s1.v with _heap_storage := none, _capacity := C } }

/-! ### Element access -/

/-- Non-const member `at(ind)`; the reference returned is a pointer. -/
def at_ (s : State α C) (ind : Nat) : Outcome (State α C) Ptr :=
  if s.v._size ≤ ind then
    if s.v._size > C then
      orUndefined (s.delete_array s.v._heap_storage) fun s1 =>
      Outcome.thrown s1 Exn.out_of_range
    else Outcome.thrown s Exn.out_of_range
  else Outcome.ret s ((begin s).add ind)

/-- Const member `at(ind)`. -/
def at_const (s : State α C) (ind : Nat) : Outcome (State α C) Ptr :=
  if s.v._size ≤ ind then Outcome.thrown s Exn.out_of_range
  else Outcome.ret s ((begin s).add ind)

/-- Member `operator[](ind)`: no bounds check. -/
def index (s : State α C) (ind : Nat) : Ptr := (begin s).add ind

/-! ### Modifiers -/

/-- Member `push_back(element)`; `element` is read by the last statement,
`begin ()[_size - 1] = element`. -/
def push_back [Inhabited α] (alloc_ok : Bool) (s : State α C) (element : ConstRef α) :
    Outcome (State α C) Unit :=
  let finish (s : State α C) : Outcome (State α C) Unit :=
    let s1 : State α C := s.set_size ((s.v._size + 1) % SIZE_MOD)
    orUndefined (s1.deref element) fun x =>
    orUndefined (s1.write ((begin s1).add ((s1.v._size + SIZE_MOD - 1) % SIZE_MOD)) x)
      fun s2 => Outcome.ret s2 ()
  if (s.v._size + 1) % SIZE_MOD > s.v._capacity then
    match alloc_new_heap_storage alloc_ok s 1 with
    | Outcome.undefined => Outcome.undefined
    | Outcome.thrown s1 e => Outcome.thrown s1 e
    | Outcome.ret s1 new_heap_storage =>
      orUndefined (std_copy s1 (begin s1) (end_ s1) ⟨Region.heap new_heap_storage, 0⟩)
        fun r1 =>
      orUndefined (adopt r1.1 new_heap_storage) fun s3 =>
      finish s3
  else finish s

/-- Member `insert(pos, element)`; `element` is read by the statement
`*insert_pos = element` of the path taken. -/
def insert [Inhabited α] (alloc_ok : Bool) (s : State α C) (pos : Ptr)
    (element : ConstRef α) : Outcome (State α C) Ptr :=
  let finish (s : State α C) (insert_pos : Ptr) : Outcome (State α C) Ptr :=
    Outcome.ret (s.set_size ((s.v._size + 1) % SIZE_MOD)) insert_pos
  if (s.v._size + 1) % SIZE_MOD > s.v._capacity then
    match alloc_new_heap_storage alloc_ok s 1 with
    | Outcome.undefined => Outcome.undefined
    | Outcome.thrown s1 e => Outcome.thrown s1 e
    | Outcome.ret s1 new_heap_storage =>
      orUndefined (std_copy s1 (cbegin s1) pos ⟨Region.heap new_heap_storage, 0⟩)
        fun r1 =>
      orUndefined (r1.1.deref element) fun x =>
      orUndefined (r1.1.write r1.2 x) fun s2 =>
      orUndefined (std_copy s2 pos (cend s2) (r1.2.add 1)) fun r3 =>
      orUndefined (adopt r3.1 new_heap_storage) fun s4 =>
      finish s4 r1.2
  else
    orUndefined (std_move_backward s pos (cend s) ((end_ s).add 1)) fun r1 =>
    orUndefined (r1.2.sub 1) fun insert_pos =>
    orUndefined (r1.1.deref element) fun x =>
    orUndefined (r1.1.write insert_pos x) fun s2 =>
    finish s2 insert_pos

/-- Member `insert(pos, first, last)`; the input range is the list `xs`. -/
def insert_range [Inhabited α] (alloc_ok : Bool) (s : State α C) (pos : Ptr)
    (xs : List α) : Outcome (State α C) Ptr :=
  let sequence_length := xs.length % SIZE_MOD
  let finish (s : State α C) (insert_pos : Ptr) : Outcome (State α C) Ptr :=
    Outcome.ret
      (s.set_size ((s.v._size + sequence_length) % SIZE_MOD))
      insert_pos
  if sequence_length = 0 then
    orUndefined (distance (cbegin s) pos) fun d => Outcome.ret s ((begin s).add d)
  else if (s.v._size + sequence_length) % SIZE_MOD > s.v._capacity then
    match alloc_new_heap_storage alloc_ok s sequence_length with
    | Outcome.undefined => Outcome.undefined
    | Outcome.thrown s1 e => Outcome.thrown s1 e
    | Outcome.ret s1 new_heap_storage =>
      orUndefined (std_copy s1 (cbegin s1) pos ⟨Region.heap new_heap_storage, 0⟩)
        fun r1 =>
      orUndefined (std_copy_in xs r1.1 r1.2) fun r2 =>
      orUndefined (std_copy r2.1 pos (cend r2.1) r2.2) fun r3 =>
      orUndefined (adopt r3.1 new_heap_storage) fun s4 =>
      finish s4 r1.2
  else if alloc_ok then
    let copied_sequence : Ptr := ⟨Region.heap (s.new_array sequence_length).2, 0⟩
    orUndefined (std_copy_in xs (s.new_array sequence_length).1 copied_sequence) fun r1 =>
    orUndefined (std_move_backward r1.1 pos (cend r1.1) ((end_ r1.1).add sequence_length))
      fun r2 =>
    orUndefined (r2.2.sub sequence_length) fun insert_pos =>
    orUndefined (std_copy r2.1 copied_sequence (copied_sequence.add sequence_length)
      insert_pos) fun r3 =>
    orUndefined (r3.1.delete_array (some (s.new_array sequence_length).2)) fun s4 =>
    finish s4 insert_pos
  else Outcome.thrown s Exn.bad_alloc

/-- Member `pop_back()`. -/
def pop_back (s : State α C) : Outcome (State α C) Unit :=
  let finish (s : State α C) : Outcome (State α C) Unit :=
    Outcome.ret (s.set_size ((s.v._size + SIZE_MOD - 1) % SIZE_MOD)) ()
  if s.v._size = 0 then Outcome.ret s ()
  else if s.v._size = (C + 1) % SIZE_MOD then
    orUndefined ((end_ s).sub 1) fun last =>
    orUndefined (std_copy s (begin s) last ⟨Region.stat, 0⟩) fun r1 =>
    orUndefined (to_static r1.1) fun s2 =>
    finish s2
  else finish s

/-- Member `erase(pos)`. -/
def erase (s : State α C) (pos : Ptr) : Outcome (State α C) Ptr :=
  let finish (s : State α C) (right_to_removed_pos : Ptr) : Outcome (State α C) Ptr :=
    Outcome.ret (s.set_size ((s.v._size + SIZE_MOD - 1) % SIZE_MOD))
      right_to_removed_pos
  if pos = cend s then Outcome.ret s (end_ s)
  else if (s.v._size + SIZE_MOD - 1) % SIZE_MOD = C then
    orUndefined (std_copy s (cbegin s) pos ⟨Region.stat, 0⟩) fun r1 =>
    orUndefined (std_copy r1.1 (pos.add 1) (cend r1.1) r1.2) fun r2 =>
    orUndefined (to_static r2.1) fun s3 =>
    finish s3 r1.2
  else
    orUndefined (distance (cbegin s) pos) fun d =>
    orUndefined (std_move s (pos.add 1) (cend s) ((begin s).add d)) fun r1 =>
    finish r1.1 ((begin s).add d)

/-- Member `erase(first, last)`; `first_pos` and `last_pos` are the addresses
`&(*first)` and `&(*last)`. -/
def erase_range (s : State α C) (first_pos last_pos : Ptr) : Outcome (State α C) Ptr :=
  orUndefined (distance first_pos last_pos) fun dist =>
  let num_of_elem := dist % SIZE_MOD
  let finish (s : State α C) (right_to_remove_pos : Ptr) : Outcome (State α C) Ptr :=
    Outcome.ret
      (s.set_size ((s.v._size + SIZE_MOD - num_of_elem) % SIZE_MOD))
      right_to_remove_pos
  if C < s.v._size ∧ (s.v._size + SIZE_MOD - num_of_elem) % SIZE_MOD ≤ C then
    orUndefined (std_copy s (cbegin s) first_pos ⟨Region.stat, 0⟩) fun r1 =>
    orUndefined (std_copy r1.1 last_pos (cend r1.1) r1.2) fun r2 =>
    orUndefined (to_static r2.1) fun s3 =>
    finish s3 r1.2
  else
    orUndefined (distance (cbegin s) first_pos) fun d =>
    orUndefined (std_move s last_pos (cend s) ((begin s).add d)) fun r1 =>
    finish r1.1 ((begin s).add d)

/-- Member `clear()`. -/
def clear (s : State α C) : Outcome (State α C) Unit :=
  let finish (s : State α C) : Outcome (State α C) Unit :=
    Outcome.ret (s.set_size 0) ()
  if s.v._size > C then orUndefined (to_static s) finish
  else finish s

/-! ### Construction, copy, comparison -/

/-- Default constructor, building the object in a store `heap`. -/
def construct_default [Inhabited α] (heap : List (Option (List α))) : State α C :=
  { heap := heap,
    v := { _size := 0, _capacity := C,
           _static_storage := List.replicate C default, _heap_storage := none } }

/-- Bodies of the range and fill constructors before the elements are written:
`_size (n), _capacity (StaticCapacity)`, then the allocation when
`_size > StaticCapacity`. -/
def construct_storage [Inhabited α] (alloc_ok : Bool) (heap : List (Option (List α)))
    (n : Nat) : Outcome (State α C) Unit :=
  let s0 : State α C :=
    { heap := heap,
      v := { _size := n, _capacity := C,
             _static_storage := List.replicate C default, _heap_storage := none } }
  if s0.v._size > C then
    let s1 : State α C := { s0 with v := { s0.v with _capacity := UPSIZE_CAP s0.v._size 0 } }
    if alloc_ok then
      Outcome.ret
        { (s1.new_array s1.v._capacity).1 with
          v := { s1.v with _heap_storage := some (s1.new_array s1.v._capacity).2 } } ()
    else Outcome.thrown s1 Exn.bad_alloc
  else Outcome.ret s0 ()

/-- Constructor `VLVector(first, last)`; the input range is the list `xs`. -/
def construct_range [Inhabited α] (alloc_ok : Bool) (heap : List (Option (List α)))
    (xs : List α) : Outcome (State α C) Unit :=
  match construct_storage alloc_ok heap (xs.length % SIZE_MOD) with
  | Outcome.undefined => Outcome.undefined
  | Outcome.thrown s e => Outcome.thrown s e
  | Outcome.ret s _ =>
    orUndefined (std_copy_in xs s (begin s)) fun r => Outcome.ret r.1 ()

/-- Constructor `VLVector(count, init_val)`. -/
def construct_fill [Inhabited α] (alloc_ok : Bool) (heap : List (Option (List α)))
    (count : Nat) (init_val : α) : Outcome (State α C) Unit :=
  match construct_storage alloc_ok heap count with
  | Outcome.undefined => Outcome.undefined
  | Outcome.thrown s e => Outcome.thrown s e
  | Outcome.ret s _ =>
    orUndefined (std_fill_n count s (begin s) init_val) fun s1 => Outcome.ret s1 ()

/-- Copy constructor `VLVector(rhs)`; `rhs` lives in the same store. -/
def construct_copy [Inhabited α] (alloc_ok : Bool) (heap : List (Option (List α)))
    (rhs : VLVector α C) : Outcome (State α C) Unit :=
  let s0 : State α C :=
    { heap := heap,
      v := { _size := rhs._size, _capacity := rhs._capacity,
             _static_storage := List.replicate C default, _heap_storage := none } }
  let fill (s : State α C) : Outcome (State α C) Unit :=
    orUndefined (elements ({ heap := s.heap, v := rhs } : State α C)) fun xs =>
    orUndefined (std_copy_in xs s (begin s)) fun r => Outcome.ret r.1 ()
  if s0.v._size > C then
    if alloc_ok then
      fill { (s0.new_array s0.v._capacity).1 with
             v := { s0.v with _heap_storage := some (s0.new_array s0.v._capacity).2 } }
    else Outcome.thrown s0 Exn.bad_alloc
  else fill s0

/-- The argument of `operator=`: the object itself (`this == &rhs`) or another
container of the same store. -/
inductive Rhs (α : Type) (C : Nat) where
  | self
  | other (rhs : VLVector α C)

/-- Member `operator=(rhs)`. -/
def assign [Inhabited α] (alloc_ok : Bool) (s : State α C) :
    Rhs α C → Outcome (State α C) Unit
  | Rhs.self => Outcome.ret s ()
  | Rhs.other rhs =>
    let fill (s : State α C) : Outcome (State α C) Unit :=
      orUndefined (elements ({ heap := s.heap, v := rhs } : State α C)) fun xs =>
      orUndefined (std_copy_in xs s (begin s)) fun r => Outcome.ret r.1 ()
    orUndefined
      (if s.v._size > C then
        (s.delete_array s.v._heap_storage).map fun s1 =>
          { s1 with v := { s1.v with _heap_storage := none } }
       else some s) fun s1 =>
    let s2 : State α C :=
      { s1 with v := { s1.v with _size := rhs._size, _capacity := rhs._capacity } }
    if s2.v._size > C then
      if alloc_ok then
        fill { (s2.new_array s2.v._capacity).1 with
               v := { s2.v with _heap_storage := some (s2.new_array s2.v._capacity).2 } }
      else Outcome.thrown s2 Exn.bad_alloc
    else fill s2

/-- Loop of `std::equal(first1, last1, first2)` over two containers of one
store. -/
def equal_loop [DecidableEq α] : Nat → State α C → Ptr → State α C → Ptr → Option Bool
  | 0, _, _, _, _ => some true
  | n + 1, s1, p1, s2, p2 =>
    (s1.read p1).bind fun x =>
    (s2.read p2).bind fun y =>
    if x = y then equal_loop n s1 (p1.add 1) s2 (p2.add 1) else some false

/-- Member `operator==(rhs)`. -/
def operator_eq [DecidableEq α] (s : State α C) (rhs : VLVector α C) : Option Bool :=
  if s.v._size ≠ rhs._size then some false
  else
    equal_loop s.v._size s (begin s) ({ heap := s.heap, v := rhs } : State α C)
      (begin ({ heap := s.heap, v := rhs } : State α C))

/-- Destructor: `if (_size > StaticCapacity) delete[] _heap_storage;`. -/
def destroy (s : State α C) : Option (List (Option (List α))) :=
  if s.v._size > C then (s.delete_array s.v._heap_storage).map (fun s1 => s1.heap)
  else some s.heap

end Ops

/-! ## Specification vocabulary -/

section Vocabulary

variable {α : Type} {C : Nat}

/-- Overwrite `B` from offset `o` on with the elements of `X`. -/
def splice (B : List α) (o : Nat) (X : List α) : List α :=
  B.take o ++ X ++ B.drop (o + X.length)

/-- The storage-selector invariant of one container in its store: the fields
are `size_t` values, `_size ≤ _capacity`, the static array has
`StaticCapacity` slots, an inline container has `_capacity = StaticCapacity`
and no heap block, a spilled one points to a live block of `_capacity`
slots. -/
structure WF (s : State α C) : Prop where
  capacity_lt : s.v._capacity < SIZE_MOD
  size_le_capacity : s.v._size ≤ s.v._capacity
  static_length : s.v._static_storage.length = C
  inline : s.v._size ≤ C → s.v._capacity = C ∧ s.v._heap_storage = none
  spilled : C < s.v._size → ∃ b blk, s.v._heap_storage = some b ∧
    s.heap[b]? = some (some blk) ∧ blk.length = s.v._capacity

/-- What an operation on one container may do to the store: the store only
grows, every old block other than the container's own is left as it was, and
the block the container ends with is its old one or a new one. -/
structure Frame (s s1 : State α C) : Prop where
  heap_grows : s.heap.length ≤ s1.heap.length
  others : ∀ i, i < s.heap.length → s.v._heap_storage ≠ some i → s1.heap[i]? = s.heap[i]?
  own : ∀ b, s1.v._heap_storage = some b → s.v._heap_storage = some b ∨ s.heap.length ≤ b

/-- The whole array behind `data()`, all `_capacity` slots of it. -/
def State.active (s : State α C) : List α :=
  (s.load (data s).region).getD []

/-- Facts about the active array of a well-formed container. -/
structure ActiveView (s : State α C) : Prop where
  data_off : (data s).off = 0
  load : s.load (data s).region = some s.active
  length : s.active.length = s.v._capacity
  mode : (s.v._size ≤ C ∧ (data s).region = Region.stat ∧ s.active = s.v._static_storage) ∨
    (C < s.v._size ∧ ∃ b, (data s).region = Region.heap b ∧ s.v._heap_storage = some b ∧
      s.heap[b]? = some (some s.active) ∧ b < s.heap.length)

/-- The store after `delete[]` of the container's block. -/
def State.released (s : State α C) : List (Option (List α)) :=
  match s.v._heap_storage with
  | some b => s.heap.set b none
  | none => s.heap

/-- The state with one more block `N` at the end of the store and `_capacity`
set to `cap`. -/
def State.fresh (s : State α C) (N : List α) (cap : Nat) : State α C :=
  { heap := s.heap ++ [some N], v := { s.v with _capacity := cap } }

/-- Shape of the state after an operation that works inside the active array:
the array becomes `L`, the size `n`. -/
def State.inplace (s : State α C) (L : List α) (n : Nat) : State α C :=
  (s.store (data s).region L).set_size n

/-- The state with one more, already released, block at the end of the store
(what is left of a temporary buffer). -/
def State.junk (s : State α C) : State α C :=
  { s with heap := s.heap ++ [none] }

/-- Shape of the state after a growth: a new block `N` at the end of the store
is adopted, the old block (if the container was spilled) is released. -/
def State.grown (s : State α C) (N : List α) (n cap : Nat) : State α C :=
  { heap := (if C < s.v._size then s.released else s.heap) ++ [some N],
    v := { _size := n, _capacity := cap, _static_storage := s.v._static_storage,
           _heap_storage := some s.heap.length } }

/-- Shape of the state after a move back to the static array, which
becomes `S`. -/
def State.shrunk (s : State α C) (S : List α) (n : Nat) : State α C :=
  { heap := s.released,
    v := { _size := n, _capacity := C, _static_storage := S, _heap_storage := none } }

/-- Postcondition shared by the modifiers: the resulting container is
well-formed, holds the sequence `ys`, and the store is changed only as `Frame`
allows. -/
structure Post (s s1 : State α C) (ys : List α) : Prop where
  wf : WF s1
  elems : elements s1 = some ys
  frame : Frame s s1
  size_eq : s1.v._size = ys.length

/-- The container is inline-active: at most `StaticCapacity` elements,
`_capacity = StaticCapacity`, no dynamic storage, and `data()` is the static
array. -/
def InlineActive (s : State α C) : Prop :=
  s.v._size ≤ C ∧ s.v._capacity = C ∧ s.v._heap_storage = none ∧
    data s = ⟨Region.stat, 0⟩

/-- The container is spilled: more than `StaticCapacity` elements, and
`data()` is a live heap block of `_capacity` slots. -/
def Spilled (s : State α C) : Prop :=
  C < s.v._size ∧ ∃ b blk, s.v._heap_storage = some b ∧ data s = ⟨Region.heap b, 0⟩ ∧
    s.heap[b]? = some (some blk) ∧ blk.length = s.v._capacity

end Vocabulary

/-! ## Several containers in one store -/

section Worlds

variable {α : Type} {C : Nat}

/-- Containers of one instantiation `VLVector<T, StaticCapacity>` that share
the free store; the address of a container is its index in `objs`. -/
structure World (α : Type) (C : Nat) where
  heap : List (Option (List α))
  objs : List (VLVector α C)
  deriving DecidableEq, Repr

/-- Call a member function on the container at address `this`. -/
def World.run {ρ : Type} (w : World α C) (this : Nat)
    (f : State α C → Outcome (State α C) ρ) : Outcome (World α C) ρ :=
  match w.objs[this]? with
  | none => Outcome.undefined
  | some v =>
    match f { heap := w.heap, v := v } with
    | Outcome.undefined => Outcome.undefined
    | Outcome.thrown s e => Outcome.thrown { heap := s.heap, objs := w.objs.set this s.v } e
    | Outcome.ret s r => Outcome.ret { heap := s.heap, objs := w.objs.set this s.v } r

/-- Run a constructor; the new container gets the next address.  When the
constructor throws, no container comes to exist. -/
def World.construct (w : World α C)
    (f : List (Option (List α)) → Outcome (State α C) Unit) : Outcome (World α C) Unit :=
  match f w.heap with
  | Outcome.undefined => Outcome.undefined
  | Outcome.thrown s e => Outcome.thrown { heap := s.heap, objs := w.objs } e
  | Outcome.ret s _ => Outcome.ret { heap := s.heap, objs := w.objs ++ [s.v] } ()

/-- The calls of the container's interface that build or change containers.
Positions are given by their distance from `begin()`; an `element` argument
refers to an object outside the containers' storage and is given by its
value. -/
inductive Op (α : Type) where
  | construct_default
  | construct_range (xs : List α)
  | construct_fill (count : Nat) (init_val : α)
  | construct_copy (rhs : Nat)
  | push_back (this : Nat) (element : α)
  | insert (this : Nat) (pos : Nat) (element : α)
  | insert_range (this : Nat) (pos : Nat) (xs : List α)
  | pop_back (this : Nat)
  | erase (this : Nat) (pos : Nat)
  | erase_range (this : Nat) (first last : Nat)
  | clear (this : Nat)
  | assign (this : Nat) (rhs : Nat)
  | write (this : Nat) (ind : Nat) (element : α)

/-- The container a call changes, if it changes an existing one. -/
def Op.target : Op α → Option Nat
  | Op.construct_default => none
  | Op.construct_range _ => none
  | Op.construct_fill _ _ => none
  | Op.construct_copy _ => none
  | Op.push_back this _ => some this
  | Op.insert this _ _ => some this
  | Op.insert_range this _ _ => some this
  | Op.pop_back this => some this
  | Op.erase this _ => some this
  | Op.erase_range this _ _ => some this
  | Op.clear this => some this
  | Op.assign this _ => some this
  | Op.write this _ _ => some this

/-- Forget the value a call returns. -/
def Outcome.discard {σ ρ : Type} : Outcome σ ρ → Outcome σ Unit
  | Outcome.undefined => Outcome.undefined
  | Outcome.thrown s e => Outcome.thrown s e
  | Outcome.ret s _ => Outcome.ret s ()

/-- Run one call, every allocation succeeding.  `Op.write this ind x` is the
statement `v[ind] = x` through `operator[]`. -/
def World.step [Inhabited α] (w : World α C) : Op α → Outcome (World α C) Unit
  | Op.construct_default => w.construct fun heap => Outcome.ret (construct_default heap) ()
  | Op.construct_range xs => w.construct fun heap => construct_range true heap xs
  | Op.construct_fill count init_val =>
    w.construct fun heap => construct_fill true heap count init_val
  | Op.construct_copy rhs =>
    match w.objs[rhs]? with
    | none => Outcome.undefined
    | some r => w.construct fun heap => construct_copy true heap r
  | Op.push_back this element =>
    w.run this fun s => push_back true s (ConstRef.value element)
  | Op.insert this pos element =>
    (w.run this fun s =>
      insert true s ((begin s).add pos) (ConstRef.value element)).discard
  | Op.insert_range this pos xs =>
    (w.run this fun s => insert_range true s ((begin s).add pos) xs).discard
  | Op.pop_back this => w.run this pop_back
  | Op.erase this pos => (w.run this fun s => erase s ((begin s).add pos)).discard
  | Op.erase_range this first last =>
    (w.run this fun s => erase_range s ((begin s).add first) ((begin s).add last)).discard
  | Op.clear this => w.run this clear
  | Op.assign this rhs =>
    match w.objs[rhs]? with
    | none => Outcome.undefined
    | some r => w.run this fun s => assign true s (if this = rhs then Rhs.self else Rhs.other r)
  | Op.write this ind element =>
    w.run this fun s => orUndefined (s.write (index s ind) element) fun s1 => Outcome.ret s1 ()

/-- The preconditions of a call: the containers named exist, positions are
valid (`pos ≤ size`, `first ≤ last ≤ size`, `ind < size`), a count is a
`size_t`, and where the call allocates for `n` elements, `3 * n` does not
overflow `size_t`. -/
def World.allowed (w : World α C) : Op α → Prop
  | Op.construct_default => True
  | Op.construct_range xs => xs.length ≤ C ∨ 3 * xs.length < SIZE_MOD
  | Op.construct_fill count _ => count ≤ C ∨ 3 * count < SIZE_MOD
  | Op.construct_copy rhs => rhs < w.objs.length
  | Op.push_back this _ =>
    match w.objs[this]? with
    | none => False
    | some v => v._size + 1 ≤ v._capacity ∨ 3 * (v._size + 1) < SIZE_MOD
  | Op.insert this pos _ =>
    match w.objs[this]? with
    | none => False
    | some v => pos ≤ v._size ∧ (v._size + 1 ≤ v._capacity ∨ 3 * (v._size + 1) < SIZE_MOD)
  | Op.insert_range this pos xs =>
    match w.objs[this]? with
    | none => False
    | some v => pos ≤ v._size ∧
        (v._size + xs.length ≤ v._capacity ∨ 3 * (v._size + xs.length) < SIZE_MOD)
  | Op.pop_back this => this < w.objs.length
  | Op.erase this pos =>
    match w.objs[this]? with
    | none => False
    | some v => pos ≤ v._size
  | Op.erase_range this first last =>
    match w.objs[this]? with
    | none => False
    | some v => first ≤ last ∧ last ≤ v._size
  | Op.clear this => this < w.objs.length
  | Op.assign this rhs => this < w.objs.length ∧ rhs < w.objs.length
  | Op.write this ind _ =>
    match w.objs[this]? with
    | none => False
    | some v => ind < v._size

/-- The worlds that can arise: starting without containers, by calls whose
preconditions hold and that return. -/
inductive Reachable [Inhabited α] : World α C → Prop where
  | start (heap : List (Option (List α))) : Reachable { heap := heap, objs := [] }
  | call (w w1 : World α C) (op : Op α) : Reachable w → w.allowed op →
      w.step op = Outcome.ret w1 () → Reachable w1

/-- World invariant: every container is well-formed in the shared store and
no two containers own the same block. -/
structure WInv (w : World α C) : Prop where
  wf : ∀ (i : Nat) v, w.objs[i]? = some v → WF ({ heap := w.heap, v := v } : State α C)
  disjoint : ∀ (i j : Nat) v u b, i ≠ j → w.objs[i]? = some v → w.objs[j]? = some u →
    v._heap_storage = some b → u._heap_storage ≠ some b

/-- What a call leaves alone: every container other than its target keeps its
fields and its elements. -/
def Untouched (w w1 : World α C) (t : Option Nat) : Prop :=
  ∀ (j : Nat) (u : VLVector α C), t ≠ some j → w.objs[j]? = some u →
    w1.objs[j]? = some u ∧
    elements (⟨w1.heap, u⟩ : State α C) = elements (⟨w.heap, u⟩ : State α C)

/-- The storage-selector invariant, as the specification words it, for every
container of a world: `size ≤ capacity`; `size ≤ StaticCapacity` exactly when
`capacity = StaticCapacity` and exactly when there is no dynamic storage;
`size > StaticCapacity` exactly when `_heap_storage` points to a live block
of `capacity` slots. -/
def SelectorInvariant (w : World α C) : Prop :=
  ∀ (i : Nat) (v : VLVector α C), w.objs[i]? = some v →
    v._size ≤ v._capacity ∧
    (v._size ≤ C ↔ v._capacity = C) ∧
    (v._size ≤ C ↔ v._heap_storage = none) ∧
    (C < v._size ↔ ∃ b blk, v._heap_storage = some b ∧
      w.heap[b]? = some (some blk) ∧ blk.length = v._capacity)

/-- In world `w1` the container at address `y` is an independent copy of the
container `X` that world `w` has at address `x`: it has the size and the
elements of `X` and `operator==` says so; `X` is as it was; and whatever call
then changes the container at `y`, `X` stays as it was. -/
def CopyResult [Inhabited α] [DecidableEq α] (w w1 : World α C) (x y : Nat) : Prop :=
  ∃ (X Y : VLVector α C) (xs : List α),
    w.objs[x]? = some X ∧ elements ({ heap := w.heap, v := X } : State α C) = some xs ∧
    w1.objs[y]? = some Y ∧ Y._size = X._size ∧
    elements ({ heap := w1.heap, v := Y } : State α C) = some xs ∧
    operator_eq ({ heap := w1.heap, v := Y } : State α C) X = some true ∧
    w1.objs[x]? = some X ∧ elements ({ heap := w1.heap, v := X } : State α C) = some xs ∧
    ∀ op : Op α, op.target = some y → w1.allowed op →
      ∃ w2, w1.step op = Outcome.ret w2 () ∧ w2.objs[x]? = some X ∧
        elements ({ heap := w2.heap, v := X } : State α C) = some xs

/-- The capacity rule for one call `op`, as the specification words it: the
container the call changes, if it is spilled afterwards, has at least the
capacity it had before, and if it is inline afterwards, has capacity
`StaticCapacity`. -/
def CapacityRule [Inhabited α] (w : World α C) (op : Op α) : Prop :=
  ∀ (i : Nat) (v v1 : VLVector α C) (w1 : World α C),
    op.target = some i → w.objs[i]? = some v →
    w.step op = Outcome.ret w1 () → w1.objs[i]? = some v1 →
    (C < v1._size → v._capacity ≤ v1._capacity) ∧ (v1._size ≤ C → v1._capacity = C)

end Worlds

/-! ## Example containers, `StaticCapacity = 2`

The states `push_back 1`, `push_back 2`, `push_back 3`, `push_back 4` lead
through from an empty container in an empty store. -/

section Examples

/-- An inline container holding `[1]`. -/
def ex_one : State Nat 2 :=
  { heap := [], v := { _size := 1, _capacity := 2, _static_storage := [1, 0],
                       _heap_storage := none } }

/-- A full inline container holding `[1, 2]`. -/
def ex_full : State Nat 2 :=
  { heap := [], v := { _size := 2, _capacity := 2, _static_storage := [1, 2],
                       _heap_storage := none } }

/-- A spilled container holding `[1, 2, 3]` in a block of capacity 4. -/
def ex_spilled : State Nat 2 :=
  { heap := [some [1, 2, 3, 0]],
    v := { _size := 3, _capacity := 4, _static_storage := [1, 2], _heap_storage := some 0 } }

/-- A full spilled container holding `[1, 2, 3, 4]`. -/
def ex_spilled_full : State Nat 2 :=
  { heap := [some [1, 2, 3, 4]],
    v := { _size := 4, _capacity := 4, _static_storage := [1, 2], _heap_storage := some 0 } }

/-- The world after `VLVector<int, 2> v; v.push_back(1); v.push_back(2);
v.push_back(3);` in an empty store. -/
def ex_world : World Nat 2 :=
  { heap := [some [1, 2, 3, 0]],
    objs := [{ _size := 3, _capacity := 4, _static_storage := [1, 2],
               _heap_storage := some 0 }] }

/-- The world `ex_world` with a second, inline container holding `[9]`. -/
def ex_world_two : World Nat 2 :=
  { heap := [some [1, 2, 3, 0]],
    objs := [{ _size := 3, _capacity := 4, _static_storage := [1, 2],
               _heap_storage := some 0 },
             { _size := 1, _capacity := 2, _static_storage := [9, 0],
               _heap_storage := none }] }

/-- The world after `VLVector<int, 2> v; v.push_back(1); v.push_back(2);`: one
full inline container. -/
def ex_world_full : World Nat 2 :=
  { heap := [],
    objs := [{ _size := 2, _capacity := 2, _static_storage := [1, 2],
               _heap_storage := none }] }

/-- The world after building `a` from the range `[1, 2, 3, 4, 5]` and `b` from
the range `[1, 2, 3]`: two spilled containers, of capacity 7 and 4. -/
def ex_world_caps : World Nat 2 :=
  { heap := [some [1, 2, 3, 4, 5, 0, 0], some [1, 2, 3, 0]],
    objs := [{ _size := 5, _capacity := 7, _static_storage := [0, 0],
               _heap_storage := some 0 },
             { _size := 3, _capacity := 4, _static_storage := [0, 0],
               _heap_storage := some 1 }] }

end Examples

/-! # Lemmas

## Lists -/

section ListLemmas

variable {α : Type}

theorem getElem?_splice (B X : List α) (o i : Nat) (h : o + X.length ≤ B.length) :
    (splice B o X)[i]? =
      if i < o then B[i]? else if i < o + X.length then X[i - o]? else B[i]? := by
  have h1 : (List.take o B).length = o := by simp; omega
  unfold splice
  by_cases hi : i < o
  · simp [List.getElem?_append, List.getElem?_take, h1, hi]
  · by_cases hi2 : i < o + X.length
    · have : i - o < X.length := by omega
      simp [List.getElem?_append, h1, hi, hi2, this]
    · have h2 : o ≤ B.length := by omega
      simp [List.getElem?_append, List.getElem?_drop, hi, hi2, List.length_take, Nat.min_eq_left h2]
      have h3 : ¬ i - o < X.length := by omega
      have h4 : o + X.length + (i - o - X.length) = i := by omega
      simp [h3, h4]

theorem length_splice (B X : List α) (o : Nat) (h : o + X.length ≤ B.length) :
    (splice B o X).length = B.length := by
  unfold splice; simp; omega

theorem splice_nil (B : List α) (o : Nat) : splice B o [] = B := by
  simp [splice]

theorem splice_set_cons (B X : List α) (a : α) (o : Nat) (h : o + (X.length + 1) ≤ B.length) :
    splice (B.set o a) (o + 1) X = splice B o (a :: X) := by
  apply List.ext_getElem?
  intro i
  rw [getElem?_splice _ _ _ _ (by simp; omega), getElem?_splice _ _ _ _ (by simp; omega)]
  simp only [List.getElem?_set, List.length_cons]
  by_cases h1 : i < o
  · have : i < o + 1 := by omega
    have h3 : ¬ o = i := by omega
    simp [h1, this, h3]
  · by_cases h2 : i = o
    · subst h2
      have : i < B.length := by omega
      simp [this]
    · have h3 : ¬ i < o + 1 := by omega
      have h4 : ¬ o = i := by omega
      simp only [h1, h3, h4, if_false]
      have : i - o = (i - (o + 1)) + 1 := by omega
      rw [this]
      have e : o + 1 + X.length = o + (X.length + 1) := by omega
      simp [e]

theorem splice_set_snoc (B X : List α) (a : α) (o : Nat) (h : o + (X.length + 1) ≤ B.length) :
    splice (B.set (o + X.length) a) o X = splice B o (X ++ [a]) := by
  apply List.ext_getElem?
  intro i
  rw [getElem?_splice _ _ _ _ (by simp; omega), getElem?_splice _ _ _ _ (by simp; omega)]
  simp only [List.getElem?_set, List.length_append, List.length_singleton]
  by_cases h1 : i < o
  · have h3 : ¬ o + X.length = i := by omega
    simp [h1, h3]
  · by_cases h2 : i < o + X.length
    · have h3 : ¬ o + X.length = i := by omega
      have h4 : i < o + (X.length + 1) := by omega
      have h5 : i - o < X.length := by omega
      simp [h1, h2, h3, h4, List.getElem?_append, h5]
    · by_cases h3 : i = o + X.length
      · subst h3
        have : o + X.length < B.length := by omega
        simp [this, List.getElem?_append]
      · have h4 : ¬ i < o + (X.length + 1) := by omega
        have h5 : ¬ o + X.length = i := by omega
        simp [h1, h2, h4, h5]

end ListLemmas

/-! ## The store -/

section StoreLemmas
variable {α : Type} {C : Nat}

@[simp] theorem store_size (s : State α C) (r : Region) (l : List α) :
    (s.store r l).v._size = s.v._size := by
  cases r <;> rfl

@[simp] theorem store_capacity (s : State α C) (r : Region) (l : List α) :
    (s.store r l).v._capacity = s.v._capacity := by
  cases r <;> rfl

@[simp] theorem store_heap_storage (s : State α C) (r : Region) (l : List α) :
    (s.store r l).v._heap_storage = s.v._heap_storage := by
  cases r <;> rfl

theorem heap_lt_of_load {s : State α C} {b : Nat} {l : List α}
    (h : s.load (Region.heap b) = some l) : b < s.heap.length ∧ s.heap[b]? = some (some l) := by
  unfold State.load at h
  cases hb : s.heap[b]? with
  | none => simp [hb] at h
  | some o =>
    cases o with
    | none => simp [hb] at h
    | some l1 =>
      simp [hb] at h
      subst h
      exact ⟨(List.getElem?_eq_some_iff.mp hb).1, rfl⟩

theorem load_heap_iff {s : State α C} {b : Nat} {l : List α} :
    s.load (Region.heap b) = some l ↔ s.heap[b]? = some (some l) := by
  constructor
  · intro h; exact (heap_lt_of_load h).2
  · intro h; simp [State.load, h]

theorem load_store_same {s : State α C} {r : Region} {l0 : List α} (l : List α)
    (h : s.load r = some l0) : (s.store r l).load r = some l := by
  cases r with
  | null => simp [State.load] at h
  | stat => rfl
  | heap b =>
    have hb := (heap_lt_of_load h).1
    simp [State.load, State.store, hb]

theorem load_store_ne (s : State α C) {r r1 : Region} (l : List α) (h : r1 ≠ r) :
    (s.store r l).load r1 = s.load r1 := by
  cases r with
  | null => rfl
  | stat =>
    cases r1 with
    | null => rfl
    | stat => exact absurd rfl h
    | heap b => rfl
  | heap b =>
    cases r1 with
    | null => rfl
    | stat => rfl
    | heap b1 =>
      have : b ≠ b1 := fun e => h (by rw [e])
      simp [State.load, State.store, List.getElem?_set, this]

theorem store_store (s : State α C) (r : Region) (l1 l2 : List α) :
    (s.store r l1).store r l2 = s.store r l2 := by
  cases r <;> simp [State.store]

theorem store_load {s : State α C} {r : Region} {l : List α} (h : s.load r = some l) :
    s.store r l = s := by
  cases r with
  | null => rfl
  | stat =>
    simp [State.load] at h
    subst h
    rfl
  | heap b =>
    have hb := heap_lt_of_load h
    simp only [State.store]
    have : s.heap.set b (some l) = s.heap := by
      apply List.ext_getElem?
      intro i
      by_cases hi : b = i
      · subst hi; simp [List.getElem?_set, hb.1, hb.2]
      · simp [List.getElem?_set, hi]
    rw [this]

@[simp] theorem deref_value (s : State α C) (x : α) :
    s.deref (ConstRef.value x) = some x := rfl

theorem orUndefined_some {β σ ρ : Type} (b : β) (k : β → Outcome σ ρ) :
    orUndefined (some b) k = k b := rfl

theorem read_eq {s : State α C} {p : Ptr} {l : List α} (h : s.load p.region = some l) :
    s.read p = l[p.off]? := by
  simp [State.read, h]

theorem write_eq {s : State α C} {p : Ptr} {l : List α} (x : α)
    (h : s.load p.region = some l) (hp : p.off < l.length) :
    s.write p x = some (s.store p.region (l.set p.off x)) := by
  simp [State.write, h, hp]

theorem drop_take_succ (A : List α) (f n : Nat) (h : f < A.length) :
    (A.drop f).take (n + 1) = A[f] :: (A.drop (f + 1)).take n := by
  rw [List.drop_eq_getElem_cons h]
  rfl

theorem copy_loop_eq (n : Nat) : ∀ (s : State α C) (first d : Ptr) (A B : List α),
    s.load first.region = some A → s.load d.region = some B →
    (first.region = d.region → d.off ≤ first.off) →
    first.off + n ≤ A.length → d.off + n ≤ B.length →
    copy_loop n s first d
      = some (s.store d.region (splice B d.off ((A.drop first.off).take n))) := by
  induction n with
  | zero =>
    intro s first d A B _ hB _ _ _
    simp [copy_loop, splice_nil, store_load hB]
  | succ n ih =>
    intro s first d A B hA hB hov hf hd
    have hfl : first.off < A.length := by omega
    have hdl : d.off < B.length := by omega
    have hr : s.read first = some A[first.off] := by
      rw [read_eq hA]; exact List.getElem?_eq_getElem hfl
    have hw := write_eq A[first.off] hB hdl
    simp only [copy_loop, hr, hw, Option.some_bind]
    have hB1 : (s.store d.region (B.set d.off A[first.off])).load (d.add 1).region
        = some (B.set d.off A[first.off]) := load_store_same _ hB
    by_cases hreg : first.region = d.region
    · have hAB : A = B := by
        rw [hreg] at hA; rw [hA] at hB; exact Option.some.inj hB
      subst hAB
      have hA1 : (s.store d.region (A.set d.off A[first.off])).load (first.add 1).region
          = some (A.set d.off A[first.off]) := by
        show (s.store d.region _).load first.region = _
        rw [hreg]; exact load_store_same _ hB
      rw [ih _ _ _ _ _ hA1 hB1 (fun _ => by simp [Ptr.add]; exact hov hreg)
        (by simp [Ptr.add]; omega) (by simp [Ptr.add]; omega)]
      simp only [Ptr.add, store_store]
      rw [List.drop_set_of_lt _ _ (by have := hov hreg; omega), splice_set_cons _ _ _ _
        (by simp; omega), ← drop_take_succ _ _ _ hfl]
    · have hA1 : (s.store d.region (B.set d.off A[first.off])).load (first.add 1).region
          = some A := by
        show (s.store d.region _).load first.region = _
        rw [load_store_ne _ _ hreg]; exact hA
      rw [ih _ _ _ _ _ hA1 hB1 (fun e => absurd e hreg)
        (by simp [Ptr.add]; omega) (by simp [Ptr.add]; omega)]
      simp only [Ptr.add, store_store]
      rw [splice_set_cons _ _ _ _ (by simp; omega), ← drop_take_succ _ _ _ hfl]

end StoreLemmas

/-! ## The standard algorithms in closed form -/

section LoopLemmas
variable {α : Type} {C : Nat}

theorem take_drop_set_of_le (A : List α) (j a n : Nat) (x : α) (h : a + n ≤ j) :
    ((A.set j x).drop a).take n = (A.drop a).take n := by
  apply List.ext_getElem?
  intro i
  simp only [List.getElem?_take, List.getElem?_drop, List.getElem?_set]
  by_cases hi : i < n
  · have : ¬ j = a + i := by omega
    simp [hi, this]
  · simp [hi]

theorem take_succ_drop (A : List α) (a n : Nat) (x : α) (h : A[a + n]? = some x) :
    (A.drop a).take (n + 1) = (A.drop a).take n ++ [x] := by
  rw [List.take_succ, List.getElem?_drop, h]
  rfl

theorem splice_snoc_of (B X : List α) (x : α) (o j : Nat) (hj : j = o + X.length)
    (h : o + (X.length + 1) ≤ B.length) :
    splice (B.set j x) o X = splice B o (X ++ [x]) := by
  subst hj
  exact splice_set_snoc B X x o h

theorem length_take_drop (A : List α) (a n : Nat) (h : a + n ≤ A.length) :
    ((A.drop a).take n).length = n := by
  simp; omega

theorem std_copy_in_eq (xs : List α) : ∀ (s : State α C) (d : Ptr) (B : List α),
    s.load d.region = some B → d.off + xs.length ≤ B.length →
    std_copy_in xs s d = some (s.store d.region (splice B d.off xs), d.add xs.length) := by
  induction xs with
  | nil =>
    intro s d B hB _
    simp [std_copy_in, splice_nil, store_load hB, Ptr.add]
  | cons x xs ih =>
    intro s d B hB hd
    simp only [List.length_cons] at hd
    have hw := write_eq x hB (by omega : d.off < B.length)
    have hB1 : (s.store d.region (B.set d.off x)).load (d.add 1).region
        = some (B.set d.off x) := load_store_same _ hB
    simp only [std_copy_in, hw, Option.some_bind]
    rw [ih _ _ _ hB1 (by simp [Ptr.add]; omega)]
    simp only [Ptr.add, store_store, List.length_cons]
    rw [splice_set_cons _ _ _ _ (by omega)]
    simp [Nat.add_assoc, Nat.add_comm 1]

theorem std_fill_n_eq (n : Nat) (x : α) : ∀ (s : State α C) (d : Ptr) (B : List α),
    s.load d.region = some B → d.off + n ≤ B.length →
    std_fill_n n s d x = some (s.store d.region (splice B d.off (List.replicate n x))) := by
  induction n with
  | zero =>
    intro s d B hB _
    simp [std_fill_n, splice_nil, store_load hB]
  | succ n ih =>
    intro s d B hB hd
    have hw := write_eq x hB (by omega : d.off < B.length)
    have hB1 : (s.store d.region (B.set d.off x)).load (d.add 1).region
        = some (B.set d.off x) := load_store_same _ hB
    simp only [std_fill_n, hw, Option.some_bind]
    rw [ih _ _ _ hB1 (by simp [Ptr.add]; omega)]
    simp only [Ptr.add, store_store]
    rw [splice_set_cons _ _ _ _ (by simp; omega)]
    rfl

theorem move_backward_loop_eq (n : Nat) : ∀ (s : State α C) (last d_last : Ptr) (A B : List α),
    s.load last.region = some A → s.load d_last.region = some B →
    (last.region = d_last.region → last.off ≤ d_last.off) →
    n ≤ last.off → last.off ≤ A.length → n ≤ d_last.off → d_last.off ≤ B.length →
    move_backward_loop n s last d_last
      = some (s.store d_last.region
          (splice B (d_last.off - n) ((A.drop (last.off - n)).take n))) := by
  induction n with
  | zero =>
    intro s last d A B _ hB _ _ _ _ _
    simp [move_backward_loop, splice_nil, store_load hB]
  | succ n ih =>
    intro s last d A B hA hB hov hl hla hd hdb
    have hl1 : last.off - 1 < A.length := by omega
    have hd1 : d.off - 1 < B.length := by omega
    have hs1 : last.sub 1 = some ⟨last.region, last.off - 1⟩ := by
      simp [Ptr.sub]; omega
    have hs2 : d.sub 1 = some ⟨d.region, d.off - 1⟩ := by
      simp [Ptr.sub]; omega
    have hr : s.read ⟨last.region, last.off - 1⟩ = some A[last.off - 1] := by
      rw [read_eq (p := ⟨last.region, last.off - 1⟩) hA]; exact List.getElem?_eq_getElem hl1
    have hw := write_eq (p := ⟨d.region, d.off - 1⟩) A[last.off - 1] hB hd1
    simp only [move_backward_loop, hs1, hs2, hr, hw, Option.some_bind]
    have hB1 : (s.store d.region (B.set (d.off - 1) A[last.off - 1])).load d.region
        = some (B.set (d.off - 1) A[last.off - 1]) := load_store_same _ hB
    have hlen : ((A.drop (last.off - 1 - n)).take n).length = n :=
      length_take_drop _ _ _ (by omega)
    have e1 : last.off - 1 - n = last.off - (n + 1) := by omega
    have e2 : d.off - 1 - n = d.off - (n + 1) := by omega
    have key : splice (B.set (d.off - 1) A[last.off - 1]) (d.off - 1 - n)
          ((A.drop (last.off - 1 - n)).take n)
        = splice B (d.off - (n + 1)) ((A.drop (last.off - (n + 1))).take (n + 1)) := by
      rw [splice_snoc_of _ _ _ _ _ (by rw [hlen]; omega) (by rw [hlen]; omega), e1, e2]
      have e5 : last.off - (n + 1) + n = last.off - 1 := by omega
      rw [take_succ_drop A (last.off - (n + 1)) n A[last.off - 1]
        (by rw [e5]; exact List.getElem?_eq_getElem hl1)]
    by_cases hreg : last.region = d.region
    · have hAB : A = B := by
        rw [hreg] at hA; rw [hA] at hB; exact Option.some.inj hB
      subst hAB
      have hA1 : (s.store d.region (A.set (d.off - 1) A[last.off - 1])).load last.region
          = some (A.set (d.off - 1) A[last.off - 1]) := by
        rw [hreg]; exact load_store_same _ hB
      rw [ih _ ⟨last.region, last.off - 1⟩ ⟨d.region, d.off - 1⟩ _ _ hA1 hB1
        (fun _ => by have := hov hreg; simp; omega)
        (by simp; omega) (by simp; omega) (by simp; omega) (by simp; omega)]
      simp only [store_store]
      rw [take_drop_set_of_le _ _ _ _ _ (by have := hov hreg; omega), key]
    · have hA1 : (s.store d.region (B.set (d.off - 1) A[last.off - 1])).load last.region
          = some A := by
        rw [load_store_ne _ _ hreg]; exact hA
      rw [ih _ ⟨last.region, last.off - 1⟩ ⟨d.region, d.off - 1⟩ _ _ hA1 hB1
        (fun e => absurd e hreg)
        (by simp; omega) (by simp; omega) (by simp; omega) (by simp; omega)]
      simp only [store_store]
      rw [key]

theorem distance_eq (r : Region) (a b : Nat) (h : a ≤ b) :
    distance ⟨r, a⟩ ⟨r, b⟩ = some (b - a) := by
  simp [distance, h]

end LoopLemmas

section AlgLemmas
variable {α : Type} {C : Nat}

theorem std_copy_eq (s : State α C) (r : Region) (a b : Nat) (d : Ptr) (A B : List α)
    (hA : s.load r = some A) (hB : s.load d.region = some B)
    (hov : r = d.region → d.off ≤ a)
    (hab : a ≤ b) (hb : b ≤ A.length) (hd : d.off + (b - a) ≤ B.length) :
    std_copy s ⟨r, a⟩ ⟨r, b⟩ d
      = some (s.store d.region (splice B d.off ((A.drop a).take (b - a))), d.add (b - a)) := by
  unfold std_copy
  rw [distance_eq r a b hab]
  simp only [Option.some_bind]
  rw [copy_loop_eq (b - a) s ⟨r, a⟩ d A B hA hB hov (by simp; omega) hd]
  rfl

theorem std_move_backward_eq (s : State α C) (r : Region) (a b : Nat) (d : Ptr)
    (A B : List α)
    (hA : s.load r = some A) (hB : s.load d.region = some B)
    (hov : r = d.region → b ≤ d.off)
    (hab : a ≤ b) (hb : b ≤ A.length) (hd1 : b - a ≤ d.off) (hd : d.off ≤ B.length) :
    std_move_backward s ⟨r, a⟩ ⟨r, b⟩ d
      = some (s.store d.region (splice B (d.off - (b - a)) ((A.drop a).take (b - a))),
          ⟨d.region, d.off - (b - a)⟩) := by
  unfold std_move_backward
  rw [distance_eq r a b hab]
  simp only [Option.some_bind]
  rw [move_backward_loop_eq (b - a) s ⟨r, b⟩ d A B hA hB hov (by simp) hb hd1 hd]
  have e : b - (b - a) = a := by omega
  simp [Ptr.sub, hd1, e]

end AlgLemmas


/-! ## Shapes of the resulting states -/

section Shapes
variable {α : Type} {C : Nat}

theorem data_inline {s : State α C} (h : s.v._size ≤ C) : data s = ⟨Region.stat, 0⟩ := by
  simp [data, Nat.not_lt.mpr h]

theorem data_spilled {s : State α C} {b : Nat} (h : C < s.v._size)
    (hb : s.v._heap_storage = some b) : data s = ⟨Region.heap b, 0⟩ := by
  simp [data, h, hb]

theorem view_of_WF {s : State α C} (h : WF s) : ActiveView s := by
  by_cases hm : s.v._size ≤ C
  · have hd := data_inline hm
    have ha : s.active = s.v._static_storage := by simp [State.active, hd, State.load]
    refine ⟨by rw [hd], by rw [ha, hd]; rfl, by rw [ha, h.static_length, (h.inline hm).1],
      Or.inl ⟨hm, by rw [hd], ha⟩⟩
  · have hm1 : C < s.v._size := Nat.lt_of_not_le hm
    obtain ⟨b, blk, hb, hblk, hlen⟩ := h.spilled hm1
    have hd := data_spilled hm1 hb
    have hl : s.load (Region.heap b) = some blk := by simp [State.load, hblk]
    have ha : s.active = blk := by simp [State.active, hd, hl]
    refine ⟨by rw [hd], by rw [ha, hd]; exact hl, by rw [ha, hlen],
      Or.inr ⟨hm1, b, by rw [hd], hb, by rw [ha]; exact hblk,
        (List.getElem?_eq_some_iff.mp hblk).1⟩⟩

theorem elements_eq {s : State α C} {L : List α} (hoff : (data s).off = 0)
    (hl : s.load (data s).region = some L) (hn : s.v._size ≤ L.length) :
    elements s = some (L.take s.v._size) := by
  simp [elements, State.read_range, begin, hl, hoff, hn]

theorem elements_of_WF {s : State α C} (h : WF s) :
    elements s = some (s.active.take s.v._size) :=
  elements_eq (view_of_WF h).data_off (view_of_WF h).load (by rw [(view_of_WF h).length]; exact h.size_le_capacity)

theorem inplace_inline {s : State α C} (hm : s.v._size ≤ C) (L : List α) (n : Nat) :
    s.inplace L n = { heap := s.heap, v := { s.v with _size := n, _static_storage := L } } := by
  simp [State.inplace, State.set_size, data_inline hm, State.store]

theorem inplace_spilled {s : State α C} {b : Nat} (hm : C < s.v._size)
    (hb : s.v._heap_storage = some b) (L : List α) (n : Nat) :
    s.inplace L n = { heap := s.heap.set b (some L), v := { s.v with _size := n } } := by
  simp [State.inplace, State.set_size, data_spilled hm hb, State.store]

theorem inplace_spec {s : State α C} (h : WF s) {L : List α} {n : Nat}
    (hL : L.length = s.v._capacity) (hn : n ≤ s.v._capacity)
    (hmode : n ≤ C ↔ s.v._size ≤ C) :
    WF (s.inplace L n) ∧ elements (s.inplace L n) = some (L.take n) ∧
      Frame s (s.inplace L n) ∧ (s.inplace L n).v._size = n ∧
      (s.inplace L n).v._capacity = s.v._capacity ∧
      data (s.inplace L n) = data s := by
  rcases (view_of_WF h).mode with ⟨hm, -, -⟩ | ⟨hm, b, -, hb, hblk, hlt⟩
  · have hn1 : n ≤ C := hmode.mpr hm
    have hi := h.inline hm
    rw [inplace_inline hm]
    refine ⟨⟨h.capacity_lt, hn, by simp [hL, hi.1], fun _ => hi, fun hc => ?_⟩, ?_,
      ⟨Nat.le_refl _, fun _ _ _ => rfl, fun b hb => Or.inl hb⟩, rfl, rfl, ?_⟩
    · exact absurd hn1 (by simp at hc; omega)
    · rw [elements_eq (L := L)] <;> simp [data, Nat.not_lt.mpr hn1, State.load, hL, hn]
    · simp [data, Nat.not_lt.mpr hn1, Nat.not_lt.mpr hm]
  · have hn1 : C < n := by
      rcases Nat.lt_or_ge C n with h1 | h1
      · exact h1
      · exact absurd (hmode.mp h1) (by omega)
    rw [inplace_spilled hm hb]
    refine ⟨⟨h.capacity_lt, hn, h.static_length, fun hc => ?_, fun _ => ?_⟩, ?_,
      ⟨by simp, fun i _ hi => ?_, fun b hb => Or.inl hb⟩, rfl, rfl, ?_⟩
    · exact absurd hn1 (by simp at hc; omega)
    · exact ⟨b, L, hb, by simp [hlt], hL⟩
    · rw [elements_eq (L := L)] <;> simp [data, hn1, hb, State.load, hL, hn, hlt]
    · have : b ≠ i := fun e => hi (by rw [hb, e])
      simp [List.getElem?_set, this]
    · simp [data, hn1, hm]

end Shapes

section Shapes2
variable {α : Type} {C : Nat}

theorem released_length (s : State α C) : s.released.length = s.heap.length := by
  unfold State.released
  cases s.v._heap_storage <;> simp

theorem released_getElem?_of_ne (s : State α C) (i : Nat) (h : s.v._heap_storage ≠ some i) :
    s.released[i]? = s.heap[i]? := by
  unfold State.released
  cases hb : s.v._heap_storage with
  | none => rfl
  | some b =>
    have : b ≠ i := fun e => h (by rw [hb, e])
    simp [List.getElem?_set, this]

theorem grown_spec {s : State α C} (h : WF s) (N : List α) (n cap : Nat)
    (hN : N.length = cap) (hn : n ≤ cap) (hC : C < n) (hcap : cap < SIZE_MOD) :
    WF (s.grown N n cap) ∧ elements (s.grown N n cap) = some (N.take n) ∧
      Frame s (s.grown N n cap) ∧ (s.grown N n cap).v._size = n ∧
      (s.grown N n cap).v._capacity = cap ∧
      data (s.grown N n cap) = ⟨Region.heap s.heap.length, 0⟩ := by
  have hlen : (if C < s.v._size then s.released else s.heap).length = s.heap.length := by
    split
    · exact released_length s
    · rfl
  have hget : (s.grown N n cap).heap[s.heap.length]? = some (some N) := by
    simp [State.grown, List.getElem?_append, hlen]
  have hd : data (s.grown N n cap) = ⟨Region.heap s.heap.length, 0⟩ := by
    simp [data, State.grown, hC]
  refine ⟨⟨hcap, hn, ?_, fun hc => ?_, fun _ => ⟨s.heap.length, N, rfl, hget, hN⟩⟩, ?_,
    ⟨?_, fun i hi hne => ?_, fun b hb => Or.inr ?_⟩, rfl, rfl, hd⟩
  · exact h.static_length
  · exact absurd hC (by simp [State.grown] at hc; omega)
  · rw [elements_eq (L := N) (by rw [hd]) (by rw [hd]; simp [State.load, hget])]
    · rfl
    · simp [State.grown, hN, hn]
  · simp [State.grown, hlen]
  · simp only [State.grown]
    rw [List.getElem?_append_left (by rw [hlen]; exact hi)]
    split
    · exact released_getElem?_of_ne s i hne
    · rfl
  · simp [State.grown] at hb
    omega

theorem shrunk_spec {s : State α C} (h : WF s) (S : List α) (n : Nat)
    (hm : C < s.v._size) (hS : S.length = C) (hn : n ≤ C) :
    WF (s.shrunk S n) ∧ elements (s.shrunk S n) = some (S.take n) ∧
      Frame s (s.shrunk S n) ∧ (s.shrunk S n).v._size = n ∧
      (s.shrunk S n).v._capacity = C ∧
      data (s.shrunk S n) = ⟨Region.stat, 0⟩ := by
  have hd : data (s.shrunk S n) = ⟨Region.stat, 0⟩ := by
    simp [data, State.shrunk, Nat.not_lt.mpr hn]
  have hCl : C < SIZE_MOD := by
    have := h.capacity_lt
    have := h.size_le_capacity
    omega
  refine ⟨⟨hCl, hn, hS, fun _ => ⟨rfl, rfl⟩, fun hc => ?_⟩, ?_,
    ⟨?_, fun i _ hne => released_getElem?_of_ne s i hne, fun b hb => ?_⟩, rfl, rfl, hd⟩
  · exact absurd hn (by simp [State.shrunk] at hc; omega)
  · rw [elements_eq (L := S) (by rw [hd]) (by rw [hd]; rfl)]
    · rfl
    · simp [State.shrunk, hS, hn]
  · simp [State.shrunk, released_length]
  · simp [State.shrunk] at hb

/-! ## Evaluation of the shared steps -/

theorem load_fresh {s : State α C} {r : Region} {L : List α} (h : s.load r = some L)
    (X : List (Option (List α))) (v : VLVector α C)
    (hv : v._static_storage = s.v._static_storage) :
    ({ heap := s.heap ++ X, v := v } : State α C).load r = some L := by
  cases r with
  | null => simp [State.load] at h
  | stat => simp [State.load] at h ⊢; rw [hv, h]
  | heap b =>
    have hb := heap_lt_of_load h
    simp [State.load, List.getElem?_append_left hb.1, hb.2]

theorem alloc_eq [Inhabited α] (s : State α C) (k : Nat) :
    alloc_new_heap_storage true s k = Outcome.ret
      { heap := s.heap ++ [some (List.replicate (UPSIZE_CAP s.v._size k) default)],
        v := { s.v with _capacity := UPSIZE_CAP s.v._size k } } s.heap.length := by
  simp [alloc_new_heap_storage, State.new_array]

theorem adopt_eq {s : State α C} (h : WF s) (N0 N : List α) (cap : Nat) :
    adopt (({ heap := s.heap ++ [some N0], v := { s.v with _capacity := cap } } :
      State α C).store (Region.heap s.heap.length) N) s.heap.length
      = some (s.grown N s.v._size cap) := by
  have hset : (s.heap ++ [some N0]).set s.heap.length (some N) = s.heap ++ [some N] := by
    simp
  rcases (view_of_WF h).mode with ⟨hm, -, -⟩ | ⟨hm, b, -, hb, hblk, hlt⟩
  · simp [adopt, State.store, State.grown, Nat.not_lt.mpr hm, hset]
  · have hne : b ≠ s.heap.length := by omega
    simp [adopt, State.store, State.grown, hm, hb, State.delete_array, hset,
      List.getElem?_append_left hlt, hblk, State.released, List.set_append, hlt]

theorem to_static_eq {s : State α C} (h : WF s) (hm : C < s.v._size) (S : List α) :
    to_static (s.store Region.stat S) = some (s.shrunk S s.v._size) := by
  obtain ⟨b, blk, hb, hblk, -⟩ := h.spilled hm
  simp [to_static, State.store, State.delete_array, hb, hblk, State.shrunk, State.released]

end Shapes2

/-! ## Evaluation of `push_back` -/

section PushBack
variable {α : Type} {C : Nat}

theorem UPSIZE_CAP_eq (n k : Nat) (h : 3 * (n + k) < SIZE_MOD) :
    UPSIZE_CAP n k = 3 * (n + k) / 2 := by
  unfold UPSIZE_CAP
  rw [Nat.mod_eq_of_lt (by omega : n + k < SIZE_MOD), Nat.mod_eq_of_lt h]

theorem wrap_pred (n : Nat) (h : n < SIZE_MOD) : (n + 1 + SIZE_MOD - 1) % SIZE_MOD = n := by
  rw [show n + 1 + SIZE_MOD - 1 = n + SIZE_MOD by omega, Nat.add_mod_right]
  exact Nat.mod_eq_of_lt h

@[simp] theorem set_size_size (s : State α C) (n : Nat) : (s.set_size n).v._size = n := rfl

@[simp] theorem set_size_capacity (s : State α C) (n : Nat) :
    (s.set_size n).v._capacity = s.v._capacity := rfl

@[simp] theorem set_size_heap_storage (s : State α C) (n : Nat) :
    (s.set_size n).v._heap_storage = s.v._heap_storage := rfl

@[simp] theorem set_size_static_storage (s : State α C) (n : Nat) :
    (s.set_size n).v._static_storage = s.v._static_storage := rfl

@[simp] theorem set_size_heap (s : State α C) (n : Nat) : (s.set_size n).heap = s.heap := rfl

@[simp] theorem set_size_set_size (s : State α C) (n m : Nat) :
    (s.set_size n).set_size m = s.set_size m := rfl

theorem store_set_size (s : State α C) (r : Region) (L : List α) (n : Nat) :
    (s.set_size n).store r L = (s.store r L).set_size n := by
  cases r <;> rfl

@[simp] theorem load_set_size (s : State α C) (r : Region) (n : Nat) :
    (s.set_size n).load r = s.load r := by
  cases r <;> rfl

theorem data_set_size (s : State α C) (n : Nat) (h : n ≤ C ↔ s.v._size ≤ C) :
    data (s.set_size n) = data s := by
  unfold data
  by_cases hm : s.v._size ≤ C
  · simp [Nat.not_lt.mpr hm, Nat.not_lt.mpr (h.mpr hm)]
  · have h1 : C < s.v._size := Nat.lt_of_not_le hm
    have h2 : C < n := by
      rcases Nat.lt_or_ge C n with h3 | h3
      · exact h3
      · exact absurd (h.mp h3) hm
    simp [h1, h2]

@[simp] theorem grown_set_size (s : State α C) (N : List α) (n m cap : Nat) :
    (s.grown N n cap).set_size m = s.grown N m cap := rfl

@[simp] theorem shrunk_set_size (s : State α C) (S : List α) (n m : Nat) :
    (s.shrunk S n).set_size m = s.shrunk S m := rfl

@[simp] theorem inplace_set_size (s : State α C) (L : List α) (n m : Nat) :
    (s.inplace L n).set_size m = s.inplace L m := rfl

@[simp] theorem grown_size (s : State α C) (N : List α) (n cap : Nat) :
    (s.grown N n cap).v._size = n := rfl

@[simp] theorem grown_capacity (s : State α C) (N : List α) (n cap : Nat) :
    (s.grown N n cap).v._capacity = cap := rfl

@[simp] theorem shrunk_size (s : State α C) (S : List α) (n : Nat) :
    (s.shrunk S n).v._size = n := rfl

@[simp] theorem shrunk_capacity (s : State α C) (S : List α) (n : Nat) :
    (s.shrunk S n).v._capacity = C := rfl

@[simp] theorem inplace_size (s : State α C) (L : List α) (n : Nat) :
    (s.inplace L n).v._size = n := rfl

@[simp] theorem fresh_size (s : State α C) (N : List α) (cap : Nat) :
    (s.fresh N cap).v._size = s.v._size := rfl

@[simp] theorem fresh_heap_storage (s : State α C) (N : List α) (cap : Nat) :
    (s.fresh N cap).v._heap_storage = s.v._heap_storage := rfl

theorem WF.bounds {s : State α C} (h : WF s) :
    s.v._size < SIZE_MOD ∧ C ≤ s.v._capacity ∧ C < SIZE_MOD ∧
      (s.v._size ≤ C → s.v._capacity = C) ∧ s.v._size ≤ s.v._capacity ∧
      s.v._capacity < SIZE_MOD := by
  have h1 := h.capacity_lt
  have h2 := h.size_le_capacity
  have h3 : C ≤ s.v._capacity := by
    by_cases hm : s.v._size ≤ C
    · rw [(h.inline hm).1]
    · omega
  exact ⟨by omega, h3, by omega, fun hm => (h.inline hm).1, h2, h1⟩

theorem push_back_inplace [Inhabited α] (ok : Bool) {s : State α C} (h : WF s) (x : α)
    (hfit : s.v._size + 1 ≤ s.v._capacity) :
    push_back ok s (ConstRef.value x)
      = Outcome.ret (s.inplace (s.active.set s.v._size x) (s.v._size + 1)) () := by
  obtain ⟨hb1, hb2, hb3, hb4, hb5, hb6⟩ := h.bounds
  have hv := view_of_WF h
  have e1 : (s.v._size + 1) % SIZE_MOD = s.v._size + 1 := Nat.mod_eq_of_lt (by omega)
  have e3 : ¬ (s.v._size + 1 > s.v._capacity) := by omega
  have hmode : s.v._size + 1 ≤ C ↔ s.v._size ≤ C := by
    constructor
    · intro; omega
    · intro hm; rw [hb4 hm] at hfit; exact hfit
  have hd : data (s.set_size (s.v._size + 1)) = ⟨(data s).region, 0⟩ := by
    rw [data_set_size s _ hmode, ← hv.data_off]
  simp only [push_back, e1, e3, if_false, set_size_size, wrap_pred _ hb1, begin, hd, Ptr.add,
    Nat.zero_add, deref_value, orUndefined_some]
  rw [write_eq (l := s.active) x (by rw [load_set_size]; exact hv.load)
    (by show s.v._size < s.active.length; rw [hv.length]; omega)]
  simp only [orUndefined, store_set_size]
  rfl

theorem load_fresh_old {s : State α C} {r : Region} {L : List α} (h : s.load r = some L)
    (N : List α) (cap : Nat) : (s.fresh N cap).load r = some L :=
  load_fresh h _ _ rfl

theorem load_fresh_new (s : State α C) (N : List α) (cap : Nat) :
    (s.fresh N cap).load (Region.heap s.heap.length) = some N := by
  simp [State.load, State.fresh]

theorem data_fresh (s : State α C) (N : List α) (cap : Nat) :
    data (s.fresh N cap) = data s := rfl

theorem alloc_eq_fresh [Inhabited α] (s : State α C) (k : Nat) :
    alloc_new_heap_storage true s k = Outcome.ret
      (s.fresh (List.replicate (UPSIZE_CAP s.v._size k) default) (UPSIZE_CAP s.v._size k))
      s.heap.length :=
  alloc_eq s k

theorem adopt_fresh {s : State α C} (h : WF s) (N0 N : List α) (cap : Nat) :
    adopt ((s.fresh N0 cap).store (Region.heap s.heap.length) N) s.heap.length
      = some (s.grown N s.v._size cap) :=
  adopt_eq h N0 N cap

theorem region_ne_fresh {s : State α C} {r : Region} {L : List α}
    (h : s.load r = some L) : r ≠ Region.heap s.heap.length := by
  intro e
  subst e
  have := (heap_lt_of_load h).1
  omega

theorem grown_write {s : State α C} (N : List α) (n cap i : Nat) (x : α)
    (hi : i < N.length) :
    (s.grown N n cap).write ⟨Region.heap s.heap.length, i⟩ x
      = some (s.grown (N.set i x) n cap) := by
  have hlen : (if C < s.v._size then s.released else s.heap).length = s.heap.length := by
    split
    · exact released_length s
    · rfl
  rw [write_eq (l := N) x (by simp [State.load, State.grown, List.getElem?_append, hlen]) hi]
  simp [State.store, State.grown, List.set_append, hlen]

theorem data_grown (s : State α C) (N : List α) (n cap : Nat) (hn : C < n) :
    data (s.grown N n cap) = ⟨Region.heap s.heap.length, 0⟩ := by
  simp [data, State.grown, hn]

theorem push_back_grow [Inhabited α] {s : State α C} (h : WF s) (x : α)
    (hfull : s.v._capacity < s.v._size + 1) (hov : 3 * (s.v._size + 1) < SIZE_MOD) :
    push_back true s (ConstRef.value x)
      = Outcome.ret (s.grown
          ((splice (List.replicate (UPSIZE_CAP s.v._size 1) default) 0
            (s.active.take s.v._size)).set s.v._size x)
          (s.v._size + 1) (UPSIZE_CAP s.v._size 1)) () := by
  obtain ⟨hb1, hb2, hb3, hb4, hb5, hb6⟩ := h.bounds
  have hv := view_of_WF h
  have hcap := UPSIZE_CAP_eq s.v._size 1 hov
  have e1 : (s.v._size + 1) % SIZE_MOD = s.v._size + 1 := Nat.mod_eq_of_lt (by omega)
  have e3 : s.v._size + 1 > s.v._capacity := hfull
  have hbegin : ∀ N cap, begin (s.fresh N cap) = ⟨(data s).region, 0⟩ := by
    intro N cap
    show data s = _
    rw [← hv.data_off]
  have hend : ∀ N cap, end_ (s.fresh N cap) = ⟨(data s).region, s.v._size⟩ := by
    intro N cap
    show (data s).add s.v._size = _
    simp [Ptr.add, hv.data_off]
  simp only [push_back, e1, e3, if_true, alloc_eq_fresh, hbegin, hend]
  rw [std_copy_eq _ _ _ _ _ s.active (List.replicate (UPSIZE_CAP s.v._size 1) default)
    (load_fresh_old hv.load _ _) (load_fresh_new _ _ _) (fun _ => Nat.le_refl 0)
    (Nat.zero_le _) (by rw [hv.length]; exact hb5) (by simp [hcap]; omega)]
  simp only [orUndefined, adopt_fresh h, Nat.sub_zero, List.drop_zero, begin, Ptr.add,
    Nat.zero_add, grown_set_size, grown_size, e1, wrap_pred _ hb1, deref_value,
    data_grown _ _ _ _ (by omega : C < s.v._size + 1)]
  rw [grown_write _ _ _ _ _ (by rw [length_splice] <;> simp [hcap] <;> omega)]

end PushBack

/-! ## Evaluation of `insert` -/

section Insert
variable {α : Type} {C : Nat}

@[simp] theorem data_store (s : State α C) (r : Region) (L : List α) :
    data (s.store r L) = data s := by
  cases r <;> rfl

@[simp] theorem fresh_store (s : State α C) (N0 N : List α) (cap : Nat) :
    (s.fresh N0 cap).store (Region.heap s.heap.length) N = s.fresh N cap := by
  simp [State.fresh, State.store]

theorem fresh_store_old (s : State α C) (N : List α) (cap : Nat) (r : Region) (L L1 : List α)
    (h : s.load r = some L) :
    (s.fresh N cap).store r L1 = (s.store r L1).fresh N cap := by
  cases r with
  | null => rfl
  | stat => rfl
  | heap b =>
    have hb := (heap_lt_of_load h).1
    simp [State.fresh, State.store, List.set_append, hb]

@[simp] theorem store_heap_length (s : State α C) (r : Region) (L : List α) :
    (s.store r L).heap.length = s.heap.length := by
  cases r <;> simp [State.store]

theorem adopt_grown {s : State α C} (h : WF s) (N : List α) (cap : Nat) :
    adopt (s.fresh N cap) s.heap.length = some (s.grown N s.v._size cap) := by
  have := adopt_fresh h N N cap
  rwa [fresh_store] at this

theorem write_fresh (s : State α C) (N : List α) (cap i : Nat) (x : α) (hi : i < N.length) :
    (s.fresh N cap).write ⟨Region.heap s.heap.length, i⟩ x = some (s.fresh (N.set i x) cap) := by
  rw [write_eq (l := N) x (load_fresh_new s N cap) hi]
  simp

theorem copy_into_fresh {s : State α C} (h : WF s) (N : List α) (cap a b o : Nat)
    (hab : a ≤ b) (hb : b ≤ s.v._capacity) (ho : o + (b - a) ≤ N.length) :
    std_copy (s.fresh N cap) ⟨(data s).region, a⟩ ⟨(data s).region, b⟩
        ⟨Region.heap s.heap.length, o⟩
      = some (s.fresh (splice N o ((s.active.drop a).take (b - a))) cap,
          ⟨Region.heap s.heap.length, o + (b - a)⟩) := by
  have hv := view_of_WF h
  rw [std_copy_eq _ _ _ _ _ s.active N (load_fresh_old hv.load _ _) (load_fresh_new _ _ _)
    (fun e => absurd e (region_ne_fresh hv.load)) hab (by rw [hv.length]; exact hb) ho]
  simp [Ptr.add]

theorem copy_in_fresh (s : State α C) (N : List α) (cap o : Nat) (xs : List α)
    (ho : o + xs.length ≤ N.length) :
    std_copy_in xs (s.fresh N cap) ⟨Region.heap s.heap.length, o⟩
      = some (s.fresh (splice N o xs) cap, ⟨Region.heap s.heap.length, o + xs.length⟩) := by
  rw [std_copy_in_eq xs _ _ N (load_fresh_new _ _ _) ho]
  simp [Ptr.add]

theorem cbegin_fresh {s : State α C} (h : WF s) (N : List α) (cap : Nat) :
    cbegin (s.fresh N cap) = ⟨(data s).region, 0⟩ := by
  show data s = _
  rw [← (view_of_WF h).data_off]

theorem cend_fresh {s : State α C} (h : WF s) (N : List α) (cap : Nat) :
    cend (s.fresh N cap) = ⟨(data s).region, s.v._size⟩ := by
  show (data s).add s.v._size = _
  simp [Ptr.add, (view_of_WF h).data_off]

theorem insert_grow [Inhabited α] {s : State α C} (h : WF s) (p : Nat) (x : α)
    (hp : p ≤ s.v._size)
    (hfull : s.v._capacity < s.v._size + 1) (hov : 3 * (s.v._size + 1) < SIZE_MOD) :
    insert true s ⟨(data s).region, p⟩ (ConstRef.value x)
      = Outcome.ret (s.grown
          (splice ((splice (List.replicate (UPSIZE_CAP s.v._size 1) default) 0
            (s.active.take p)).set p x) (p + 1) ((s.active.drop p).take (s.v._size - p)))
          (s.v._size + 1) (UPSIZE_CAP s.v._size 1)) ⟨Region.heap s.heap.length, p⟩ := by
  obtain ⟨hb1, hb2, hb3, hb4, hb5, hb6⟩ := h.bounds
  have hcap := UPSIZE_CAP_eq s.v._size 1 hov
  have e1 : (s.v._size + 1) % SIZE_MOD = s.v._size + 1 := Nat.mod_eq_of_lt (by omega)
  have e3 : s.v._size + 1 > s.v._capacity := hfull
  simp only [insert, e1, e3, if_true, alloc_eq_fresh, cbegin_fresh h, cend_fresh h]
  rw [copy_into_fresh h _ _ 0 p 0 (Nat.zero_le _) (by omega) (by simp [hcap]; omega)]
  simp only [orUndefined, Nat.sub_zero, Nat.zero_add, List.drop_zero, deref_value]
  rw [write_fresh _ _ _ _ _ (by rw [length_splice] <;> simp [hcap] <;> omega)]
  simp only [Ptr.add, cend_fresh h]
  rw [copy_into_fresh h _ _ p s.v._size (p + 1) hp hb5
    (by rw [List.length_set, length_splice] <;> simp [hcap] <;> omega)]
  simp only [adopt_grown h, grown_set_size, grown_size, e1]

theorem cbegin_eq {s : State α C} (h : WF s) : cbegin s = ⟨(data s).region, 0⟩ := by
  show data s = _
  rw [← (view_of_WF h).data_off]

theorem begin_eq {s : State α C} (h : WF s) : begin s = ⟨(data s).region, 0⟩ :=
  cbegin_eq h

theorem cend_eq {s : State α C} (h : WF s) : cend s = ⟨(data s).region, s.v._size⟩ := by
  show (data s).add s.v._size = _
  simp [Ptr.add, (view_of_WF h).data_off]

theorem end_eq {s : State α C} (h : WF s) : end_ s = ⟨(data s).region, s.v._size⟩ :=
  cend_eq h

@[simp] theorem cend_store (s : State α C) (r : Region) (L : List α) :
    cend (s.store r L) = cend s := by
  simp [cend]

@[simp] theorem end_store (s : State α C) (r : Region) (L : List α) :
    end_ (s.store r L) = end_ s := by
  simp [end_]

@[simp] theorem cbegin_store (s : State α C) (r : Region) (L : List α) :
    cbegin (s.store r L) = cbegin s := by
  simp [cbegin]

@[simp] theorem begin_store (s : State α C) (r : Region) (L : List α) :
    begin (s.store r L) = begin s := by
  simp [begin]

theorem write_stored {s : State α C} {r : Region} {L0 : List α} (h : s.load r = some L0)
    (L : List α) (i : Nat) (x : α) (hi : i < L.length) :
    (s.store r L).write ⟨r, i⟩ x = some (s.store r (L.set i x)) := by
  rw [write_eq (p := ⟨r, i⟩) (l := L) x (load_store_same L h) hi]
  simp [store_store]

theorem copy_left_stored {s : State α C} {r : Region} {L0 : List α} (h : s.load r = some L0)
    (L : List α) (a b o : Nat) (hoa : o ≤ a) (hab : a ≤ b) (hb : b ≤ L.length) :
    std_copy (s.store r L) ⟨r, a⟩ ⟨r, b⟩ ⟨r, o⟩
      = some (s.store r (splice L o ((L.drop a).take (b - a))), ⟨r, o + (b - a)⟩) := by
  rw [std_copy_eq _ _ _ _ _ L L (load_store_same L h) (load_store_same L h) (fun _ => hoa)
    hab hb (by show o + (b - a) ≤ L.length; omega)]
  simp [store_store, Ptr.add]

theorem move_backward_stored {s : State α C} {r : Region} {L0 : List α}
    (h : s.load r = some L0) (L : List α) (a b e : Nat) (hab : a ≤ b) (hbe : b ≤ e)
    (he : e ≤ L.length) :
    std_move_backward (s.store r L) ⟨r, a⟩ ⟨r, b⟩ ⟨r, e⟩
      = some (s.store r (splice L (e - (b - a)) ((L.drop a).take (b - a))),
          ⟨r, e - (b - a)⟩) := by
  rw [std_move_backward_eq _ _ _ _ _ L L (load_store_same L h) (load_store_same L h)
    (fun _ => hbe) hab (by omega) (by show b - a ≤ e; omega) he]
  simp [store_store]

theorem store_active {s : State α C} (h : WF s) : s.store (data s).region s.active = s :=
  store_load (view_of_WF h).load

theorem insert_inplace [Inhabited α] (ok : Bool) {s : State α C} (h : WF s) (p : Nat) (x : α)
    (hp : p ≤ s.v._size) (hfit : s.v._size + 1 ≤ s.v._capacity) :
    insert ok s ⟨(data s).region, p⟩ (ConstRef.value x)
      = Outcome.ret (s.inplace
          ((splice s.active (p + 1) ((s.active.drop p).take (s.v._size - p))).set p x)
          (s.v._size + 1)) ⟨(data s).region, p⟩ := by
  obtain ⟨hb1, hb2, hb3, hb4, hb5, hb6⟩ := h.bounds
  have hv := view_of_WF h
  have e1 : (s.v._size + 1) % SIZE_MOD = s.v._size + 1 := Nat.mod_eq_of_lt (by omega)
  have e3 : ¬ (s.v._size + 1 > s.v._capacity) := by omega
  have e4 : s.v._size + 1 - (s.v._size - p) = p + 1 := by omega
  simp only [insert, e1, e3, if_false, cend_eq h, end_eq h, Ptr.add]
  have hmb := move_backward_stored hv.load s.active p s.v._size (s.v._size + 1) hp
    (Nat.le_succ _) (by rw [hv.length]; omega)
  rw [store_active h] at hmb
  rw [hmb]
  simp only [orUndefined, e4, Ptr.sub, Nat.add_sub_cancel]
  rw [if_pos (by omega : 1 ≤ p + 1)]
  simp only [deref_value]
  rw [write_stored hv.load _ _ _ (by rw [length_splice] <;> simp [hv.length] <;> omega)]
  simp only [store_size, e1]
  rfl

end Insert

/-! ## Evaluation of the range `insert` -/

section InsertRange
variable {α : Type} {C : Nat}

theorem splice_full (T xs : List α) (h : T.length = xs.length) : splice T 0 xs = xs := by
  simp [splice, ← h]

theorem length_splice_eq (B X : List α) (o : Nat) :
    (splice B o X).length = min o B.length + X.length + (B.length - (o + X.length)) := by
  simp [splice, Nat.add_assoc]

theorem new_array_eq [Inhabited α] (s : State α C) (k : Nat) :
    s.new_array k = (s.fresh (List.replicate k default) s.v._capacity, s.heap.length) := rfl

theorem delete_fresh (s : State α C) (T : List α) (cap : Nat) :
    (s.fresh T cap).delete_array (some s.heap.length)
      = some ({ heap := s.heap ++ [none], v := { s.v with _capacity := cap } } : State α C) := by
  simp [State.delete_array, State.fresh]

theorem insert_range_nil [Inhabited α] (ok : Bool) {s : State α C} (h : WF s) (p : Nat) :
    insert_range ok s ⟨(data s).region, p⟩ [] = Outcome.ret s ⟨(data s).region, p⟩ := by
  simp [insert_range, cbegin_eq h, begin_eq h, distance, orUndefined, Ptr.add]

theorem insert_range_grow [Inhabited α] {s : State α C} (h : WF s) (p : Nat) (xs : List α)
    (hp : p ≤ s.v._size) (hk : xs ≠ [])
    (hfull : s.v._capacity < s.v._size + xs.length)
    (hov : 3 * (s.v._size + xs.length) < SIZE_MOD) :
    insert_range true s ⟨(data s).region, p⟩ xs
      = Outcome.ret (s.grown
          (splice (splice (splice
            (List.replicate (UPSIZE_CAP s.v._size xs.length) default) 0 (s.active.take p))
            p xs) (p + xs.length) ((s.active.drop p).take (s.v._size - p)))
          (s.v._size + xs.length) (UPSIZE_CAP s.v._size xs.length))
          ⟨Region.heap s.heap.length, p⟩ := by
  obtain ⟨hb1, hb2, hb3, hb4, hb5, hb6⟩ := h.bounds
  have hcap := UPSIZE_CAP_eq s.v._size xs.length hov
  have e0 : xs.length % SIZE_MOD = xs.length := Nat.mod_eq_of_lt (by omega)
  have e1 : (s.v._size + xs.length) % SIZE_MOD = s.v._size + xs.length :=
    Nat.mod_eq_of_lt (by omega)
  have e2 : ¬ xs.length = 0 := fun e => hk (List.length_eq_zero.mp e)
  have e3 : s.v._size + xs.length > s.v._capacity := hfull
  simp only [insert_range, e0, e1, e2, e3, if_true, if_false, alloc_eq_fresh, cbegin_fresh h,
    cend_fresh h]
  rw [copy_into_fresh h _ _ 0 p 0 (Nat.zero_le _) (by omega) (by simp [hcap]; omega)]
  simp only [orUndefined, Nat.sub_zero, Nat.zero_add, List.drop_zero]
  rw [copy_in_fresh _ _ _ _ _ (by simp [length_splice_eq, hcap]; omega)]
  simp only [cend_fresh h]
  rw [copy_into_fresh h _ _ p s.v._size (p + xs.length) hp hb5
    (by simp [length_splice_eq, hcap]; omega)]
  simp only [adopt_grown h, grown_set_size, grown_size, e1]

theorem insert_range_inplace [Inhabited α] {s : State α C} (h : WF s) (p : Nat)
    (xs : List α) (hp : p ≤ s.v._size) (hk : xs ≠ [])
    (hfit : s.v._size + xs.length ≤ s.v._capacity) :
    insert_range true s ⟨(data s).region, p⟩ xs
      = Outcome.ret (s.inplace
          (splice (splice s.active (p + xs.length) ((s.active.drop p).take (s.v._size - p)))
            p xs)
          (s.v._size + xs.length)).junk ⟨(data s).region, p⟩ := by
  obtain ⟨hb1, hb2, hb3, hb4, hb5, hb6⟩ := h.bounds
  have hv := view_of_WF h
  have e0 : xs.length % SIZE_MOD = xs.length := Nat.mod_eq_of_lt (by omega)
  have e1 : (s.v._size + xs.length) % SIZE_MOD = s.v._size + xs.length :=
    Nat.mod_eq_of_lt (by omega)
  have e2 : ¬ xs.length = 0 := fun e => hk (List.length_eq_zero.mp e)
  have e3 : ¬ s.v._size + xs.length > s.v._capacity := by omega
  have e4 : s.v._size + xs.length - (s.v._size - p) = p + xs.length := by omega
  simp only [insert_range, e0, e1, e2, e3, if_true, if_false, new_array_eq]
  rw [copy_in_fresh _ _ _ 0 xs (by simp)]
  simp only [orUndefined, cend_fresh h, end_, data_fresh, fresh_size, Ptr.add, hv.data_off,
    Nat.zero_add, splice_full _ xs (List.length_replicate _ _)]
  have hmb := move_backward_stored (load_fresh_old hv.load xs s.v._capacity) s.active p
    s.v._size (s.v._size + xs.length) hp (Nat.le_add_right _ _) (by rw [hv.length]; omega)
  rw [store_load (load_fresh_old hv.load xs s.v._capacity)] at hmb
  rw [hmb]
  simp only [e4, Ptr.sub, Nat.add_sub_cancel]
  rw [if_pos (by omega : xs.length ≤ p + xs.length)]
  simp only []
  rw [fresh_store_old _ _ _ _ _ _ hv.load]
  have hA : ((s.store (data s).region (splice s.active (p + xs.length)
      ((s.active.drop p).take (s.v._size - p)))).fresh xs s.v._capacity).load
      (Region.heap s.heap.length) = some xs := by
    have := load_fresh_new (s.store (data s).region (splice s.active (p + xs.length)
      ((s.active.drop p).take (s.v._size - p)))) xs s.v._capacity
    rwa [store_heap_length] at this
  rw [std_copy_eq _ (Region.heap s.heap.length) 0 xs.length ⟨(data s).region, p⟩ xs
    (splice s.active (p + xs.length) ((s.active.drop p).take (s.v._size - p)))
    hA (load_fresh_old (load_store_same _ hv.load) _ _)
    (fun e => absurd e.symm (region_ne_fresh hv.load))
    (Nat.zero_le _) (Nat.le_refl _)
    (by simp [length_splice_eq, hv.length]; omega)]
  simp only [Nat.sub_zero, List.drop_zero, List.take_length]
  rw [fresh_store_old _ _ _ _ _ _ (load_store_same _ hv.load), store_store]
  have hdel := delete_fresh (s.store (data s).region
    (splice (splice s.active (p + xs.length) ((s.active.drop p).take (s.v._size - p))) p xs))
    xs s.v._capacity
  rw [store_heap_length] at hdel
  rw [hdel]
  simp only [State.inplace, State.junk, State.set_size, store_size, store_capacity, e1]

end InsertRange

/-! ## Evaluation of `pop_back`, `clear`, `erase` -/

section Shrink
variable {α : Type} {C : Nat}

theorem wrap_sub (n k : Nat) (hk : k ≤ n) (hn : n < SIZE_MOD) :
    (n + SIZE_MOD - k) % SIZE_MOD = n - k := by
  rw [show n + SIZE_MOD - k = (n - k) + SIZE_MOD by omega, Nat.add_mod_right]
  exact Nat.mod_eq_of_lt (by omega)

theorem region_ne_stat {s : State α C} (h : WF s) (hm : C < s.v._size) :
    (data s).region ≠ Region.stat := by
  obtain ⟨b, blk, hb, -, -⟩ := h.spilled hm
  rw [data_spilled hm hb]
  simp

theorem copy_to_static {s : State α C} (h : WF s) (hm : C < s.v._size) (S : List α)
    (a b o : Nat) (hab : a ≤ b) (hb : b ≤ s.v._capacity) (ho : o + (b - a) ≤ S.length) :
    std_copy (s.store Region.stat S) ⟨(data s).region, a⟩ ⟨(data s).region, b⟩
        ⟨Region.stat, o⟩
      = some (s.store Region.stat (splice S o ((s.active.drop a).take (b - a))),
          ⟨Region.stat, o + (b - a)⟩) := by
  have hv := view_of_WF h
  have hne := region_ne_stat h hm
  rw [std_copy_eq _ _ _ _ _ s.active S
    (by rw [load_store_ne _ _ hne]; exact hv.load)
    (load_store_same (s := s) (r := Region.stat) S rfl)
    (fun e => absurd e hne) hab (by rw [hv.length]; exact hb) ho]
  simp [store_store, Ptr.add]

theorem store_static (s : State α C) : s.store Region.stat s.v._static_storage = s := rfl

theorem inplace_active {s : State α C} (h : WF s) (n : Nat) :
    s.inplace s.active n = s.set_size n := by
  rw [State.inplace, store_active h]

theorem pop_back_empty {s : State α C} (h0 : s.v._size = 0) :
    pop_back s = Outcome.ret s () := by
  simp [pop_back, h0]

theorem pop_back_inplace {s : State α C} (h : WF s) (h0 : s.v._size ≠ 0)
    (hne : s.v._size ≠ C + 1) :
    pop_back s = Outcome.ret (s.inplace s.active (s.v._size - 1)) () := by
  obtain ⟨hb1, hb2, hb3, hb4, hb5, hb6⟩ := h.bounds
  have e1 : ¬ s.v._size = (C + 1) % SIZE_MOD := by
    by_cases hc : C + 1 < SIZE_MOD
    · rw [Nat.mod_eq_of_lt hc]; exact hne
    · have : C + 1 = SIZE_MOD := by omega
      rw [this, Nat.mod_self]; exact h0
  simp only [pop_back, h0, e1, if_false, wrap_sub _ 1 (by omega) hb1, inplace_active h]

theorem pop_back_shrink {s : State α C} (h : WF s) (he : s.v._size = C + 1) :
    pop_back s = Outcome.ret
      (s.shrunk (splice s.v._static_storage 0 (s.active.take C)) C) () := by
  obtain ⟨hb1, hb2, hb3, hb4, hb5, hb6⟩ := h.bounds
  have hm : C < s.v._size := by omega
  have h0 : ¬ s.v._size = 0 := by omega
  have e1 : s.v._size = (C + 1) % SIZE_MOD := by
    rw [Nat.mod_eq_of_lt (by omega)]; exact he
  have e2 : (s.v._size + SIZE_MOD - 1) % SIZE_MOD = C := by
    rw [wrap_sub _ 1 (by omega) hb1]; omega
  have hcp := copy_to_static h hm s.v._static_storage 0 (s.v._size - 1) 0 (Nat.zero_le _)
    (by omega) (by rw [h.static_length]; omega)
  rw [store_static] at hcp
  simp only [pop_back]
  rw [if_neg h0, if_pos e1]
  simp only [end_eq h, begin_eq h, Ptr.sub]
  rw [if_pos (by omega : 1 ≤ s.v._size)]
  simp only [orUndefined, hcp, Nat.sub_zero, List.drop_zero, to_static_eq h hm,
    shrunk_set_size, shrunk_size, e2]
  have e3 : s.v._size - 1 = C := by omega
  rw [e3]

theorem clear_inplace {s : State α C} (h : WF s) (hm : s.v._size ≤ C) :
    clear s = Outcome.ret (s.inplace s.active 0) () := by
  simp only [clear, Nat.not_lt.mpr hm, if_false, inplace_active h]

theorem clear_shrink {s : State α C} (h : WF s) (hm : C < s.v._size) :
    clear s = Outcome.ret (s.shrunk s.v._static_storage 0) () := by
  have := to_static_eq h hm s.v._static_storage
  rw [store_static] at this
  simp only [clear, hm, if_true, this, orUndefined, shrunk_set_size]

theorem erase_end {s : State α C} (h : WF s) :
    erase s ⟨(data s).region, s.v._size⟩ = Outcome.ret s ⟨(data s).region, s.v._size⟩ := by
  simp [erase, cend_eq h, end_eq h]

theorem erase_inplace {s : State α C} (h : WF s) (p : Nat) (hp : p < s.v._size)
    (hne : s.v._size ≠ C + 1) :
    erase s ⟨(data s).region, p⟩
      = Outcome.ret (s.inplace
          (splice s.active p ((s.active.drop (p + 1)).take (s.v._size - (p + 1))))
          (s.v._size - 1)) ⟨(data s).region, p⟩ := by
  obtain ⟨hb1, hb2, hb3, hb4, hb5, hb6⟩ := h.bounds
  have hv := view_of_WF h
  have e0 : ¬ ((⟨(data s).region, p⟩ : Ptr) = ⟨(data s).region, s.v._size⟩) := by
    intro e
    have := congrArg Ptr.off e
    simp at this
    omega
  have e1 : ¬ (s.v._size + SIZE_MOD - 1) % SIZE_MOD = C := by
    rw [wrap_sub _ 1 (by omega) hb1]; omega
  have e2 : ¬ s.v._size - 1 = C := by omega
  have hcp := copy_left_stored hv.load s.active (p + 1) s.v._size p (Nat.le_succ _) hp
    (by rw [hv.length]; exact hb5)
  rw [store_active h] at hcp
  simp only [erase, cend_eq h, cbegin_eq h, begin_eq h, e0, e1, if_false, Ptr.add,
    distance_eq _ 0 p (Nat.zero_le _), orUndefined, Nat.sub_zero, Nat.zero_add, std_move, hcp,
    store_size, wrap_sub _ 1 (by omega : 1 ≤ s.v._size) hb1, e2]
  rfl

theorem erase_shrink {s : State α C} (h : WF s) (p : Nat) (hp : p < s.v._size)
    (he : s.v._size = C + 1) :
    erase s ⟨(data s).region, p⟩
      = Outcome.ret (s.shrunk
          (splice (splice s.v._static_storage 0 (s.active.take p)) p
            ((s.active.drop (p + 1)).take (s.v._size - (p + 1))))
          C) ⟨Region.stat, p⟩ := by
  obtain ⟨hb1, hb2, hb3, hb4, hb5, hb6⟩ := h.bounds
  have hm : C < s.v._size := by omega
  have e0 : ¬ ((⟨(data s).region, p⟩ : Ptr) = ⟨(data s).region, s.v._size⟩) := by
    intro e
    have := congrArg Ptr.off e
    simp at this
    omega
  have e1 : (s.v._size + SIZE_MOD - 1) % SIZE_MOD = C := by
    rw [wrap_sub _ 1 (by omega) hb1]; omega
  have hcp := copy_to_static h hm s.v._static_storage 0 p 0 (Nat.zero_le _)
    (by omega) (by rw [h.static_length]; omega)
  rw [store_static] at hcp
  simp only [erase, cend_eq h, cbegin_eq h, e0, e1, if_false, if_true, hcp, orUndefined,
    Nat.sub_zero, Nat.zero_add, List.drop_zero, cend_store, Ptr.add]
  rw [copy_to_static h hm _ (p + 1) s.v._size p hp hb5
    (by simp [length_splice_eq, h.static_length]; omega)]
  simp only [to_static_eq h hm, shrunk_set_size, shrunk_size, e1]

theorem erase_range_inplace {s : State α C} (h : WF s) (i j : Nat) (hij : i ≤ j)
    (hj : j ≤ s.v._size) (hstay : s.v._size ≤ C ∨ C < s.v._size - (j - i)) :
    erase_range s ⟨(data s).region, i⟩ ⟨(data s).region, j⟩
      = Outcome.ret (s.inplace
          (splice s.active i ((s.active.drop j).take (s.v._size - j)))
          (s.v._size - (j - i))) ⟨(data s).region, i⟩ := by
  obtain ⟨hb1, hb2, hb3, hb4, hb5, hb6⟩ := h.bounds
  have hv := view_of_WF h
  have e0 : (j - i) % SIZE_MOD = j - i := Nat.mod_eq_of_lt (by omega)
  have e1 : (s.v._size + SIZE_MOD - (j - i)) % SIZE_MOD = s.v._size - (j - i) :=
    wrap_sub _ _ (by omega) hb1
  have e2 : ¬ (C < s.v._size ∧ s.v._size - (j - i) ≤ C) := by omega
  have hcp := copy_left_stored hv.load s.active j s.v._size i hij hj
    (by rw [hv.length]; exact hb5)
  rw [store_active h] at hcp
  simp only [erase_range, distance_eq _ i j hij, orUndefined, e0, e1, e2, if_false,
    cbegin_eq h, cend_eq h, begin_eq h, distance_eq _ 0 i (Nat.zero_le _), Nat.sub_zero,
    Ptr.add, Nat.zero_add, std_move, hcp, store_size]
  rfl

theorem erase_range_shrink {s : State α C} (h : WF s) (i j : Nat) (hij : i ≤ j)
    (hj : j ≤ s.v._size) (hm : C < s.v._size) (hgo : s.v._size - (j - i) ≤ C) :
    erase_range s ⟨(data s).region, i⟩ ⟨(data s).region, j⟩
      = Outcome.ret (s.shrunk
          (splice (splice s.v._static_storage 0 (s.active.take i)) i
            ((s.active.drop j).take (s.v._size - j)))
          (s.v._size - (j - i))) ⟨Region.stat, i⟩ := by
  obtain ⟨hb1, hb2, hb3, hb4, hb5, hb6⟩ := h.bounds
  have e0 : (j - i) % SIZE_MOD = j - i := Nat.mod_eq_of_lt (by omega)
  have e1 : (s.v._size + SIZE_MOD - (j - i)) % SIZE_MOD = s.v._size - (j - i) :=
    wrap_sub _ _ (by omega) hb1
  have e2 : C < s.v._size ∧ s.v._size - (j - i) ≤ C := ⟨hm, hgo⟩
  have hcp := copy_to_static h hm s.v._static_storage 0 i 0 (Nat.zero_le _)
    (by omega) (by rw [h.static_length]; omega)
  rw [store_static] at hcp
  simp only [erase_range, distance_eq _ i j hij, orUndefined, e0, e1, e2, if_true,
    cbegin_eq h, hcp, Nat.sub_zero, Nat.zero_add, List.drop_zero, cend_store, cend_eq h,
    and_self]
  rw [copy_to_static h hm _ j s.v._size i hj hb5
    (by simp [length_splice_eq, h.static_length]; omega)]
  simp only [to_static_eq h hm, shrunk_set_size, shrunk_size, e1]

end Shrink

/-! ## The sequences the resulting arrays hold -/

section Sequences
variable {α : Type}

theorem getElem?_singleton_sub (x : α) (i p : Nat) (h1 : p ≤ i) (h2 : i < p + 1) :
    [x][i - p]? = some x := by
  have : i - p = 0 := by omega
  rw [this]; rfl

theorem seq_push_inplace (L : List α) (n : Nat) (x : α) (hn : n < L.length) :
    (L.set n x).take (n + 1)
      = L.take n ++ [x] := by
  apply List.ext_getElem?
  intro t
  rw [List.getElem?_take, List.getElem?_set]
  simp only [List.getElem?_append, List.getElem?_take, List.getElem?_drop, List.length_take,
    List.length_drop, List.length_append, List.length_singleton]
  split_ifs <;> first
    | rfl
    | (exfalso; omega)
    | omega
    | (rw [getElem?_singleton_sub] <;> omega)
    | (symm; rw [getElem?_singleton_sub] <;> omega)
    | (simp; omega)

theorem seq_push_grow (L N : List α) (n : Nat) (x : α) (hn : n ≤ L.length)
    (hN : n + 1 ≤ N.length) :
    ((splice N 0 (L.take n)).set n x).take (n + 1)
      = L.take n ++ [x] := by
  apply List.ext_getElem?
  intro t
  have hl : (splice N 0 (L.take n)).length = N.length := by
    simp [length_splice_eq]; omega
  rw [List.getElem?_take, List.getElem?_set, hl, getElem?_splice _ _ _ _ (by simp; omega)]
  simp only [List.getElem?_append, List.getElem?_take, List.getElem?_drop, List.length_take,
    List.length_drop, List.length_append, List.length_singleton]
  split_ifs <;> first
    | rfl
    | (exfalso; omega)
    | omega
    | (rw [getElem?_singleton_sub] <;> omega)
    | (symm; rw [getElem?_singleton_sub] <;> omega)
    | (simp; omega)

theorem seq_insert_inplace (L : List α) (n p : Nat) (x : α) (hp : p ≤ n)
    (hn : n + 1 ≤ L.length) :
    ((splice L (p + 1) ((L.drop p).take (n - p))).set p x).take (n + 1)
      = (L.take n).take p ++ [x] ++ (L.take n).drop p := by
  apply List.ext_getElem?
  intro t
  have hl : (splice L (p + 1) ((L.drop p).take (n - p))).length = L.length := by
    simp [length_splice_eq]; omega
  rw [List.getElem?_take, List.getElem?_set, hl, getElem?_splice _ _ _ _ (by simp; omega)]
  simp only [List.getElem?_append, List.getElem?_take, List.getElem?_drop, List.length_take,
    List.length_drop, List.length_append, List.length_singleton]
  split_ifs <;> first
    | rfl
    | (exfalso; omega)
    | (congr 1; omega)
    | (rw [getElem?_singleton_sub] <;> omega)

theorem seq_insert_grow (L N : List α) (n p : Nat) (x : α) (hp : p ≤ n)
    (hn : n ≤ L.length) (hN : n + 1 ≤ N.length) :
    (splice ((splice N 0 (L.take p)).set p x) (p + 1) ((L.drop p).take (n - p))).take (n + 1)
      = (L.take n).take p ++ [x] ++ (L.take n).drop p := by
  apply List.ext_getElem?
  intro t
  have hl : (splice N 0 (L.take p)).length = N.length := by
    simp [length_splice_eq]; omega
  rw [List.getElem?_take, getElem?_splice _ _ _ _ (by simp [hl]; omega), List.getElem?_set, hl,
    getElem?_splice _ _ _ _ (by simp; omega)]
  simp only [List.getElem?_append, List.getElem?_take, List.getElem?_drop, List.length_take,
    List.length_drop, List.length_append, List.length_singleton]
  split_ifs <;> first
    | rfl
    | (exfalso; omega)
    | (congr 1; omega)
    | (rw [getElem?_singleton_sub] <;> omega)

theorem seq_insert_range_inplace (L ys : List α) (n p : Nat) (hp : p ≤ n)
    (hn : n + ys.length ≤ L.length) :
    (splice (splice L (p + ys.length) ((L.drop p).take (n - p))) p ys).take (n + ys.length)
      = (L.take n).take p ++ ys ++ (L.take n).drop p := by
  apply List.ext_getElem?
  intro t
  have hl : (splice L (p + ys.length) ((L.drop p).take (n - p))).length = L.length := by
    simp [length_splice_eq]; omega
  rw [List.getElem?_take, getElem?_splice _ _ _ _ (by rw [hl]; omega),
    getElem?_splice _ _ _ _ (by simp; omega)]
  simp only [List.getElem?_append, List.getElem?_take, List.getElem?_drop, List.length_take,
    List.length_drop, List.length_append, List.length_singleton]
  split_ifs <;> first
    | rfl
    | (exfalso; omega)
    | (congr 1; omega)

theorem seq_insert_range_grow (L N ys : List α) (n p : Nat) (hp : p ≤ n)
    (hn : n ≤ L.length) (hN : n + ys.length ≤ N.length) :
    (splice (splice (splice N 0 (L.take p)) p ys) (p + ys.length)
      ((L.drop p).take (n - p))).take (n + ys.length)
      = (L.take n).take p ++ ys ++ (L.take n).drop p := by
  apply List.ext_getElem?
  intro t
  have hl : (splice N 0 (L.take p)).length = N.length := by
    simp [length_splice_eq]; omega
  have hl2 : (splice (splice N 0 (L.take p)) p ys).length = N.length := by
    simp [length_splice_eq]; omega
  rw [List.getElem?_take, getElem?_splice _ _ _ _ (by simp [hl2]; omega),
    getElem?_splice _ _ _ _ (by rw [hl]; omega), getElem?_splice _ _ _ _ (by simp; omega)]
  simp only [List.getElem?_append, List.getElem?_take, List.getElem?_drop, List.length_take,
    List.length_drop, List.length_append, List.length_singleton]
  split_ifs <;> first
    | rfl
    | (exfalso; omega)
    | (congr 1; omega)

theorem seq_erase_range_inplace (L : List α) (n i j : Nat) (hij : i ≤ j) (hj : j ≤ n)
    (hn : n ≤ L.length) :
    (splice L i ((L.drop j).take (n - j))).take (n - (j - i))
      = (L.take n).take i ++ (L.take n).drop j := by
  apply List.ext_getElem?
  intro t
  rw [List.getElem?_take, getElem?_splice _ _ _ _ (by simp; omega)]
  simp only [List.getElem?_append, List.getElem?_take, List.getElem?_drop, List.length_take,
    List.length_drop, List.length_append, List.length_singleton]
  split_ifs <;> first
    | rfl
    | (exfalso; omega)
    | (congr 1; omega)

theorem seq_erase_range_shrink (L S : List α) (n i j : Nat) (hij : i ≤ j) (hj : j ≤ n)
    (hn : n ≤ L.length) (hS : n - (j - i) ≤ S.length) :
    (splice (splice S 0 (L.take i)) i ((L.drop j).take (n - j))).take (n - (j - i))
      = (L.take n).take i ++ (L.take n).drop j := by
  apply List.ext_getElem?
  intro t
  have hl : (splice S 0 (L.take i)).length = S.length := by
    simp [length_splice_eq]; omega
  rw [List.getElem?_take, getElem?_splice _ _ _ _ (by simp [hl]; omega),
    getElem?_splice _ _ _ _ (by simp; omega)]
  simp only [List.getElem?_append, List.getElem?_take, List.getElem?_drop, List.length_take,
    List.length_drop, List.length_append, List.length_singleton]
  split_ifs <;> first
    | rfl
    | (exfalso; omega)
    | (congr 1; omega)

theorem seq_pop_shrink (L S : List α) (c : Nat) (hL : c ≤ L.length) (hS : c ≤ S.length) :
    (splice S 0 (L.take c)).take c
      = L.take c := by
  apply List.ext_getElem?
  intro t
  rw [List.getElem?_take, getElem?_splice _ _ _ _ (by simp; omega)]
  simp only [List.getElem?_append, List.getElem?_take, List.getElem?_drop, List.length_take,
    List.length_drop, List.length_append, List.length_singleton]
  split_ifs <;> first
    | rfl
    | (exfalso; omega)

end Sequences

/-! ## Specifications of the modifiers -/

section Specs
variable {α : Type} {C : Nat}

theorem elements_inj {s : State α C} (h : WF s) {xs : List α} (hxs : elements s = some xs) :
    xs = s.active.take s.v._size ∧ xs.length = s.v._size := by
  rw [elements_of_WF h] at hxs
  have e := (Option.some.inj hxs).symm
  refine ⟨e, ?_⟩
  rw [e, List.length_take, (view_of_WF h).length]
  exact Nat.min_eq_left h.size_le_capacity

theorem post_inplace {s : State α C} (h : WF s) {L : List α} {n : Nat} {Y : List α}
    (hL : L.length = s.v._capacity) (hn : n ≤ s.v._capacity)
    (hmode : n ≤ C ↔ s.v._size ≤ C) (hseq : L.take n = Y) :
    Post s (s.inplace L n) Y ∧ (s.inplace L n).v._capacity = s.v._capacity ∧
      data (s.inplace L n) = data s := by
  obtain ⟨h1, h2, h3, h4, h5, h6⟩ := inplace_spec h hL hn hmode
  refine ⟨⟨h1, by rw [h2, hseq], h3, ?_⟩, h5, h6⟩
  rw [h4, ← hseq, List.length_take, hL]
  exact (Nat.min_eq_left hn).symm

theorem post_grown {s : State α C} (h : WF s) {N : List α} {n c : Nat} {Y : List α}
    (hN : N.length = c) (hn : n ≤ c) (hC : C < n) (hcap : c < SIZE_MOD)
    (hseq : N.take n = Y) :
    Post s (s.grown N n c) Y ∧ (s.grown N n c).v._capacity = c ∧
      data (s.grown N n c) = ⟨Region.heap s.heap.length, 0⟩ := by
  obtain ⟨h1, h2, h3, h4, h5, h6⟩ := grown_spec h N n c hN hn hC hcap
  refine ⟨⟨h1, by rw [h2, hseq], h3, ?_⟩, h5, h6⟩
  rw [h4, ← hseq, List.length_take, hN]
  exact (Nat.min_eq_left hn).symm

theorem post_shrunk {s : State α C} (h : WF s) {S : List α} {n : Nat} {Y : List α}
    (hm : C < s.v._size) (hS : S.length = C) (hn : n ≤ C) (hseq : S.take n = Y) :
    Post s (s.shrunk S n) Y ∧ (s.shrunk S n).v._capacity = C ∧
      data (s.shrunk S n) = ⟨Region.stat, 0⟩ := by
  obtain ⟨h1, h2, h3, h4, h5, h6⟩ := shrunk_spec h S n hm hS hn
  refine ⟨⟨h1, by rw [h2, hseq], h3, ?_⟩, h5, h6⟩
  rw [h4, ← hseq, List.length_take, hS]
  exact (Nat.min_eq_left hn).symm

theorem post_junk {s s1 : State α C} {ys : List α} (h : Post s s1 ys) :
    Post s s1.junk ys := by
  have hw := h.wf
  refine ⟨⟨hw.capacity_lt, hw.size_le_capacity, hw.static_length, hw.inline, fun hm => ?_⟩,
    ?_, ⟨?_, fun i hi hne => ?_, h.frame.own⟩, h.size_eq⟩
  · obtain ⟨b, blk, hb, hblk, hlen⟩ := hw.spilled hm
    refine ⟨b, blk, hb, ?_, hlen⟩
    show (s1.heap ++ [none])[b]? = _
    rw [List.getElem?_append_left (List.getElem?_eq_some_iff.mp hblk).1, hblk]
  · have hv := view_of_WF hw
    have hd : data s1.junk = data s1 := rfl
    have hl : s1.junk.load (data s1).region = some s1.active := by
      have := load_fresh_old hv.load ([] : List α) s1.v._capacity
      rcases hv.mode with ⟨-, hr, -⟩ | ⟨-, b, hr, -, hblk, hlt⟩
      · rw [hr]; rw [hr] at this; exact this
      · rw [hr]
        show ((s1.heap ++ [none])[b]?).join = _
        rw [List.getElem?_append_left hlt, hblk]; rfl
    rw [← h.elems, elements_of_WF hw]
    exact elements_eq (s := s1.junk) (by rw [hd]; exact hv.data_off) (by rw [hd]; exact hl)
      (by show s1.v._size ≤ _; rw [hv.length]; exact hw.size_le_capacity)
  · show s.heap.length ≤ (s1.heap ++ [none]).length
    have := h.frame.heap_grows
    simp; omega
  · show (s1.heap ++ [none])[i]? = _
    rw [List.getElem?_append_left (Nat.lt_of_lt_of_le hi h.frame.heap_grows)]
    exact h.frame.others i hi hne

theorem begin_add {s : State α C} (h : WF s) (p : Nat) :
    (begin s).add p = ⟨(data s).region, p⟩ := by
  rw [begin_eq h]; simp [Ptr.add]

theorem UPSIZE_CAP_ge (n k : Nat) (h : 3 * (n + k) < SIZE_MOD) :
    n + k ≤ UPSIZE_CAP n k ∧ UPSIZE_CAP n k < SIZE_MOD := by
  rw [UPSIZE_CAP_eq n k h]
  omega

theorem push_back_spec [Inhabited α] {s : State α C} (h : WF s) {xs : List α}
    (hxs : elements s = some xs) (x : α)
    (hov : s.v._capacity < s.v._size + 1 → 3 * (s.v._size + 1) < SIZE_MOD) :
    ∃ s1, push_back true s (ConstRef.value x) = Outcome.ret s1 () ∧ Post s s1 (xs ++ [x]) ∧
      s1.v._capacity = (if s.v._capacity < s.v._size + 1 then 3 * (s.v._size + 1) / 2
        else s.v._capacity) := by
  obtain ⟨hb1, hb2, hb3, hb4, hb5, hb6⟩ := h.bounds
  obtain ⟨exs, -⟩ := elements_inj h hxs
  have hv := view_of_WF h
  by_cases hfit : s.v._size + 1 ≤ s.v._capacity
  · have hmode : s.v._size + 1 ≤ C ↔ s.v._size ≤ C := by
      constructor
      · intro; omega
      · intro hm; rw [hb4 hm] at hfit; exact hfit
    obtain ⟨hp, hc, -⟩ := post_inplace h (L := s.active.set s.v._size x)
      (n := s.v._size + 1) (Y := xs ++ [x]) (by simp [hv.length]) hfit hmode
      (by rw [exs]; exact seq_push_inplace _ _ _ (by rw [hv.length]; omega))
    exact ⟨_, push_back_inplace true h x hfit, hp,
      by rw [hc, if_neg (by omega)]⟩
  · have hfull : s.v._capacity < s.v._size + 1 := by omega
    have hov := hov hfull
    obtain ⟨hg1, hg2⟩ := UPSIZE_CAP_ge s.v._size 1 hov
    obtain ⟨hp, hc, -⟩ := post_grown h
      (N := (splice (List.replicate (UPSIZE_CAP s.v._size 1) default) 0
        (s.active.take s.v._size)).set s.v._size x)
      (n := s.v._size + 1) (c := UPSIZE_CAP s.v._size 1) (Y := xs ++ [x])
      (by simp [length_splice_eq]; omega) hg1 (by omega) hg2
      (by rw [exs]; exact seq_push_grow _ _ _ _ (by rw [hv.length]; omega) (by simp; omega))
    exact ⟨_, push_back_grow h x hfull hov, hp,
      by rw [hc, if_pos hfull, UPSIZE_CAP_eq _ _ hov]⟩

theorem insert_spec [Inhabited α] {s : State α C} (h : WF s) {xs : List α}
    (hxs : elements s = some xs) (p : Nat) (x : α) (hp : p ≤ s.v._size)
    (hov : s.v._capacity < s.v._size + 1 → 3 * (s.v._size + 1) < SIZE_MOD) :
    ∃ s1, insert true s ((begin s).add p) (ConstRef.value x)
        = Outcome.ret s1 ((begin s1).add p) ∧
      Post s s1 (xs.take p ++ [x] ++ xs.drop p) ∧
      s1.v._capacity = (if s.v._capacity < s.v._size + 1 then 3 * (s.v._size + 1) / 2
        else s.v._capacity) := by
  obtain ⟨hb1, hb2, hb3, hb4, hb5, hb6⟩ := h.bounds
  obtain ⟨exs, -⟩ := elements_inj h hxs
  have hv := view_of_WF h
  rw [begin_add h]
  by_cases hfit : s.v._size + 1 ≤ s.v._capacity
  · have hmode : s.v._size + 1 ≤ C ↔ s.v._size ≤ C := by
      constructor
      · intro; omega
      · intro hm; rw [hb4 hm] at hfit; exact hfit
    obtain ⟨hpost, hc, hd⟩ := post_inplace h
      (L := (splice s.active (p + 1) ((s.active.drop p).take (s.v._size - p))).set p x)
      (n := s.v._size + 1) (Y := xs.take p ++ [x] ++ xs.drop p)
      (by simp [length_splice_eq, hv.length]; omega) hfit hmode
      (by rw [exs]; exact seq_insert_inplace _ _ _ _ hp (by rw [hv.length]; omega))
    refine ⟨_, ?_, hpost, by rw [hc, if_neg (by omega)]⟩
    rw [insert_inplace true h p x hp hfit, begin_add hpost.wf, hd]
  · have hfull : s.v._capacity < s.v._size + 1 := by omega
    have hov := hov hfull
    obtain ⟨hg1, hg2⟩ := UPSIZE_CAP_ge s.v._size 1 hov
    obtain ⟨hpost, hc, hd⟩ := post_grown h
      (N := splice ((splice (List.replicate (UPSIZE_CAP s.v._size 1) default) 0
        (s.active.take p)).set p x) (p + 1) ((s.active.drop p).take (s.v._size - p)))
      (n := s.v._size + 1) (c := UPSIZE_CAP s.v._size 1)
      (Y := xs.take p ++ [x] ++ xs.drop p)
      (by simp [length_splice_eq]; omega) hg1 (by omega) hg2
      (by
        rw [exs]
        exact seq_insert_grow _ _ _ _ _ hp (by rw [hv.length]; omega) (by simp; omega))
    refine ⟨_, ?_, hpost, by rw [hc, if_pos hfull, UPSIZE_CAP_eq _ _ hov]⟩
    rw [insert_grow h p x hp hfull hov, begin_add hpost.wf, hd]

theorem post_refl {s : State α C} (h : WF s) {xs : List α} (hxs : elements s = some xs) :
    Post s s xs :=
  ⟨h, hxs, ⟨Nat.le_refl _, fun _ _ _ => rfl, fun _ hb => Or.inl hb⟩,
    (elements_inj h hxs).2.symm⟩

theorem insert_range_spec [Inhabited α] {s : State α C} (h : WF s) {xs : List α}
    (hxs : elements s = some xs) (p : Nat) (ys : List α) (hp : p ≤ s.v._size)
    (hov : s.v._capacity < s.v._size + ys.length →
      3 * (s.v._size + ys.length) < SIZE_MOD) :
    ∃ s1, insert_range true s ((begin s).add p) ys = Outcome.ret s1 ((begin s1).add p) ∧
      Post s s1 (xs.take p ++ ys ++ xs.drop p) ∧
      s1.v._capacity = (if s.v._capacity < s.v._size + ys.length
        then 3 * (s.v._size + ys.length) / 2 else s.v._capacity) := by
  obtain ⟨hb1, hb2, hb3, hb4, hb5, hb6⟩ := h.bounds
  obtain ⟨exs, -⟩ := elements_inj h hxs
  have hv := view_of_WF h
  rw [begin_add h]
  by_cases hk : ys = []
  · subst hk
    refine ⟨s, ?_, ?_, ?_⟩
    · rw [insert_range_nil true h p, begin_add h]
    · simpa using post_refl h hxs
    · simp only [List.length_nil, Nat.add_zero]
      rw [if_neg (by omega)]
  by_cases hfit : s.v._size + ys.length ≤ s.v._capacity
  · have hmode : s.v._size + ys.length ≤ C ↔ s.v._size ≤ C := by
      constructor
      · intro; omega
      · intro hm; rw [hb4 hm] at hfit; exact hfit
    obtain ⟨hpost, hc, hd⟩ := post_inplace h
      (L := splice (splice s.active (p + ys.length)
        ((s.active.drop p).take (s.v._size - p))) p ys)
      (n := s.v._size + ys.length) (Y := xs.take p ++ ys ++ xs.drop p)
      (by simp [length_splice_eq, hv.length]; omega) hfit hmode
      (by rw [exs]; exact seq_insert_range_inplace _ _ _ _ hp (by rw [hv.length]; omega))
    have hpj := post_junk hpost
    refine ⟨_, ?_, hpj, ?_⟩
    · rw [insert_range_inplace h p ys hp hk hfit, begin_add hpj.wf]
      show _ = Outcome.ret _ (⟨(data (s.inplace _ _)).region, p⟩ : Ptr)
      rw [hd]
    · show (s.inplace _ _).v._capacity = _
      rw [hc, if_neg (by omega)]
  · have hfull : s.v._capacity < s.v._size + ys.length := by omega
    have hov := hov hfull
    obtain ⟨hg1, hg2⟩ := UPSIZE_CAP_ge s.v._size ys.length hov
    obtain ⟨hpost, hc, hd⟩ := post_grown h
      (N := splice (splice (splice
        (List.replicate (UPSIZE_CAP s.v._size ys.length) default) 0 (s.active.take p))
        p ys) (p + ys.length) ((s.active.drop p).take (s.v._size - p)))
      (n := s.v._size + ys.length) (c := UPSIZE_CAP s.v._size ys.length)
      (Y := xs.take p ++ ys ++ xs.drop p)
      (by simp [length_splice_eq]; omega) hg1 (by omega) hg2
      (by
        rw [exs]
        exact seq_insert_range_grow _ _ _ _ _ hp (by rw [hv.length]; omega) (by simp; omega))
    refine ⟨_, ?_, hpost, by rw [hc, if_pos hfull, UPSIZE_CAP_eq _ _ hov]⟩
    rw [insert_range_grow h p ys hp hk hfull hov, begin_add hpost.wf, hd]

theorem pop_back_spec {s : State α C} (h : WF s) {xs : List α}
    (hxs : elements s = some xs) (h0 : s.v._size ≠ 0) :
    ∃ s1, pop_back s = Outcome.ret s1 () ∧ Post s s1 (xs.take (s.v._size - 1)) ∧
      s1.v._capacity = (if s.v._size = C + 1 then C else s.v._capacity) := by
  obtain ⟨hb1, hb2, hb3, hb4, hb5, hb6⟩ := h.bounds
  obtain ⟨exs, -⟩ := elements_inj h hxs
  have hv := view_of_WF h
  by_cases he : s.v._size = C + 1
  · obtain ⟨hpost, hc, -⟩ := post_shrunk h
      (S := splice s.v._static_storage 0 (s.active.take C)) (n := C)
      (Y := xs.take (s.v._size - 1)) (by omega)
      (by simp [length_splice_eq, h.static_length, hv.length]) (Nat.le_refl _)
      (by
        rw [exs, seq_pop_shrink _ _ _ (by rw [hv.length]; omega) (by rw [h.static_length]),
          List.take_take]
        congr 1
        omega)
    exact ⟨_, pop_back_shrink h he, hpost, by rw [hc, if_pos he]⟩
  · obtain ⟨hpost, hc, -⟩ := post_inplace h (L := s.active) (n := s.v._size - 1)
      (Y := xs.take (s.v._size - 1)) hv.length (by omega) (by omega)
      (by
        rw [exs, List.take_take]
        congr 1
        omega)
    exact ⟨_, pop_back_inplace h h0 he, hpost, by rw [hc, if_neg he]⟩

theorem erase_range_spec {s : State α C} (h : WF s) {xs : List α}
    (hxs : elements s = some xs) (i j : Nat) (hij : i ≤ j) (hj : j ≤ s.v._size) :
    ∃ s1, erase_range s ((begin s).add i) ((begin s).add j)
        = Outcome.ret s1 ((begin s1).add i) ∧
      Post s s1 (xs.take i ++ xs.drop j) ∧
      s1.v._capacity = (if C < s.v._size ∧ s.v._size - (j - i) ≤ C then C
        else s.v._capacity) := by
  obtain ⟨hb1, hb2, hb3, hb4, hb5, hb6⟩ := h.bounds
  obtain ⟨exs, -⟩ := elements_inj h hxs
  have hv := view_of_WF h
  rw [begin_add h, begin_add h]
  by_cases hgo : C < s.v._size ∧ s.v._size - (j - i) ≤ C
  · obtain ⟨hpost, hc, hd⟩ := post_shrunk h
      (S := splice (splice s.v._static_storage 0 (s.active.take i)) i
        ((s.active.drop j).take (s.v._size - j)))
      (n := s.v._size - (j - i)) (Y := xs.take i ++ xs.drop j) hgo.1
      (by simp [length_splice_eq, h.static_length, hv.length]; omega) hgo.2
      (by
        rw [exs]
        exact seq_erase_range_shrink _ _ _ _ _ hij hj (by rw [hv.length]; omega)
          (by rw [h.static_length]; omega))
    refine ⟨_, ?_, hpost, by rw [hc, if_pos hgo]⟩
    rw [erase_range_shrink h i j hij hj hgo.1 hgo.2, begin_add hpost.wf, hd]
  · obtain ⟨hpost, hc, hd⟩ := post_inplace h
      (L := splice s.active i ((s.active.drop j).take (s.v._size - j)))
      (n := s.v._size - (j - i)) (Y := xs.take i ++ xs.drop j)
      (by simp [length_splice_eq, hv.length]; omega) (by omega) (by omega)
      (by
        rw [exs]
        exact seq_erase_range_inplace _ _ _ _ hij hj (by rw [hv.length]; omega))
    refine ⟨_, ?_, hpost, by rw [hc, if_neg hgo]⟩
    rw [erase_range_inplace h i j hij hj (by omega), begin_add hpost.wf, hd]

theorem erase_spec {s : State α C} (h : WF s) {xs : List α}
    (hxs : elements s = some xs) (p : Nat) (hp : p < s.v._size) :
    ∃ s1, erase s ((begin s).add p) = Outcome.ret s1 ((begin s1).add p) ∧
      Post s s1 (xs.take p ++ xs.drop (p + 1)) ∧
      s1.v._capacity = (if s.v._size = C + 1 then C else s.v._capacity) := by
  obtain ⟨hb1, hb2, hb3, hb4, hb5, hb6⟩ := h.bounds
  obtain ⟨exs, -⟩ := elements_inj h hxs
  have hv := view_of_WF h
  have e : s.v._size - 1 = s.v._size - (p + 1 - p) := by omega
  rw [begin_add h]
  by_cases he : s.v._size = C + 1
  · obtain ⟨hpost, hc, hd⟩ := post_shrunk h
      (S := splice (splice s.v._static_storage 0 (s.active.take p)) p
        ((s.active.drop (p + 1)).take (s.v._size - (p + 1))))
      (n := C) (Y := xs.take p ++ xs.drop (p + 1)) (by omega)
      (by simp [length_splice_eq, h.static_length, hv.length]; omega) (Nat.le_refl _)
      (by
        have hseq := seq_erase_range_shrink s.active s.v._static_storage s.v._size p (p + 1)
          (Nat.le_succ _) hp (by rw [hv.length]; omega) (by rw [h.static_length]; omega)
        rw [show s.v._size - (p + 1 - p) = C by omega] at hseq
        rw [exs]
        exact hseq)
    refine ⟨_, ?_, hpost, by rw [hc, if_pos he]⟩
    rw [erase_shrink h p hp he, begin_add hpost.wf, hd]
  · obtain ⟨hpost, hc, hd⟩ := post_inplace h
      (L := splice s.active p ((s.active.drop (p + 1)).take (s.v._size - (p + 1))))
      (n := s.v._size - 1) (Y := xs.take p ++ xs.drop (p + 1))
      (by simp [length_splice_eq, hv.length]; omega) (by omega) (by omega)
      (by
        rw [exs, e]
        exact seq_erase_range_inplace _ _ _ _ (Nat.le_succ _) hp (by rw [hv.length]; omega))
    refine ⟨_, ?_, hpost, by rw [hc, if_neg he]⟩
    rw [erase_inplace h p hp he, begin_add hpost.wf, hd]

theorem clear_spec {s : State α C} (h : WF s) :
    ∃ s1, clear s = Outcome.ret s1 () ∧ Post s s1 [] ∧ s1.v._capacity = C := by
  obtain ⟨hb1, hb2, hb3, hb4, hb5, hb6⟩ := h.bounds
  have hv := view_of_WF h
  by_cases hm : C < s.v._size
  · obtain ⟨hpost, hc, -⟩ := post_shrunk h (S := s.v._static_storage) (n := 0) (Y := [])
      hm h.static_length (Nat.zero_le _) (by simp)
    exact ⟨_, clear_shrink h hm, hpost, hc⟩
  · obtain ⟨hpost, hc, -⟩ := post_inplace h (L := s.active) (n := 0) (Y := [])
      hv.length (Nat.zero_le _) (by omega) (by simp)
    exact ⟨_, clear_inplace h (by omega), hpost, by rw [hc, hb4 (by omega)]⟩

end Specs

/-! ## Constructors and assignment -/

section Construct
variable {α : Type} {C : Nat}

theorem WF_default [Inhabited α] (heap : List (Option (List α))) (hC : C < SIZE_MOD) :
    WF (construct_default heap : State α C) :=
  ⟨hC, Nat.zero_le _, List.length_replicate _ _, fun _ => ⟨rfl, rfl⟩,
    fun h => absurd h (Nat.not_lt_zero _)⟩

theorem active_default [Inhabited α] (heap : List (Option (List α))) :
    (construct_default heap : State α C).active = List.replicate C default := rfl

theorem elements_default [Inhabited α] (heap : List (Option (List α))) :
    elements (construct_default heap : State α C) = some [] := by
  simp [elements, State.read_range, begin, data, construct_default, State.load]

theorem construct_storage_inline [Inhabited α] (heap : List (Option (List α))) (n : Nat)
    (hn : n ≤ C) :
    (construct_storage true heap n : Outcome (State α C) Unit)
      = Outcome.ret ((construct_default heap : State α C).set_size n) () := by
  simp [construct_storage, Nat.not_lt.mpr hn, construct_default, State.set_size]

theorem construct_storage_spilled [Inhabited α] (heap : List (Option (List α))) (n : Nat)
    (hn : C < n) :
    (construct_storage true heap n : Outcome (State α C) Unit)
      = Outcome.ret ((construct_default heap : State α C).grown
          (List.replicate (UPSIZE_CAP n 0) default) n (UPSIZE_CAP n 0)) () := by
  simp [construct_storage, hn, construct_default, State.grown, State.new_array]

theorem copy_in_inline {s : State α C} (h : WF s) (hm : s.v._size ≤ C) (n : Nat)
    (hn : n ≤ C) (xs : List α) (hx : xs.length ≤ C) :
    std_copy_in xs (s.set_size n) (begin (s.set_size n))
      = some (s.inplace (splice s.v._static_storage 0 xs) n, ⟨Region.stat, xs.length⟩) := by
  have hd : begin (s.set_size n) = ⟨Region.stat, 0⟩ := data_inline (s := s.set_size n) hn
  rw [hd, std_copy_in_eq xs (s.set_size n) ⟨Region.stat, 0⟩ s.v._static_storage rfl
    (by simp [h.static_length]; omega)]
  simp [State.inplace, data_inline hm, store_set_size, Ptr.add]

theorem fill_inline {s : State α C} (h : WF s) (hm : s.v._size ≤ C) (n : Nat)
    (hn : n ≤ C) (k : Nat) (x : α) (hx : k ≤ C) :
    std_fill_n k (s.set_size n) (begin (s.set_size n)) x
      = some (s.inplace (splice s.v._static_storage 0 (List.replicate k x)) n) := by
  have hd : begin (s.set_size n) = ⟨Region.stat, 0⟩ := data_inline (s := s.set_size n) hn
  rw [hd, std_fill_n_eq k x (s.set_size n) ⟨Region.stat, 0⟩ s.v._static_storage rfl
    (by simp [h.static_length]; omega)]
  simp [State.inplace, data_inline hm, store_set_size]

theorem load_grown (s : State α C) (N : List α) (n cap : Nat) :
    (s.grown N n cap).load (Region.heap s.heap.length) = some N := by
  have hlen : (if C < s.v._size then s.released else s.heap).length = s.heap.length := by
    split
    · exact released_length s
    · rfl
  simp [State.load, State.grown, List.getElem?_append, hlen]

theorem store_grown (s : State α C) (N N1 : List α) (n cap : Nat) :
    (s.grown N n cap).store (Region.heap s.heap.length) N1 = s.grown N1 n cap := by
  have hlen : (if C < s.v._size then s.released else s.heap).length = s.heap.length := by
    split
    · exact released_length s
    · rfl
  simp [State.store, State.grown, List.set_append, hlen]

theorem copy_in_grown (s : State α C) (N : List α) (n cap : Nat) (hn : C < n)
    (xs : List α) (hx : xs.length ≤ N.length) :
    std_copy_in xs (s.grown N n cap) (begin (s.grown N n cap))
      = some (s.grown (splice N 0 xs) n cap, ⟨Region.heap s.heap.length, xs.length⟩) := by
  have hd : begin (s.grown N n cap) = ⟨Region.heap s.heap.length, 0⟩ := data_grown s N n cap hn
  rw [hd, std_copy_in_eq xs _ _ N (load_grown s N n cap) (by simpa using hx)]
  simp [store_grown, Ptr.add]

theorem fill_grown (s : State α C) (N : List α) (n cap : Nat) (hn : C < n)
    (k : Nat) (x : α) (hx : k ≤ N.length) :
    std_fill_n k (s.grown N n cap) (begin (s.grown N n cap)) x
      = some (s.grown (splice N 0 (List.replicate k x)) n cap) := by
  have hd : begin (s.grown N n cap) = ⟨Region.heap s.heap.length, 0⟩ := data_grown s N n cap hn
  rw [hd, std_fill_n_eq k x _ _ N (load_grown s N n cap) (by simpa using hx)]
  simp [store_grown]

theorem take_splice_zero (B xs : List α) :
    (splice B 0 xs).take xs.length = xs := by
  simp [splice]

/-- Specification of the range constructor, relative to the default-constructed
container in the same store. -/
theorem construct_range_spec [Inhabited α] (heap : List (Option (List α))) (xs : List α)
    (hC : C < SIZE_MOD) (hov0 : xs.length ≤ C ∨ 3 * xs.length < SIZE_MOD) :
    ∃ s1 : State α C, construct_range true heap xs = Outcome.ret s1 () ∧
      Post (construct_default heap) s1 xs ∧
      s1.v._capacity = (if C < xs.length then 3 * xs.length / 2 else C) := by
  have h0 : WF (construct_default heap : State α C) := WF_default heap hC
  have e0 : xs.length % SIZE_MOD = xs.length := Nat.mod_eq_of_lt (by omega)
  by_cases hm : xs.length ≤ C
  · obtain ⟨hpost, hc, -⟩ := post_inplace h0
      (L := splice (construct_default heap : State α C).v._static_storage 0 xs)
      (n := xs.length) (Y := xs)
      (by simp [length_splice_eq, construct_default]; omega) hm
      (by simp [construct_default, hm])
      (take_splice_zero _ _)
    refine ⟨_, ?_, hpost, by rw [hc, if_neg (by omega)]; rfl⟩
    simp only [construct_range, e0, construct_storage_inline heap _ hm,
      copy_in_inline h0 (Nat.zero_le _) _ hm xs hm, orUndefined]
  · have hm1 : C < xs.length := by omega
    have hov : 3 * xs.length < SIZE_MOD := by omega
    obtain ⟨hg1, hg2⟩ := UPSIZE_CAP_ge xs.length 0 (by simpa using hov)
    obtain ⟨hpost, hc, -⟩ := post_grown h0
      (N := splice (List.replicate (UPSIZE_CAP xs.length 0) default) 0 xs)
      (n := xs.length) (c := UPSIZE_CAP xs.length 0) (Y := xs)
      (by simp [length_splice_eq]; omega) (by omega) hm1 hg2
      (take_splice_zero _ _)
    refine ⟨_, ?_, hpost, by rw [hc, if_pos hm1, UPSIZE_CAP_eq _ _ (by simpa using hov)]; rfl⟩
    simp only [construct_range, e0, construct_storage_spilled heap _ hm1,
      copy_in_grown (construct_default heap)
        (List.replicate (UPSIZE_CAP xs.length 0) default) _ _ hm1 xs (by simp; omega),
      orUndefined]

theorem construct_fill_spec [Inhabited α] (heap : List (Option (List α))) (count : Nat)
    (x : α) (hC : C < SIZE_MOD) (hov0 : count ≤ C ∨ 3 * count < SIZE_MOD) :
    ∃ s1 : State α C, construct_fill true heap count x = Outcome.ret s1 () ∧
      Post (construct_default heap) s1 (List.replicate count x) ∧
      s1.v._capacity = (if C < count then 3 * count / 2 else C) := by
  have h0 : WF (construct_default heap : State α C) := WF_default heap hC
  have hl : (List.replicate count x).length = count := List.length_replicate _ _
  by_cases hm : count ≤ C
  · obtain ⟨hpost, hc, -⟩ := post_inplace h0
      (L := splice (construct_default heap : State α C).v._static_storage 0
        (List.replicate count x))
      (n := count) (Y := List.replicate count x)
      (by simp [length_splice_eq, construct_default]; omega) hm
      (by simp [construct_default, hm])
      (by
        have := take_splice_zero (construct_default heap : State α C).v._static_storage
          (List.replicate count x)
        rwa [hl] at this)
    refine ⟨_, ?_, hpost, by rw [hc, if_neg (by omega)]; rfl⟩
    simp only [construct_fill, construct_storage_inline heap _ hm,
      fill_inline h0 (Nat.zero_le _) _ hm count x hm, orUndefined]
  · have hm1 : C < count := by omega
    have hov : 3 * count < SIZE_MOD := by omega
    obtain ⟨hg1, hg2⟩ := UPSIZE_CAP_ge count 0 (by simpa using hov)
    obtain ⟨hpost, hc, -⟩ := post_grown h0
      (N := splice (List.replicate (UPSIZE_CAP count 0) default) 0 (List.replicate count x))
      (n := count) (c := UPSIZE_CAP count 0) (Y := List.replicate count x)
      (by simp [length_splice_eq]; omega) (by omega) hm1 hg2
      (by
        have := take_splice_zero (List.replicate (UPSIZE_CAP count 0) (default : α))
          (List.replicate count x)
        rwa [hl] at this)
    refine ⟨_, ?_, hpost, by rw [hc, if_pos hm1, UPSIZE_CAP_eq _ _ (by simpa using hov)]; rfl⟩
    simp only [construct_fill, construct_storage_spilled heap _ hm1,
      fill_grown (construct_default heap)
        (List.replicate (UPSIZE_CAP count 0) default) _ _ hm1 count x (by simp; omega),
      orUndefined]

theorem elements_congr (v : VLVector α C) (heap heap1 : List (Option (List α)))
    (h : ∀ b, v._heap_storage = some b → heap1[b]? = heap[b]?) :
    elements ({ heap := heap1, v := v } : State α C)
      = elements ({ heap := heap, v := v } : State α C) := by
  unfold elements State.read_range begin data
  by_cases hm : C < v._size
  · cases hb : v._heap_storage with
    | none => simp [hm, hb, State.load]
    | some b => simp [hm, hb, State.load, h b hb]
  · simp [hm, State.load]

theorem copy_in_shrunk (s : State α C) (S : List α) (n : Nat) (hn : n ≤ C)
    (xs : List α) (hx : xs.length ≤ S.length) :
    std_copy_in xs (s.shrunk S n) (begin (s.shrunk S n))
      = some (s.shrunk (splice S 0 xs) n, ⟨Region.stat, xs.length⟩) := by
  have hd : begin (s.shrunk S n) = ⟨Region.stat, 0⟩ := data_inline (s := s.shrunk S n) hn
  rw [hd, std_copy_in_eq xs (s.shrunk S n) ⟨Region.stat, 0⟩ S rfl (by simpa using hx)]
  simp [State.shrunk, State.store, Ptr.add]

/-- The block of a container that is well-formed in a store lies inside the
store. -/
theorem block_lt {s : State α C} (h : WF s) {b : Nat} (hb : s.v._heap_storage = some b) :
    b < s.heap.length := by
  by_cases hm : C < s.v._size
  · obtain ⟨b1, blk, hb1, hblk, -⟩ := h.spilled hm
    rw [hb] at hb1
    cases hb1
    exact (List.getElem?_eq_some_iff.mp hblk).1
  · have := (h.inline (by omega)).2
    rw [hb] at this
    cases this

theorem construct_copy_spec [Inhabited α] (heap : List (Option (List α)))
    (rhs : VLVector α C) (hr : WF ({ heap := heap, v := rhs } : State α C)) {xs : List α}
    (hxs : elements ({ heap := heap, v := rhs } : State α C) = some xs) :
    ∃ s1 : State α C, construct_copy true heap rhs = Outcome.ret s1 () ∧
      Post (construct_default heap) s1 xs ∧ s1.v._capacity = rhs._capacity := by
  obtain ⟨hb1, hb2, hb3, hb4, hb5, hb6⟩ := hr.bounds
  obtain ⟨-, hlen⟩ := elements_inj hr hxs
  dsimp only at hb1 hb2 hb4 hb5 hb6 hlen
  have h0 : WF (construct_default heap : State α C) := WF_default heap hb3
  by_cases hm : rhs._size ≤ C
  · have hcap : rhs._capacity = C := hb4 hm
    obtain ⟨hpost, hc, -⟩ := post_inplace h0
      (L := splice (construct_default heap : State α C).v._static_storage 0 xs)
      (n := rhs._size) (Y := xs)
      (by simp [length_splice_eq, construct_default]; omega) hm
      (by simp [construct_default, hm])
      (by
        have hl : xs.length = rhs._size := hlen
        rw [← hl]
        exact take_splice_zero _ _)
    refine ⟨_, ?_, hpost, by rw [hc, hcap]; rfl⟩
    have e1 : (⟨heap, ⟨rhs._size, rhs._capacity, List.replicate C default, none⟩⟩ : State α C)
        = (construct_default heap : State α C).set_size rhs._size := by
      simp [construct_default, State.set_size, hcap]
    have hl : xs.length ≤ C := by
      have hl : xs.length = rhs._size := hlen
      omega
    simp only [construct_copy, Nat.not_lt.mpr hm, if_false, e1, set_size_heap]
    rw [hxs]
    simp only [orUndefined, copy_in_inline h0 (Nat.zero_le _) _ hm xs hl]
  · have hm1 : C < rhs._size := by omega
    have hl : xs.length = rhs._size := hlen
    obtain ⟨hpost, hc, -⟩ := post_grown h0
      (N := splice (List.replicate rhs._capacity default) 0 xs)
      (n := rhs._size) (c := rhs._capacity) (Y := xs)
      (by simp [length_splice_eq]; omega) hb5 hm1 hb6
      (by rw [← hl]; exact take_splice_zero _ _)
    refine ⟨_, ?_, hpost, hc⟩
    have e1 : (⟨heap ++ [some (List.replicate rhs._capacity default)],
        ⟨rhs._size, rhs._capacity, List.replicate C default, some heap.length⟩⟩ : State α C)
        = (construct_default heap : State α C).grown (List.replicate rhs._capacity default)
          rhs._size rhs._capacity := by
      simp [construct_default, State.grown]
    have e3 : elements (⟨heap ++ [some (List.replicate rhs._capacity default)], rhs⟩ :
        State α C) = some xs := by
      rw [elements_congr rhs heap _ (fun b hb => List.getElem?_append_left (block_lt hr hb)), hxs]
    simp only [construct_copy, hm1, if_true, State.new_array, e1]
    rw [e3]
    simp only [orUndefined, copy_in_grown (construct_default heap)
      (List.replicate rhs._capacity default) _ _ hm1 xs (by simp; omega)]

theorem assign_release {s : State α C} (h : WF s) :
    (if s.v._size > C then
      (s.delete_array s.v._heap_storage).map fun s1 =>
        ({ s1 with v := { s1.v with _heap_storage := none } } : State α C)
     else some s)
      = some (⟨if C < s.v._size then s.released else s.heap,
          ⟨s.v._size, s.v._capacity, s.v._static_storage, none⟩⟩ : State α C) := by
  by_cases hm : C < s.v._size
  · obtain ⟨b, blk, hb, hblk, -⟩ := h.spilled hm
    simp [hm, hb, State.delete_array, hblk, State.released]
  · have hn := (h.inline (by omega)).2
    simp only [gt_iff_lt, hm, if_false]
    congr 1
    cases s with
    | mk heap v =>
      cases v with
      | mk a b c d =>
        simp only at hn
        subst hn
        rfl

theorem assign_self [Inhabited α] (ok : Bool) (s : State α C) :
    assign ok s Rhs.self = Outcome.ret s () := rfl

theorem assign_spec [Inhabited α] {s : State α C} (h : WF s) (rhs : VLVector α C)
    (hr : WF (⟨s.heap, rhs⟩ : State α C))
    (hdis : ∀ b, s.v._heap_storage = some b → rhs._heap_storage ≠ some b)
    {xs : List α} (hxs : elements (⟨s.heap, rhs⟩ : State α C) = some xs) :
    ∃ s1, assign true s (Rhs.other rhs) = Outcome.ret s1 () ∧ Post s s1 xs ∧
      s1.v._capacity = rhs._capacity := by
  obtain ⟨hb1, hb2, hb3, hb4, hb5, hb6⟩ := hr.bounds
  obtain ⟨-, hlen⟩ := elements_inj hr hxs
  dsimp only at hb1 hb2 hb4 hb5 hb6 hlen
  have hs := h.bounds
  by_cases hm : rhs._size ≤ C
  · have hcap : rhs._capacity = C := hb4 hm
    have hrn : rhs._heap_storage = none := (hr.inline hm).2
    have hxl : xs.length ≤ C := by omega
    by_cases hsm : C < s.v._size
    · obtain ⟨hpost, hc, -⟩ := post_shrunk h
        (S := splice s.v._static_storage 0 xs) (n := rhs._size) (Y := xs) hsm
        (by simp [length_splice_eq, h.static_length]; omega) hm
        (by rw [← hlen]; exact take_splice_zero _ _)
      refine ⟨_, ?_, hpost, by rw [hc, hcap]⟩
      have e1 : (⟨s.released, ⟨rhs._size, rhs._capacity, s.v._static_storage, none⟩⟩ :
          State α C) = s.shrunk s.v._static_storage rhs._size := by
        simp [State.shrunk, hcap]
      have e3 : elements (⟨s.released, rhs⟩ : State α C) = some xs := by
        rw [elements_congr rhs s.heap _ (fun b hb => by rw [hrn] at hb; cases hb), hxs]
      simp only [assign, assign_release h, orUndefined]
      simp only [hsm, if_true, Nat.not_lt.mpr hm, if_false, gt_iff_lt, e1, e3,
        copy_in_shrunk s _ _ hm xs (by rw [h.static_length]; exact hxl)]
    · have hsm1 : s.v._size ≤ C := by omega
      obtain ⟨hpost, hc, -⟩ := post_inplace h
        (L := splice s.v._static_storage 0 xs) (n := rhs._size) (Y := xs)
        (by simp [length_splice_eq, h.static_length, hs.2.2.2.1 hsm1]; omega)
        (by rw [hs.2.2.2.1 hsm1]; exact hm) (by simp [hm, hsm1])
        (by rw [← hlen]; exact take_splice_zero _ _)
      refine ⟨_, ?_, hpost, by rw [hc, hcap, hs.2.2.2.1 hsm1]⟩
      have e1 : (⟨s.heap, ⟨rhs._size, rhs._capacity, s.v._static_storage, none⟩⟩ :
          State α C) = s.set_size rhs._size := by
        cases s with
        | mk heap v =>
          cases v with
          | mk a b c d =>
            have h1 := (h.inline hsm1).1
            have h2 := (h.inline hsm1).2
            simp only at h1 h2
            subst h1 h2
            simp [State.set_size, hcap]
      simp only [assign, assign_release h, orUndefined]
      simp only [hsm, if_false, Nat.not_lt.mpr hm, gt_iff_lt, e1, set_size_heap, hxs,
        copy_in_inline h hsm1 _ hm xs hxl]
  · have hm1 : C < rhs._size := by omega
    obtain ⟨hpost, hc, -⟩ := post_grown h
      (N := splice (List.replicate rhs._capacity default) 0 xs)
      (n := rhs._size) (c := rhs._capacity) (Y := xs)
      (by simp [length_splice_eq]; omega) hb5 hm1 hb6
      (by rw [← hlen]; exact take_splice_zero _ _)
    refine ⟨_, ?_, hpost, hc⟩
    have hlen1 : (if C < s.v._size then s.released else s.heap).length = s.heap.length := by
      split
      · exact released_length s
      · rfl
    have e1 : (⟨(if C < s.v._size then s.released else s.heap) ++
          [some (List.replicate rhs._capacity default)],
        ⟨rhs._size, rhs._capacity, s.v._static_storage, some s.heap.length⟩⟩ : State α C)
        = s.grown (List.replicate rhs._capacity default) rhs._size rhs._capacity := rfl
    have e3 : elements (⟨(if C < s.v._size then s.released else s.heap) ++
        [some (List.replicate rhs._capacity default)], rhs⟩ : State α C) = some xs := by
      rw [← hxs]
      apply elements_congr
      intro b hb
      have hlt : b < s.heap.length := block_lt hr hb
      have hne : s.v._heap_storage ≠ some b := fun e => hdis b e hb
      rw [List.getElem?_append_left (by rw [hlen1]; exact hlt)]
      split
      · exact released_getElem?_of_ne s b hne
      · rfl
    simp only [assign, assign_release h, orUndefined]
    simp only [hm1, if_true, gt_iff_lt, State.new_array, hlen1, e1, e3,
      copy_in_grown s (List.replicate rhs._capacity default) _ _ hm1 xs (by simp; omega)]

end Construct

/-! ## Several containers: invariant and frame -/

section WorldLemmas
variable {α : Type} {C : Nat}

theorem WF_heap_congr {heap heap1 : List (Option (List α))} {u : VLVector α C}
    (h : WF (⟨heap, u⟩ : State α C))
    (hc : ∀ b, u._heap_storage = some b → heap1[b]? = heap[b]?) :
    WF (⟨heap1, u⟩ : State α C) := by
  refine ⟨h.capacity_lt, h.size_le_capacity, h.static_length, h.inline, fun hm => ?_⟩
  obtain ⟨b, blk, hb, hblk, hlen⟩ := h.spilled hm
  exact ⟨b, blk, hb, by rw [hc b hb]; exact hblk, hlen⟩

theorem run_eq {ρ : Type} {w : World α C} {i : Nat} {v : VLVector α C}
    {f : State α C → Outcome (State α C) ρ} {s1 : State α C} {r : ρ}
    (hv : w.objs[i]? = some v) (hf : f ⟨w.heap, v⟩ = Outcome.ret s1 r) :
    w.run i f = Outcome.ret ⟨s1.heap, w.objs.set i s1.v⟩ r := by
  simp [World.run, hv, hf]

theorem construct_eq {w : World α C}
    {f : List (Option (List α)) → Outcome (State α C) Unit} {s1 : State α C}
    (hf : f w.heap = Outcome.ret s1 ()) :
    w.construct f = Outcome.ret ⟨s1.heap, w.objs ++ [s1.v]⟩ () := by
  simp [World.construct, hf]

theorem run_preserves {w : World α C} (hw : WInv w) {i : Nat} {v : VLVector α C}
    (hv : w.objs[i]? = some v) {s1 : State α C} {ys : List α}
    (hp : Post (⟨w.heap, v⟩ : State α C) s1 ys) :
    WInv (⟨s1.heap, w.objs.set i s1.v⟩ : World α C) ∧
      Untouched w ⟨s1.heap, w.objs.set i s1.v⟩ (some i) := by
  have hi : i < w.objs.length := (List.getElem?_eq_some_iff.mp hv).1
  have hother : ∀ (j : Nat) (u : VLVector α C), j ≠ i → w.objs[j]? = some u →
      ∀ b, u._heap_storage = some b → s1.heap[b]? = w.heap[b]? := by
    intro j u hji hu b hb
    exact hp.frame.others b (block_lt (hw.wf j u hu) hb)
      (fun e => hw.disjoint i j v u b (Ne.symm hji) hv hu e hb)
  have hget : ∀ (j : Nat), j ≠ i → (w.objs.set i s1.v)[j]? = w.objs[j]? := by
    intro j hji
    simp [List.getElem?_set, Ne.symm hji]
  have hgeti : (w.objs.set i s1.v)[i]? = some s1.v := by
    simp [List.getElem?_set, hi]
  refine ⟨⟨fun j u hu => ?_, fun j k u1 u2 b hjk hu1 hu2 hb1 hb2 => ?_⟩,
    fun j u hj hu => ?_⟩
  · by_cases hji : j = i
    · subst hji
      rw [hgeti] at hu
      cases hu
      exact hp.wf
    · rw [hget j hji] at hu
      exact WF_heap_congr (hw.wf j u hu) (hother j u hji hu)
  · dsimp only at hu1 hu2
    by_cases hji : j = i
    · subst hji
      rw [hgeti] at hu1
      cases hu1
      rw [hget k (Ne.symm hjk)] at hu2
      rcases hp.frame.own b hb1 with h1 | h1
      · exact hw.disjoint j k v u2 b hjk hv hu2 h1 hb2
      · have := block_lt (hw.wf k u2 hu2) hb2
        dsimp only at this h1
        omega
    · rw [hget j hji] at hu1
      by_cases hki : k = i
      · subst hki
        rw [hgeti] at hu2
        cases hu2
        rcases hp.frame.own b hb2 with h1 | h1
        · exact hw.disjoint j k u1 v b hjk hu1 hv hb1 h1
        · have := block_lt (hw.wf j u1 hu1) hb1
          dsimp only at this h1
          omega
      · rw [hget k hki] at hu2
        exact hw.disjoint j k u1 u2 b hjk hu1 hu2 hb1 hb2
  · have hji : j ≠ i := fun e => hj (by rw [e])
    exact ⟨by dsimp only; rw [hget j hji]; exact hu,
      elements_congr u w.heap s1.heap (hother j u hji hu)⟩

theorem construct_preserves [Inhabited α] {w : World α C} (hw : WInv w) {s1 : State α C}
    {ys : List α} (hp : Post (construct_default w.heap : State α C) s1 ys) :
    WInv (⟨s1.heap, w.objs ++ [s1.v]⟩ : World α C) ∧
      Untouched w ⟨s1.heap, w.objs ++ [s1.v]⟩ none := by
  have hother : ∀ (j : Nat) (u : VLVector α C), w.objs[j]? = some u →
      ∀ b, u._heap_storage = some b → s1.heap[b]? = w.heap[b]? := by
    intro j u hu b hb
    exact hp.frame.others b (block_lt (hw.wf j u hu) hb) (by simp [construct_default])
  have hold : ∀ (j : Nat), j < w.objs.length → (w.objs ++ [s1.v])[j]? = w.objs[j]? := by
    intro j hj
    exact List.getElem?_append_left hj
  have hcases : ∀ (j : Nat) (u : VLVector α C), (w.objs ++ [s1.v])[j]? = some u →
      (j < w.objs.length ∧ w.objs[j]? = some u) ∨ (j = w.objs.length ∧ u = s1.v) := by
    intro j u hu
    by_cases hj : j < w.objs.length
    · rw [hold j hj] at hu
      exact Or.inl ⟨hj, hu⟩
    · have hlt := (List.getElem?_eq_some_iff.mp hu).1
      simp at hlt
      have hj1 : j = w.objs.length := by omega
      subst hj1
      simp at hu
      exact Or.inr ⟨rfl, hu.symm⟩
  have hnew : ∀ b, s1.v._heap_storage = some b → w.heap.length ≤ b := by
    intro b hb
    rcases hp.frame.own b hb with h1 | h1
    · simp [construct_default] at h1
    · exact h1
  refine ⟨⟨fun j u hu => ?_, fun j k u1 u2 b hjk hu1 hu2 hb1 hb2 => ?_⟩,
    fun j u _ hu => ?_⟩
  · rcases hcases j u hu with ⟨-, h1⟩ | ⟨-, h1⟩
    · exact WF_heap_congr (hw.wf j u h1) (hother j u h1)
    · subst h1
      exact hp.wf
  · rcases hcases j u1 hu1 with ⟨-, h1⟩ | ⟨hj, h1⟩
    · rcases hcases k u2 hu2 with ⟨-, h2⟩ | ⟨-, h2⟩
      · exact hw.disjoint j k u1 u2 b hjk h1 h2 hb1 hb2
      · subst h2
        have := block_lt (hw.wf j u1 h1) hb1
        have := hnew b hb2
        dsimp only at *
        omega
    · rcases hcases k u2 hu2 with ⟨-, h2⟩ | ⟨hk, -⟩
      · subst h1
        have := block_lt (hw.wf k u2 h2) hb2
        have := hnew b hb1
        dsimp only at *
        omega
      · exact absurd (hj.trans hk.symm) hjk
  · have hj : j < w.objs.length := (List.getElem?_eq_some_iff.mp hu).1
    exact ⟨by dsimp only; rw [hold j hj]; exact hu,
      elements_congr u w.heap s1.heap (hother j u hu)⟩

end WorldLemmas

section Step
variable {α : Type} {C : Nat}

theorem take_set_comm (L : List α) (n i : Nat) (x : α) :
    (L.set i x).take n = (L.take n).set i x := by
  apply List.ext_getElem?
  intro t
  simp only [List.getElem?_take, List.getElem?_set, List.length_take]
  split_ifs <;> first
    | rfl
    | (exfalso; omega)

theorem set_size_self (s : State α C) : s.set_size s.v._size = s := rfl

theorem inplace_same_size (s : State α C) (L : List α) :
    s.inplace L s.v._size = s.store (data s).region L := by
  have := set_size_self (s.store (data s).region L)
  rw [store_size] at this
  exact this

theorem write_spec {s : State α C} (h : WF s) {xs : List α}
    (hxs : elements s = some xs) (i : Nat) (x : α) (hi : i < s.v._size) :
    ∃ s1, s.write (index s i) x = some s1 ∧ Post s s1 (xs.set i x) ∧
      s1.v._capacity = s.v._capacity := by
  obtain ⟨hb1, hb2, hb3, hb4, hb5, hb6⟩ := h.bounds
  obtain ⟨exs, -⟩ := elements_inj h hxs
  have hv := view_of_WF h
  obtain ⟨hpost, hc, -⟩ := post_inplace h (L := s.active.set i x) (n := s.v._size)
    (Y := xs.set i x) (by simp [hv.length]) hb5 Iff.rfl
    (by rw [exs]; exact take_set_comm _ _ _ _)
  refine ⟨_, ?_, hpost, hc⟩
  rw [index, begin_add h, write_eq (p := ⟨(data s).region, i⟩) (l := s.active) x hv.load
    (by show i < s.active.length; rw [hv.length]; omega)]
  rw [inplace_same_size]

end Step

section Step2
variable {α : Type} {C : Nat}

theorem discard_run_eq {ρ : Type} {w : World α C} {i : Nat} {v : VLVector α C}
    {f : State α C → Outcome (State α C) ρ} {s1 : State α C} {r : ρ}
    (hv : w.objs[i]? = some v) (hf : f ⟨w.heap, v⟩ = Outcome.ret s1 r) :
    (w.run i f).discard = Outcome.ret ⟨s1.heap, w.objs.set i s1.v⟩ () := by
  rw [run_eq hv hf]; rfl

theorem exists_obj {w : World α C} {i : Nat} (h : i < w.objs.length) :
    ∃ v, w.objs[i]? = some v :=
  ⟨w.objs[i], List.getElem?_eq_getElem h⟩

/-- Every call whose preconditions hold returns, keeps the world invariant and
touches no container but its target. -/
theorem step_spec [Inhabited α] (hC : C < SIZE_MOD) {w : World α C} (hw : WInv w)
    (op : Op α) (ha : w.allowed op) :
    ∃ w1, w.step op = Outcome.ret w1 () ∧ WInv w1 ∧ Untouched w w1 op.target := by
  cases op with
  | construct_default =>
    have hp := post_refl (WF_default (α := α) (C := C) w.heap hC) (elements_default w.heap)
    obtain ⟨h1, h2⟩ := construct_preserves hw hp
    refine ⟨_, ?_, h1, h2⟩
    simp only [World.step]
    exact construct_eq rfl
  | construct_range xs =>
    obtain ⟨s1, hs, hp, -⟩ := construct_range_spec (C := C) w.heap xs hC ha
    obtain ⟨h1, h2⟩ := construct_preserves hw hp
    refine ⟨_, ?_, h1, h2⟩
    simp only [World.step]
    exact construct_eq hs
  | construct_fill count x =>
    obtain ⟨s1, hs, hp, -⟩ := construct_fill_spec (C := C) w.heap count x hC ha
    obtain ⟨h1, h2⟩ := construct_preserves hw hp
    refine ⟨_, ?_, h1, h2⟩
    simp only [World.step]
    exact construct_eq hs
  | construct_copy j =>
    obtain ⟨r, hr⟩ := exists_obj (w := w) ha
    have hwf := hw.wf j r hr
    obtain ⟨s1, hs, hp, -⟩ := construct_copy_spec w.heap r hwf (elements_of_WF hwf)
    obtain ⟨h1, h2⟩ := construct_preserves hw hp
    refine ⟨_, ?_, h1, h2⟩
    simp only [World.step, hr]
    exact construct_eq hs
  | push_back i x =>
    simp only [World.allowed] at ha
    cases hv : w.objs[i]? with
    | none => rw [hv] at ha; exact absurd ha id
    | some v =>
      rw [hv] at ha
      have hwf := hw.wf i v hv
      obtain ⟨s1, hs, hp, -⟩ := push_back_spec hwf (elements_of_WF hwf) x
        (fun hfull => by dsimp only at hfull ⊢; omega)
      obtain ⟨h1, h2⟩ := run_preserves hw hv hp
      refine ⟨_, ?_, h1, h2⟩
      simp only [World.step]
      exact run_eq hv hs
  | insert i p x =>
    simp only [World.allowed] at ha
    cases hv : w.objs[i]? with
    | none => rw [hv] at ha; exact absurd ha id
    | some v =>
      rw [hv] at ha
      have hwf := hw.wf i v hv
      obtain ⟨s1, hs, hp, -⟩ := insert_spec hwf (elements_of_WF hwf) p x ha.1
        (fun hfull => by have := ha.2; dsimp only at hfull ⊢; omega)
      obtain ⟨h1, h2⟩ := run_preserves hw hv hp
      exact ⟨_, discard_run_eq hv hs, h1, h2⟩
  | insert_range i p xs =>
    simp only [World.allowed] at ha
    cases hv : w.objs[i]? with
    | none => rw [hv] at ha; exact absurd ha id
    | some v =>
      rw [hv] at ha
      have hwf := hw.wf i v hv
      obtain ⟨s1, hs, hp, -⟩ := insert_range_spec hwf (elements_of_WF hwf) p xs ha.1
        (fun hfull => by have := ha.2; dsimp only at hfull ⊢; omega)
      obtain ⟨h1, h2⟩ := run_preserves hw hv hp
      exact ⟨_, discard_run_eq hv hs, h1, h2⟩
  | pop_back i =>
    obtain ⟨v, hv⟩ := exists_obj (w := w) ha
    have hwf := hw.wf i v hv
    by_cases h0 : v._size = 0
    · have hp := post_refl hwf (elements_of_WF hwf)
      obtain ⟨h1, h2⟩ := run_preserves hw hv hp
      refine ⟨_, ?_, h1, h2⟩
      simp only [World.step]
      exact run_eq hv (pop_back_empty (s := ⟨w.heap, v⟩) h0)
    · obtain ⟨s1, hs, hp, -⟩ := pop_back_spec hwf (elements_of_WF hwf) h0
      obtain ⟨h1, h2⟩ := run_preserves hw hv hp
      refine ⟨_, ?_, h1, h2⟩
      simp only [World.step]
      exact run_eq hv hs
  | erase i p =>
    simp only [World.allowed] at ha
    cases hv : w.objs[i]? with
    | none => rw [hv] at ha; exact absurd ha id
    | some v =>
      rw [hv] at ha
      have hwf := hw.wf i v hv
      by_cases hpe : p = v._size
      · have hp := post_refl hwf (elements_of_WF hwf)
        obtain ⟨h1, h2⟩ := run_preserves hw hv hp
        refine ⟨_, discard_run_eq (r := (⟨(data ⟨w.heap, v⟩).region, v._size⟩ : Ptr)) hv ?_,
          h1, h2⟩
        rw [begin_add hwf, hpe]
        exact erase_end hwf
      · obtain ⟨s1, hs, hp, -⟩ := erase_spec hwf (elements_of_WF hwf) p
          (by dsimp only; omega)
        obtain ⟨h1, h2⟩ := run_preserves hw hv hp
        exact ⟨_, discard_run_eq hv hs, h1, h2⟩
  | erase_range i a b =>
    simp only [World.allowed] at ha
    cases hv : w.objs[i]? with
    | none => rw [hv] at ha; exact absurd ha id
    | some v =>
      rw [hv] at ha
      have hwf := hw.wf i v hv
      obtain ⟨s1, hs, hp, -⟩ := erase_range_spec hwf (elements_of_WF hwf) a b ha.1 ha.2
      obtain ⟨h1, h2⟩ := run_preserves hw hv hp
      exact ⟨_, discard_run_eq hv hs, h1, h2⟩
  | clear i =>
    obtain ⟨v, hv⟩ := exists_obj (w := w) ha
    have hwf := hw.wf i v hv
    obtain ⟨s1, hs, hp, -⟩ := clear_spec hwf
    obtain ⟨h1, h2⟩ := run_preserves hw hv hp
    refine ⟨_, ?_, h1, h2⟩
    simp only [World.step]
    exact run_eq hv hs
  | assign i j =>
    obtain ⟨v, hv⟩ := exists_obj (w := w) ha.1
    obtain ⟨r, hr⟩ := exists_obj (w := w) ha.2
    have hwf := hw.wf i v hv
    by_cases hij : i = j
    · subst hij
      have hp := post_refl hwf (elements_of_WF hwf)
      obtain ⟨h1, h2⟩ := run_preserves hw hv hp
      refine ⟨_, ?_, h1, h2⟩
      simp only [World.step, hr, if_true]
      exact run_eq (f := fun s => assign true s Rhs.self) hv rfl
    · have hrf := hw.wf j r hr
      obtain ⟨s1, hs, hp, -⟩ := assign_spec hwf r hrf
        (fun b hb => hw.disjoint i j v r b hij hv hr hb) (elements_of_WF hrf)
      obtain ⟨h1, h2⟩ := run_preserves hw hv hp
      refine ⟨_, ?_, h1, h2⟩
      simp only [World.step, hr, hij, if_false]
      exact run_eq hv hs
  | write i k x =>
    simp only [World.allowed] at ha
    cases hv : w.objs[i]? with
    | none => rw [hv] at ha; exact absurd ha id
    | some v =>
      rw [hv] at ha
      have hwf := hw.wf i v hv
      obtain ⟨s1, hs, hp, -⟩ := write_spec hwf (elements_of_WF hwf) k x ha
      obtain ⟨h1, h2⟩ := run_preserves hw hv hp
      refine ⟨_, ?_, h1, h2⟩
      simp only [World.step]
      refine run_eq hv ?_
      simp only [hs, orUndefined]

theorem WInv_start (heap : List (Option (List α))) :
    WInv (⟨heap, []⟩ : World α C) :=
  ⟨fun i v h => by simp at h, fun i j v u b _ h => by simp at h⟩

theorem WInv_of_reachable [Inhabited α] (hC : C < SIZE_MOD) {w : World α C}
    (h : Reachable w) : WInv w := by
  induction h with
  | start heap => exact WInv_start heap
  | call w w1 op _ ha hs ih =>
    obtain ⟨w2, hs2, hinv, -⟩ := step_spec hC ih op ha
    rw [hs] at hs2
    cases hs2
    exact hinv

end Step2

/-! # The claims

## Single container: C2 to C7, C9, C10 -/

section Claims
variable {α : Type} {C : Nat}

theorem read_elements {s : State α C} (h : WF s) {zs : List α}
    (hzs : elements s = some zs) (i : Nat) (hi : i < zs.length) :
    s.read ((begin s).add i) = zs[i]? := by
  obtain ⟨ezs, hlen⟩ := elements_inj h hzs
  rw [begin_add h, read_eq (p := ⟨(data s).region, i⟩) (view_of_WF h).load, ezs,
    List.getElem?_take]
  simp only
  rw [if_pos (by omega)]

/-- What `push_back` does with an argument that refers to an object outside
the container's storage, holding `v`: for a well-formed container holding
`xs` the call returns and leaves a container of size `size xs + 1` holding
`xs ++ [v]`, on the reallocating path (`size + 1 > capacity`) and on the
other.  Allocation succeeds, and where the call reallocates `3 * (size + 1)`
fits `size_t`. -/
theorem push_back_appends [Inhabited α] (s : State α C) (xs : List α) (v : α)
    (hwf : WF s) (hxs : elements s = some xs)
    (hov : capacity s < size s + 1 → 3 * (size s + 1) < SIZE_MOD) :
    ∃ s1, push_back true s (ConstRef.value v) = Outcome.ret s1 () ∧ size s1 = xs.length + 1 ∧
      elements s1 = some (xs ++ [v]) := by
  obtain ⟨s1, hs, hp, -⟩ := push_back_spec hwf hxs v hov
  refine ⟨s1, hs, ?_, hp.elems⟩
  rw [size, hp.size_eq]
  simp

theorem WF_of_inline (heap : List (Option (List α))) (n : Nat) (S : List α)
    (hn : n ≤ C) (hS : S.length = C) (hC : C < SIZE_MOD) :
    WF (⟨heap, ⟨n, C, S, none⟩⟩ : State α C) :=
  ⟨hC, hn, hS, fun _ => ⟨rfl, rfl⟩, fun h => absurd hn (Nat.not_le.mpr h)⟩

theorem WF_of_spilled (heap : List (Option (List α))) (n cap : Nat) (S : List α) (b : Nat)
    (blk : List α) (hb : heap[b]? = some (some blk)) (hlen : blk.length = cap)
    (hn : C < n) (hcap : n ≤ cap) (hlt : cap < SIZE_MOD) (hS : S.length = C) :
    WF (⟨heap, ⟨n, cap, S, some b⟩⟩ : State α C) :=
  ⟨hlt, hcap, hS, fun h => absurd hn (Nat.not_lt.mpr h), fun _ => ⟨b, blk, rfl, hb, hlen⟩⟩

theorem WF_ex_one : WF ex_one := WF_of_inline [] 1 [1, 0] (by decide) rfl (by decide)

theorem WF_ex_full : WF ex_full := WF_of_inline [] 2 [1, 2] (by decide) rfl (by decide)

theorem WF_ex_spilled : WF ex_spilled :=
  WF_of_spilled [some [1, 2, 3, 0]] 3 4 [1, 2] 0 [1, 2, 3, 0] rfl rfl (by decide) (by decide)
    (by decide) rfl

theorem WF_ex_spilled_full : WF ex_spilled_full :=
  WF_of_spilled [some [1, 2, 3, 4]] 4 4 [1, 2] 0 [1, 2, 3, 4] rfl rfl (by decide) (by decide)
    (by decide) rfl

/-- Instances of `push_back_appends` on the path without reallocation
(`ex_one`) and on the reallocating path (`ex_full`). -/
theorem push_back_appends_witness :
    (WF ex_one ∧ elements ex_one = some [1] ∧
      (capacity ex_one < size ex_one + 1 → 3 * (size ex_one + 1) < SIZE_MOD) ∧
      ∃ s1, push_back true ex_one (ConstRef.value 2) = Outcome.ret s1 () ∧
        size s1 = [1].length + 1 ∧
        elements s1 = some ([1] ++ [2])) ∧
    (WF ex_full ∧ elements ex_full = some [1, 2] ∧
      (capacity ex_full < size ex_full + 1 → 3 * (size ex_full + 1) < SIZE_MOD) ∧
      ∃ s1, push_back true ex_full (ConstRef.value 3) = Outcome.ret s1 () ∧
        size s1 = [1, 2].length + 1 ∧
        elements s1 = some ([1, 2] ++ [3])) :=
  ⟨⟨WF_ex_one, rfl, fun _ => by decide,
      push_back_appends ex_one [1] 2 WF_ex_one rfl (fun _ => by decide)⟩,
    ⟨WF_ex_full, rfl, fun _ => by decide,
      push_back_appends ex_full [1, 2] 3 WF_ex_full rfl (fun _ => by decide)⟩⟩

/-- C2, what the code does instead: `push_back` reads its `const T&` argument
in its last statement, `begin ()[_size - 1] = element`, after the reallocating
path has run `delete[] _heap_storage`.  On the full spilled container
`ex_spilled_full` (`[1, 2, 3, 4]`, capacity 4, `StaticCapacity = 2`) the call
`v.push_back(v[0])` passes a reference into the block that gets deleted and
then reads it: the behaviour is undefined, where the claim has
`[1, 2, 3, 4, 1]`.  With the value 1 held outside the container the call gives
that sequence, and so does `v.insert(v.end(), v[0])`, whose reallocating path
reads the argument before it deletes the block. -/
theorem push_back_reads_freed_block :
    elements ex_spilled_full = some [1, 2, 3, 4] ∧
      ex_spilled_full.read (index ex_spilled_full 0) = some 1 ∧
      push_back true ex_spilled_full (ConstRef.object (index ex_spilled_full 0))
        = Outcome.undefined ∧
      push_back true ex_spilled_full (ConstRef.value 1)
        = Outcome.ret (⟨[none, some [1, 2, 3, 4, 1, 0, 0]], ⟨5, 7, [1, 2], some 1⟩⟩ :
            State Nat 2) () ∧
      elements (⟨[none, some [1, 2, 3, 4, 1, 0, 0]], ⟨5, 7, [1, 2], some 1⟩⟩ : State Nat 2)
        = some [1, 2, 3, 4, 1] ∧
      insert true ex_spilled_full (end_ ex_spilled_full)
          (ConstRef.object (index ex_spilled_full 0))
        = Outcome.ret (⟨[none, some [1, 2, 3, 4, 1, 0, 0]], ⟨5, 7, [1, 2], some 1⟩⟩ :
            State Nat 2) ⟨Region.heap 1, 4⟩ :=
  ⟨rfl, rfl, rfl, rfl, rfl, rfl⟩

/-- C3: bulk insert.  For a well-formed container of size `n` holding `xs`, a
position `p ≤ n` and an input range `ys` of length `k`,
`insert(begin() + p, ys)` returns `begin() + p` of the resulting container,
whose size is `n + k` and whose elements `zs` are `xs[0..p) ++ ys ++ xs[p..n)`:
`zs[i] = xs[i]` for `i < p`, `zs[p + i] = ys[i]` for `i < k`, and
`zs[i + k] = xs[i]` for `p ≤ i < n`; with or without reallocation.  Allocation
succeeds, and where the call reallocates `3 * (n + k)` fits `size_t`. -/
theorem insert_range_correct [Inhabited α] (s : State α C) (xs ys : List α) (p : Nat)
    (hwf : WF s) (hxs : elements s = some xs) (hp : p ≤ size s)
    (hov : capacity s < size s + ys.length → 3 * (size s + ys.length) < SIZE_MOD) :
    ∃ s1 zs, insert_range true s ((begin s).add p) ys = Outcome.ret s1 ((begin s1).add p) ∧
      size s1 = size s + ys.length ∧ elements s1 = some zs ∧
      zs = xs.take p ++ ys ++ xs.drop p ∧
      (∀ i, i < p → zs[i]? = xs[i]?) ∧
      (∀ i, i < ys.length → zs[p + i]? = ys[i]?) ∧
      (∀ i, p ≤ i → i < size s → zs[i + ys.length]? = xs[i]?) := by
  obtain ⟨s1, hs, hpost, -⟩ := insert_range_spec hwf hxs p ys hp hov
  obtain ⟨-, hlen⟩ := elements_inj hwf hxs
  have hp1 : p ≤ xs.length := by rw [hlen]; exact hp
  have hl : (xs.take p).length = p := by simp; omega
  refine ⟨s1, _, hs, ?_, hpost.elems, rfl, fun i hi => ?_, fun i hi => ?_,
    fun i h1 h2 => ?_⟩
  · rw [size, hpost.size_eq, size, ← hlen]
    simp
    omega
  · rw [List.append_assoc, List.getElem?_append_left (by rw [hl]; exact hi),
      List.getElem?_take, if_pos hi]
  · rw [List.getElem?_append_left (by simp [hl]; omega),
      List.getElem?_append_right (by rw [hl]; omega), hl]
    congr 1
    omega
  · rw [List.getElem?_append_right (by simp [hl]; omega), List.getElem?_drop]
    congr 1
    simp [hl]
    omega

/-- Witness of C3, without reallocation (`ex_spilled`, one element inserted)
and with it (`ex_full`, two elements inserted). -/
theorem insert_range_correct_witness :
    (WF ex_spilled ∧ elements ex_spilled = some [1, 2, 3] ∧ 1 ≤ size ex_spilled ∧
      (capacity ex_spilled < size ex_spilled + [7].length →
        3 * (size ex_spilled + [7].length) < SIZE_MOD) ∧
      ∃ s1 zs, insert_range true ex_spilled ((begin ex_spilled).add 1) [7]
          = Outcome.ret s1 ((begin s1).add 1) ∧
        size s1 = size ex_spilled + [7].length ∧ elements s1 = some zs ∧
        zs = [1, 2, 3].take 1 ++ [7] ++ [1, 2, 3].drop 1 ∧
        (∀ i, i < 1 → zs[i]? = [1, 2, 3][i]?) ∧
        (∀ i, i < [7].length → zs[1 + i]? = [7][i]?) ∧
        (∀ i, 1 ≤ i → i < size ex_spilled → zs[i + [7].length]? = [1, 2, 3][i]?)) ∧
    (WF ex_full ∧ elements ex_full = some [1, 2] ∧ 1 ≤ size ex_full ∧
      (capacity ex_full < size ex_full + [7, 8].length →
        3 * (size ex_full + [7, 8].length) < SIZE_MOD) ∧
      ∃ s1 zs, insert_range true ex_full ((begin ex_full).add 1) [7, 8]
          = Outcome.ret s1 ((begin s1).add 1) ∧
        size s1 = size ex_full + [7, 8].length ∧ elements s1 = some zs ∧
        zs = [1, 2].take 1 ++ [7, 8] ++ [1, 2].drop 1 ∧
        (∀ i, i < 1 → zs[i]? = [1, 2][i]?) ∧
        (∀ i, i < [7, 8].length → zs[1 + i]? = [7, 8][i]?) ∧
        (∀ i, 1 ≤ i → i < size ex_full → zs[i + [7, 8].length]? = [1, 2][i]?)) :=
  ⟨⟨WF_ex_spilled, rfl, by decide, fun _ => by decide,
      insert_range_correct ex_spilled [1, 2, 3] [7] 1 WF_ex_spilled rfl (by decide)
        (fun _ => by decide)⟩,
    ⟨WF_ex_full, rfl, by decide, fun _ => by decide,
      insert_range_correct ex_full [1, 2] [7, 8] 1 WF_ex_full rfl (by decide)
        (fun _ => by decide)⟩⟩

/-- What the single `insert` does with an argument that refers to an object
outside the container's storage, holding `v`: for a well-formed container of
size `n` holding `xs` and a position `p ≤ n`, `insert(begin() + p, v)` leaves
`xs[0..p) ++ [v] ++ xs[p..n)` at size `n + 1` and returns `begin() + p` of the
resulting container, where `v` is stored; on the reallocating path and on the
shifting one.  Allocation succeeds, and where the call reallocates
`3 * (n + 1)` fits `size_t`. -/
theorem insert_correct [Inhabited α] (s : State α C) (xs : List α) (p : Nat) (v : α)
    (hwf : WF s) (hxs : elements s = some xs) (hp : p ≤ size s)
    (hov : capacity s < size s + 1 → 3 * (size s + 1) < SIZE_MOD) :
    ∃ s1, insert true s ((begin s).add p) (ConstRef.value v)
        = Outcome.ret s1 ((begin s1).add p) ∧
      size s1 = size s + 1 ∧ elements s1 = some (xs.take p ++ [v] ++ xs.drop p) ∧
      s1.read ((begin s1).add p) = some v := by
  obtain ⟨s1, hs, hpost, -⟩ := insert_spec hwf hxs p v hp hov
  obtain ⟨-, hlen⟩ := elements_inj hwf hxs
  have hp1 : p ≤ xs.length := by rw [hlen]; exact hp
  have hl : (xs.take p).length = p := by simp; omega
  refine ⟨s1, hs, ?_, hpost.elems, ?_⟩
  · rw [size, hpost.size_eq, size, ← hlen]
    simp
    omega
  · rw [read_elements hpost.wf hpost.elems p (by simp; omega),
      List.getElem?_append_left (by simp [hl]), List.getElem?_append_right (by rw [hl]), hl]
    simp

/-- Instances of `insert_correct`, shifting in place (`ex_spilled`) and
reallocating (`ex_full`). -/
theorem insert_correct_witness :
    (WF ex_spilled ∧ elements ex_spilled = some [1, 2, 3] ∧ 1 ≤ size ex_spilled ∧
      (capacity ex_spilled < size ex_spilled + 1 → 3 * (size ex_spilled + 1) < SIZE_MOD) ∧
      ∃ s1, insert true ex_spilled ((begin ex_spilled).add 1) (ConstRef.value 7)
          = Outcome.ret s1 ((begin s1).add 1) ∧
        size s1 = size ex_spilled + 1 ∧
        elements s1 = some ([1, 2, 3].take 1 ++ [7] ++ [1, 2, 3].drop 1) ∧
        s1.read ((begin s1).add 1) = some 7) ∧
    (WF ex_full ∧ elements ex_full = some [1, 2] ∧ 2 ≤ size ex_full ∧
      (capacity ex_full < size ex_full + 1 → 3 * (size ex_full + 1) < SIZE_MOD) ∧
      ∃ s1, insert true ex_full ((begin ex_full).add 2) (ConstRef.value 7)
          = Outcome.ret s1 ((begin s1).add 2) ∧
        size s1 = size ex_full + 1 ∧
        elements s1 = some ([1, 2].take 2 ++ [7] ++ [1, 2].drop 2) ∧
        s1.read ((begin s1).add 2) = some 7) :=
  ⟨⟨WF_ex_spilled, rfl, by decide, fun _ => by decide,
      insert_correct ex_spilled [1, 2, 3] 1 7 WF_ex_spilled rfl (by decide)
        (fun _ => by decide)⟩,
    ⟨WF_ex_full, rfl, by decide, fun _ => by decide,
      insert_correct ex_full [1, 2] 2 7 WF_ex_full rfl (by decide) (fun _ => by decide)⟩⟩

/-- C4, what the code does instead: on the shifting path `insert` reads its
`const T&` argument in `*insert_pos = element`, after `std::move_backward` has
moved `[pos, end())` one slot up.  On the spilled container `ex_spilled`
(`[1, 2, 3]`, capacity 4, `StaticCapacity = 2`) the call
`v.insert(v.begin(), v[2])` passes a reference to the slot that holds 3 before
the shift and 2 after it: the result is `[2, 1, 2, 3]` and the returned
iterator points at 2, where the claim has `[3, 1, 2, 3]`.  With the value 3
held outside the container the call gives that sequence; and on the
reallocating path (`ex_spilled_full`, `[1, 2, 3, 4]`) the same aliased call
inserts 3, the old block being read before anything in it moves. -/
theorem insert_reads_shifted_slot :
    elements ex_spilled = some [1, 2, 3] ∧
      ex_spilled.read (index ex_spilled 2) = some 3 ∧
      insert true ex_spilled (begin ex_spilled) (ConstRef.object (index ex_spilled 2))
        = Outcome.ret (⟨[some [2, 1, 2, 3]], ⟨4, 4, [1, 2], some 0⟩⟩ : State Nat 2)
            ⟨Region.heap 0, 0⟩ ∧
      elements (⟨[some [2, 1, 2, 3]], ⟨4, 4, [1, 2], some 0⟩⟩ : State Nat 2)
        = some [2, 1, 2, 3] ∧
      (⟨[some [2, 1, 2, 3]], ⟨4, 4, [1, 2], some 0⟩⟩ : State Nat 2).read ⟨Region.heap 0, 0⟩
        = some 2 ∧
      insert true ex_spilled (begin ex_spilled) (ConstRef.value 3)
        = Outcome.ret (⟨[some [3, 1, 2, 3]], ⟨4, 4, [1, 2], some 0⟩⟩ : State Nat 2)
            ⟨Region.heap 0, 0⟩ ∧
      ex_spilled_full.read (index ex_spilled_full 2) = some 3 ∧
      insert true ex_spilled_full (begin ex_spilled_full)
          (ConstRef.object (index ex_spilled_full 2))
        = Outcome.ret (⟨[none, some [3, 1, 2, 3, 4, 0, 0]], ⟨5, 7, [1, 2], some 1⟩⟩ :
            State Nat 2) ⟨Region.heap 1, 0⟩ :=
  ⟨rfl, rfl, rfl, rfl, rfl, rfl, rfl, rfl⟩

/-- C5: single erase.  For a well-formed container of size `n` holding `xs` and
a position `p < n`, `erase(begin() + p)` leaves `xs` without its element at
index `p` (`xs[0..p) ++ xs[p+1..n)`, the others in order) at size `n - 1` and
returns `begin() + p` of the resulting container: the element that followed
the removed one, or `end()` when the last element was removed.  `erase(end())`
returns `end()` and leaves the state as it is.  Both hold when the erase moves
back to the static array (`n = StaticCapacity + 1`) and when it shifts in
place. -/
theorem erase_correct (s : State α C) (xs : List α) (p : Nat)
    (hwf : WF s) (hxs : elements s = some xs) (hp : p < size s) :
    (∃ s1, erase s ((begin s).add p) = Outcome.ret s1 ((begin s1).add p) ∧
      size s1 = size s - 1 ∧ elements s1 = some (xs.take p ++ xs.drop (p + 1)) ∧
      elements s1 = some (xs.eraseIdx p) ∧
      (p + 1 < size s → s1.read ((begin s1).add p) = xs[p + 1]?) ∧
      (p + 1 = size s → (begin s1).add p = end_ s1)) ∧
    erase s (end_ s) = Outcome.ret s (end_ s) := by
  obtain ⟨s1, hs, hpost, -⟩ := erase_spec hwf hxs p hp
  obtain ⟨-, hlen⟩ := elements_inj hwf hxs
  have hp1 : p < xs.length := by rw [hlen]; exact hp
  have hl : (xs.take p).length = p := by simp; omega
  have hsz : size s1 = size s - 1 := by
    rw [size, hpost.size_eq, size, ← hlen]
    simp
    omega
  refine ⟨⟨s1, hs, hsz, hpost.elems, ?_, fun h1 => ?_, fun h1 => ?_⟩, ?_⟩
  · rw [hpost.elems, List.eraseIdx_eq_take_drop_succ]
  · simp only [size] at h1
    rw [read_elements hpost.wf hpost.elems p (by simp [hl]; omega),
      List.getElem?_append_right (by rw [hl]), hl, List.getElem?_drop]
    simp
  · rw [begin_add hpost.wf, end_eq hpost.wf]
    have : s1.v._size = p := by
      have := hsz
      simp only [size] at this h1
      omega
    rw [this]
  · rw [end_eq hwf]
    exact erase_end hwf

/-- Witness of C5, moving back to the static array (`ex_spilled`, size
`StaticCapacity + 1`) and shifting in place (`ex_spilled_full`). -/
theorem erase_correct_witness :
    (WF ex_spilled ∧ elements ex_spilled = some [1, 2, 3] ∧ 1 < size ex_spilled ∧
      ((∃ s1, erase ex_spilled ((begin ex_spilled).add 1)
            = Outcome.ret s1 ((begin s1).add 1) ∧
          size s1 = size ex_spilled - 1 ∧
          elements s1 = some ([1, 2, 3].take 1 ++ [1, 2, 3].drop (1 + 1)) ∧
          elements s1 = some ([1, 2, 3].eraseIdx 1) ∧
          (1 + 1 < size ex_spilled → s1.read ((begin s1).add 1) = [1, 2, 3][1 + 1]?) ∧
          (1 + 1 = size ex_spilled → (begin s1).add 1 = end_ s1)) ∧
        erase ex_spilled (end_ ex_spilled) = Outcome.ret ex_spilled (end_ ex_spilled))) ∧
    (WF ex_spilled_full ∧ elements ex_spilled_full = some [1, 2, 3, 4] ∧
      3 < size ex_spilled_full ∧
      ((∃ s1, erase ex_spilled_full ((begin ex_spilled_full).add 3)
            = Outcome.ret s1 ((begin s1).add 3) ∧
          size s1 = size ex_spilled_full - 1 ∧
          elements s1 = some ([1, 2, 3, 4].take 3 ++ [1, 2, 3, 4].drop (3 + 1)) ∧
          elements s1 = some ([1, 2, 3, 4].eraseIdx 3) ∧
          (3 + 1 < size ex_spilled_full →
            s1.read ((begin s1).add 3) = [1, 2, 3, 4][3 + 1]?) ∧
          (3 + 1 = size ex_spilled_full → (begin s1).add 3 = end_ s1)) ∧
        erase ex_spilled_full (end_ ex_spilled_full)
          = Outcome.ret ex_spilled_full (end_ ex_spilled_full))) :=
  ⟨⟨WF_ex_spilled, rfl, by decide,
      erase_correct ex_spilled [1, 2, 3] 1 WF_ex_spilled rfl (by decide)⟩,
    ⟨WF_ex_spilled_full, rfl, by decide,
      erase_correct ex_spilled_full [1, 2, 3, 4] 3 WF_ex_spilled_full rfl (by decide)⟩⟩

/-- C6: range erase.  For a well-formed container of size `n` holding `xs` and
`i ≤ j ≤ n`, `erase(begin() + i, begin() + j)` leaves `xs[0..i) ++ xs[j..n)` at
size `n - (j - i)` and returns `begin() + i` of the resulting container, the
position right after the removed range; when the survivors move back to the
static array and when the tail is shifted in place. -/
theorem erase_range_correct (s : State α C) (xs : List α) (i j : Nat)
    (hwf : WF s) (hxs : elements s = some xs) (hij : i ≤ j) (hj : j ≤ size s) :
    ∃ s1, erase_range s ((begin s).add i) ((begin s).add j)
        = Outcome.ret s1 ((begin s1).add i) ∧
      size s1 = size s - (j - i) ∧ elements s1 = some (xs.take i ++ xs.drop j) ∧
      (j < size s → s1.read ((begin s1).add i) = xs[j]?) ∧
      (j = size s → (begin s1).add i = end_ s1) := by
  obtain ⟨s1, hs, hpost, -⟩ := erase_range_spec hwf hxs i j hij hj
  obtain ⟨-, hlen⟩ := elements_inj hwf hxs
  have hj1 : j ≤ xs.length := by rw [hlen]; exact hj
  have hl : (xs.take i).length = i := by simp; omega
  have hsz : size s1 = size s - (j - i) := by
    rw [size, hpost.size_eq, size, ← hlen]
    simp
    omega
  refine ⟨s1, hs, hsz, hpost.elems, fun h1 => ?_, fun h1 => ?_⟩
  · simp only [size] at h1
    rw [read_elements hpost.wf hpost.elems i (by simp [hl]; omega),
      List.getElem?_append_right (by rw [hl]), hl, List.getElem?_drop]
    simp
  · rw [begin_add hpost.wf, end_eq hpost.wf]
    have : s1.v._size = i := by
      have := hsz
      simp only [size] at this h1
      omega
    rw [this]

/-- Witness of C6, moving back to the static array (`ex_spilled_full`, two
elements removed) and shifting in place (`ex_spilled_full`, one removed). -/
theorem erase_range_correct_witness :
    (WF ex_spilled_full ∧ elements ex_spilled_full = some [1, 2, 3, 4] ∧ 1 ≤ 3 ∧
      3 ≤ size ex_spilled_full ∧
      ∃ s1, erase_range ex_spilled_full ((begin ex_spilled_full).add 1)
          ((begin ex_spilled_full).add 3) = Outcome.ret s1 ((begin s1).add 1) ∧
        size s1 = size ex_spilled_full - (3 - 1) ∧
        elements s1 = some ([1, 2, 3, 4].take 1 ++ [1, 2, 3, 4].drop 3) ∧
        (3 < size ex_spilled_full → s1.read ((begin s1).add 1) = [1, 2, 3, 4][3]?) ∧
        (3 = size ex_spilled_full → (begin s1).add 1 = end_ s1)) ∧
    (WF ex_spilled_full ∧ elements ex_spilled_full = some [1, 2, 3, 4] ∧ 0 ≤ 1 ∧
      1 ≤ size ex_spilled_full ∧
      ∃ s1, erase_range ex_spilled_full ((begin ex_spilled_full).add 0)
          ((begin ex_spilled_full).add 1) = Outcome.ret s1 ((begin s1).add 0) ∧
        size s1 = size ex_spilled_full - (1 - 0) ∧
        elements s1 = some ([1, 2, 3, 4].take 0 ++ [1, 2, 3, 4].drop 1) ∧
        (1 < size ex_spilled_full → s1.read ((begin s1).add 0) = [1, 2, 3, 4][1]?) ∧
        (1 = size ex_spilled_full → (begin s1).add 0 = end_ s1)) :=
  ⟨⟨WF_ex_spilled_full, rfl, by decide, by decide,
      erase_range_correct ex_spilled_full [1, 2, 3, 4] 1 3 WF_ex_spilled_full rfl (by decide)
        (by decide)⟩,
    ⟨WF_ex_spilled_full, rfl, by decide, by decide,
      erase_range_correct ex_spilled_full [1, 2, 3, 4] 0 1 WF_ex_spilled_full rfl (by decide)
        (by decide)⟩⟩

/-- C7: `pop_back`.  For a well-formed container holding `xs`: when it is not
empty, `pop_back` leaves the first `size - 1` elements of `xs`, in order, at
size `size - 1` (also when it moves back to the static array, at
`size = StaticCapacity + 1`); when it is empty, `pop_back` returns with the
state, hence size, capacity and storage, unchanged. -/
theorem pop_back_correct (s : State α C) (xs : List α)
    (hwf : WF s) (hxs : elements s = some xs) :
    (size s ≠ 0 → ∃ s1, pop_back s = Outcome.ret s1 () ∧ size s1 = size s - 1 ∧
      elements s1 = some (xs.take (size s - 1)) ∧ elements s1 = some xs.dropLast) ∧
    (size s = 0 → pop_back s = Outcome.ret s ()) := by
  refine ⟨fun h0 => ?_, fun h0 => pop_back_empty h0⟩
  obtain ⟨s1, hs, hpost, -⟩ := pop_back_spec hwf hxs h0
  obtain ⟨-, hlen⟩ := elements_inj hwf hxs
  refine ⟨s1, hs, ?_, hpost.elems, ?_⟩
  · rw [size, hpost.size_eq, size, ← hlen]
    simp
  · rw [hpost.elems, List.dropLast_eq_take, hlen]

/-- Witness of C7: a spilled container of size `StaticCapacity + 1`, which
moves back to the static array. -/
theorem pop_back_correct_witness :
    WF ex_spilled ∧ elements ex_spilled = some [1, 2, 3] ∧
      ((size ex_spilled ≠ 0 → ∃ s1, pop_back ex_spilled = Outcome.ret s1 () ∧
          size s1 = size ex_spilled - 1 ∧
          elements s1 = some ([1, 2, 3].take (size ex_spilled - 1)) ∧
          elements s1 = some [1, 2, 3].dropLast) ∧
        (size ex_spilled = 0 → pop_back ex_spilled = Outcome.ret ex_spilled ())) :=
  ⟨WF_ex_spilled, rfl, pop_back_correct ex_spilled [1, 2, 3] WF_ex_spilled rfl⟩

/-- C9, what the code does instead: on the spilled container `ex_spilled`
(`[1, 2, 3]`, `StaticCapacity = 2`) the non-const `at(3)` runs
`delete[] _heap_storage` before it throws `out_of_range`.  The state at the
throw has lost the block while `_size`, `_capacity` and the dangling
`_heap_storage` stay: it differs from the state before, its elements can no
longer be read, and its destructor deletes the block a second time.  The
const overload throws from the unchanged state. -/
theorem at_out_of_range_releases_storage :
    at_ ex_spilled 3
        = Outcome.thrown ({ heap := [none], v := ex_spilled.v } : State Nat 2)
            Exn.out_of_range ∧
      ({ heap := [none], v := ex_spilled.v } : State Nat 2) ≠ ex_spilled ∧
      elements ({ heap := [none], v := ex_spilled.v } : State Nat 2) = none ∧
      destroy ({ heap := [none], v := ex_spilled.v } : State Nat 2) = none ∧
      at_const ex_spilled 3 = Outcome.thrown ex_spilled Exn.out_of_range := by
  refine ⟨rfl, by decide, rfl, rfl, rfl⟩

/-- C10: checked access.  For a well-formed container holding `xs` and every
index `i`, both overloads of `at(i)` throw `out_of_range` exactly when
`size ≤ i`; when `i < size` both return, from the unchanged state, the
reference `begin() + i`, at which the `i`-th element of `xs` is stored. -/
theorem at_checks_bounds (s : State α C) (xs : List α) (i : Nat)
    (hwf : WF s) (hxs : elements s = some xs) :
    ((∃ s1, at_ s i = Outcome.thrown s1 Exn.out_of_range) ↔ size s ≤ i) ∧
    ((∃ s1, at_const s i = Outcome.thrown s1 Exn.out_of_range) ↔ size s ≤ i) ∧
    (i < size s →
      at_ s i = Outcome.ret s ((begin s).add i) ∧
      at_const s i = Outcome.ret s ((begin s).add i) ∧
      ∃ x, xs[i]? = some x ∧ s.read ((begin s).add i) = some x) := by
  obtain ⟨-, hlen⟩ := elements_inj hwf hxs
  refine ⟨⟨fun ⟨s1, h⟩ => ?_, fun h => ?_⟩, ⟨fun ⟨s1, h⟩ => ?_, fun h => ?_⟩, fun h => ?_⟩
  · by_cases hi : s.v._size ≤ i
    · exact hi
    · simp [at_, hi] at h
  · have h1 : s.v._size ≤ i := h
    by_cases hm : C < s.v._size
    · obtain ⟨b, blk, hb, hblk, -⟩ := hwf.spilled hm
      exact ⟨_, by simp [at_, h1, hm, hb, State.delete_array, hblk, orUndefined]; rfl⟩
    · exact ⟨s, by simp [at_, h1, hm]⟩
  · by_cases hi : s.v._size ≤ i
    · exact hi
    · simp [at_const, hi] at h
  · have h1 : s.v._size ≤ i := h
    exact ⟨s, by simp [at_const, h1]⟩
  · have h1 : ¬ s.v._size ≤ i := Nat.not_le.mpr h
    have h2 : i < xs.length := by rw [hlen]; exact h
    refine ⟨by simp [at_, h1], by simp [at_const, h1], xs[i], List.getElem?_eq_getElem h2, ?_⟩
    rw [read_elements hwf hxs i h2, List.getElem?_eq_getElem h2]

/-- Witness of C10 on the spilled container `ex_spilled`, at an index in range
and, through the equivalences, at every index. -/
theorem at_checks_bounds_witness :
    WF ex_spilled ∧ elements ex_spilled = some [1, 2, 3] ∧
      (((∃ s1, at_ ex_spilled 2 = Outcome.thrown s1 Exn.out_of_range) ↔
          size ex_spilled ≤ 2) ∧
        ((∃ s1, at_const ex_spilled 2 = Outcome.thrown s1 Exn.out_of_range) ↔
          size ex_spilled ≤ 2) ∧
        (2 < size ex_spilled →
          at_ ex_spilled 2 = Outcome.ret ex_spilled ((begin ex_spilled).add 2) ∧
          at_const ex_spilled 2 = Outcome.ret ex_spilled ((begin ex_spilled).add 2) ∧
          ∃ x, [1, 2, 3][2]? = some x ∧
            ex_spilled.read ((begin ex_spilled).add 2) = some x)) :=
  ⟨WF_ex_spilled, rfl, at_checks_bounds ex_spilled [1, 2, 3] 2 WF_ex_spilled rfl⟩

end Claims

/-! ## Several containers: C1 -/

section ClaimsWorld
variable {α : Type} {C : Nat}

theorem selector_of_WInv {w : World α C} (hw : WInv w) : SelectorInvariant w := by
  intro i v hv
  have h := hw.wf i v hv
  obtain ⟨hb1, hb2, hb3, hb4, hb5, hb6⟩ := h.bounds
  dsimp only at hb1 hb2 hb4 hb5 hb6
  refine ⟨hb5, ⟨hb4, fun e => ?_⟩, ⟨fun hm => (h.inline hm).2, fun e => ?_⟩,
    ⟨fun hm => h.spilled hm, fun hex => ?_⟩⟩
  · omega
  · by_cases hm : v._size ≤ C
    · exact hm
    · obtain ⟨b, blk, hb, -, -⟩ := h.spilled (by dsimp only; omega)
      dsimp only at hb
      rw [e] at hb
      cases hb
  · obtain ⟨b, blk, hb, -, -⟩ := hex
    by_cases hm : C < v._size
    · exact hm
    · have := (h.inline (by dsimp only; omega)).2
      dsimp only at this
      rw [hb] at this
      cases this

/-- C1: the storage-selector invariant.  In every world reachable from
containers built by the default, range, fill and copy constructors through
`push_back`, `insert` (single and range), `pop_back`, `erase` (single and
range), `clear`, copy assignment (and writes through `operator[]`), each call
made with valid positions, allocation succeeding and `3 * (size + k)` not
overflowing where it allocates, every container has `size ≤ capacity`, has
`size ≤ StaticCapacity` exactly when `capacity = StaticCapacity` and exactly
when it has no dynamic storage, and has `size > StaticCapacity` exactly when a
live dynamic block of `capacity` slots is present.  Every such call from a
reachable world returns, into a reachable world. -/
theorem storage_selector_invariant [Inhabited α] (hC : C < SIZE_MOD) (w : World α C)
    (hw : Reachable w) :
    SelectorInvariant w ∧
      ∀ op, w.allowed op → ∃ w1, w.step op = Outcome.ret w1 () ∧ Reachable w1 := by
  have hinv := WInv_of_reachable hC hw
  refine ⟨selector_of_WInv hinv, fun op ha => ?_⟩
  obtain ⟨w1, hs, -, -⟩ := step_spec hC hinv op ha
  exact ⟨w1, hs, Reachable.call w w1 op hw ha hs⟩

theorem reachable_ex_world : Reachable ex_world := by
  have h0 : Reachable (⟨[], []⟩ : World Nat 2) := Reachable.start []
  have h1 := Reachable.call _ (⟨[], [⟨0, 2, [0, 0], none⟩]⟩ : World Nat 2)
    Op.construct_default h0 trivial rfl
  have h2 := Reachable.call _ (⟨[], [⟨1, 2, [1, 0], none⟩]⟩ : World Nat 2)
    (Op.push_back 0 1) h1 (Or.inl (by decide)) rfl
  have h3 := Reachable.call _ (⟨[], [⟨2, 2, [1, 2], none⟩]⟩ : World Nat 2)
    (Op.push_back 0 2) h2 (Or.inl (by decide)) rfl
  exact Reachable.call _ ex_world (Op.push_back 0 3) h3 (Or.inr (by decide)) rfl

/-- Witness of C1 at the world reached by three `push_back` calls, the last of
which spills. -/
theorem storage_selector_invariant_witness :
    2 < SIZE_MOD ∧ Reachable ex_world ∧
      (SelectorInvariant ex_world ∧
        ∀ op, ex_world.allowed op →
          ∃ w1, ex_world.step op = Outcome.ret w1 () ∧ Reachable w1) :=
  ⟨by decide, reachable_ex_world,
    storage_selector_invariant (by decide) ex_world reachable_ex_world⟩

end ClaimsWorld

/-! ## Several containers: C8 -/

section ClaimCopy
variable {α : Type} {C : Nat}

theorem equal_loop_true [DecidableEq α] (n : Nat) :
    ∀ (s1 : State α C) (p1 : Ptr) (s2 : State α C) (p2 : Ptr) (L1 L2 : List α),
    s1.load p1.region = some L1 → s2.load p2.region = some L2 →
    p1.off + n ≤ L1.length → p2.off + n ≤ L2.length →
    (∀ i, i < n → L1[p1.off + i]? = L2[p2.off + i]?) →
    equal_loop n s1 p1 s2 p2 = some true := by
  induction n with
  | zero => intros; rfl
  | succ n ih =>
    intro s1 p1 s2 p2 L1 L2 h1 h2 hl1 hl2 heq
    have hlt1 : p1.off < L1.length := by omega
    have hlt2 : p2.off < L2.length := by omega
    have hr1 : s1.read p1 = some L1[p1.off] := by
      rw [read_eq h1]; exact List.getElem?_eq_getElem hlt1
    have hr2 : s2.read p2 = some L2[p2.off] := by
      rw [read_eq h2]; exact List.getElem?_eq_getElem hlt2
    have h0 := heq 0 (Nat.succ_pos n)
    simp only [Nat.add_zero, List.getElem?_eq_getElem hlt1, List.getElem?_eq_getElem hlt2,
      Option.some.injEq] at h0
    simp only [equal_loop, hr1, hr2, Option.some_bind, h0, if_true]
    exact ih s1 (p1.add 1) s2 (p2.add 1) L1 L2 h1 h2 (by simp [Ptr.add]; omega)
      (by simp [Ptr.add]; omega)
      (fun i hi => by
        have := heq (i + 1) (by omega)
        simp only [Ptr.add]
        rw [Nat.add_assoc, Nat.add_assoc, Nat.add_comm 1 i]
        exact this)

theorem operator_eq_true [DecidableEq α] {s : State α C} {rhs : VLVector α C} (h : WF s)
    (hr : WF (⟨s.heap, rhs⟩ : State α C)) {xs : List α} (hxs : elements s = some xs)
    (hrs : elements (⟨s.heap, rhs⟩ : State α C) = some xs) :
    operator_eq s rhs = some true := by
  obtain ⟨e1, hl1⟩ := elements_inj h hxs
  obtain ⟨e2, hl2⟩ := elements_inj hr hrs
  dsimp only at e2 hl2
  have hv1 := view_of_WF h
  have hv2 := view_of_WF hr
  have hsz : s.v._size = rhs._size := by rw [← hl1, ← hl2]
  have hb1 := h.size_le_capacity
  have hb2 := hr.size_le_capacity
  dsimp only at hb2
  simp only [operator_eq, hsz, ne_eq, not_true_eq_false, if_false]
  rw [← hsz]
  refine equal_loop_true s.v._size s (begin s) _ _ s.active
    (State.active (⟨s.heap, rhs⟩ : State α C)) ?_ ?_ ?_ ?_ ?_
  · rw [begin_eq h]; exact hv1.load
  · rw [begin_eq hr]; exact hv2.load
  · rw [begin_eq h, hv1.length]; simpa using hb1
  · rw [begin_eq hr, hv2.length]; simp only [Nat.zero_add]; omega
  · intro i hi
    rw [begin_eq h, begin_eq hr]
    simp only [Nat.zero_add]
    have a1 : xs[i]? = s.active[i]? := by
      rw [e1, List.getElem?_take, if_pos hi]
    have a2 : xs[i]? = (State.active (⟨s.heap, rhs⟩ : State α C))[i]? := by
      rw [e2, List.getElem?_take, if_pos (by omega)]
    rw [← a1, ← a2]

theorem state_eta (s : State α C) : (⟨s.heap, s.v⟩ : State α C) = s := rfl

theorem independent_of_WInv [Inhabited α] (hC : C < SIZE_MOD) {w1 : World α C}
    (hw1 : WInv w1) {x y : Nat} (hxy : x ≠ y) {X : VLVector α C} {xs : List α}
    (hX : w1.objs[x]? = some X)
    (hxs : elements (⟨w1.heap, X⟩ : State α C) = some xs) :
    ∀ op : Op α, op.target = some y → w1.allowed op →
      ∃ w2, w1.step op = Outcome.ret w2 () ∧ w2.objs[x]? = some X ∧
        elements (⟨w2.heap, X⟩ : State α C) = some xs := by
  intro op ht ha
  obtain ⟨w2, hs, -, hun⟩ := step_spec hC hw1 op ha
  obtain ⟨h1, h2⟩ := hun x X (by rw [ht]; exact fun e => hxy (Option.some.inj e).symm) hX
  exact ⟨w2, hs, h1, by rw [h2, hxs]⟩

/-- C8: copy round trip.  In a reachable world take a container `X` (at
address `x`).  Copy-constructing `Y` from `X`, and copy-assigning `X` to any
other existing container `Y` (inline or spilled), returns and yields `Y` with
`Y.size() == X.size()` and the elements of `X`, so that `Y == X` is `true`;
`X` and its elements are unchanged; and every later call that changes `Y`
(any modifier with its preconditions, or a write through `operator[]`) leaves
`X` and its elements unchanged.  Assigning `X` to itself leaves the world
unchanged.  Allocation succeeds. -/
theorem copy_round_trip [Inhabited α] [DecidableEq α] (hC : C < SIZE_MOD) (w : World α C)
    (hw : Reachable w) (x : Nat) (hx : x < w.objs.length) :
    (∃ w1, w.step (Op.construct_copy x) = Outcome.ret w1 () ∧
      CopyResult w w1 x w.objs.length) ∧
    (∀ y, y < w.objs.length → y ≠ x →
      ∃ w1, w.step (Op.assign y x) = Outcome.ret w1 () ∧ CopyResult w w1 x y) ∧
    w.step (Op.assign x x) = Outcome.ret w () := by
  have hinv := WInv_of_reachable hC hw
  obtain ⟨X, hX⟩ := exists_obj (w := w) hx
  have hwfX := hinv.wf x X hX
  have hxs := elements_of_WF hwfX
  refine ⟨?_, fun y hy hyx => ?_, ?_⟩
  · obtain ⟨s1, hs, hp, -⟩ := construct_copy_spec w.heap X hwfX hxs
    obtain ⟨h1, h2⟩ := construct_preserves hinv hp
    obtain ⟨hx1, hx2⟩ := h2 x X (by simp) hX
    have hstep : w.step (Op.construct_copy x)
        = Outcome.ret ⟨s1.heap, w.objs ++ [s1.v]⟩ () := by
      simp only [World.step, hX]
      exact construct_eq hs
    have hY : (w.objs ++ [s1.v])[w.objs.length]? = some s1.v := by simp
    have hsz : s1.v._size = X._size := by
      rw [hp.size_eq]
      exact (elements_inj hwfX hxs).2
    refine ⟨_, hstep, X, s1.v, _, hX, hxs, hY, hsz, ?_, ?_, hx1, by rw [hx2, hxs], ?_⟩
    · rw [state_eta]; exact hp.elems
    · dsimp only
      rw [state_eta]
      exact operator_eq_true hp.wf (h1.wf x X hx1) hp.elems (by rw [hx2, hxs])
    · exact independent_of_WInv hC h1 (Nat.ne_of_lt hx) hx1 (by rw [hx2, hxs])
  · obtain ⟨Y0, hY0⟩ := exists_obj (w := w) hy
    have hwfY := hinv.wf y Y0 hY0
    obtain ⟨s1, hs, hp, -⟩ := assign_spec hwfY X hwfX
      (fun b hb => hinv.disjoint y x Y0 X b hyx hY0 hX hb) hxs
    obtain ⟨h1, h2⟩ := run_preserves hinv hY0 hp
    obtain ⟨hx1, hx2⟩ := h2 x X (fun e => hyx (Option.some.inj e)) hX
    have hstep : w.step (Op.assign y x)
        = Outcome.ret ⟨s1.heap, w.objs.set y s1.v⟩ () := by
      simp only [World.step, hX, hyx, if_false]
      exact run_eq hY0 hs
    have hY : (w.objs.set y s1.v)[y]? = some s1.v := by
      simp [List.getElem?_set, hy]
    have hsz : s1.v._size = X._size := by
      rw [hp.size_eq]
      exact (elements_inj hwfX hxs).2
    refine ⟨_, hstep, X, s1.v, _, hX, hxs, hY, hsz, ?_, ?_, hx1, by rw [hx2, hxs], ?_⟩
    · rw [state_eta]; exact hp.elems
    · dsimp only
      rw [state_eta]
      exact operator_eq_true hp.wf (h1.wf x X hx1) hp.elems (by rw [hx2, hxs])
    · exact independent_of_WInv hC h1 (Ne.symm hyx) hx1 (by rw [hx2, hxs])
  · have hset : w.objs.set x X = w.objs := by
      apply List.ext_getElem?
      intro i
      by_cases hi : x = i
      · subst hi; simp [List.getElem?_set, hx, hX]
      · simp [List.getElem?_set, hi]
    have hstep : w.step (Op.assign x x)
        = Outcome.ret ⟨w.heap, w.objs.set x X⟩ () := by
      simp only [World.step, hX, if_true]
      exact run_eq (f := fun s => assign true s Rhs.self) hX rfl
    rw [hstep, hset]

theorem reachable_ex_world_two : Reachable ex_world_two := by
  have h1 := Reachable.call _ (⟨[some [1, 2, 3, 0]],
      [⟨3, 4, [1, 2], some 0⟩, ⟨0, 2, [0, 0], none⟩]⟩ : World Nat 2)
    Op.construct_default reachable_ex_world trivial rfl
  exact Reachable.call _ ex_world_two (Op.push_back 1 9) h1 (Or.inl (by decide)) rfl

/-- Witness of C8: in `ex_world_two` the spilled container at address 0 is
copied into a new container, and assigned to the inline container at
address 1. -/
theorem copy_round_trip_witness :
    2 < SIZE_MOD ∧ Reachable ex_world_two ∧ 0 < ex_world_two.objs.length ∧
      ((∃ w1, ex_world_two.step (Op.construct_copy 0) = Outcome.ret w1 () ∧
          CopyResult ex_world_two w1 0 ex_world_two.objs.length) ∧
        (∀ y, y < ex_world_two.objs.length → y ≠ 0 →
          ∃ w1, ex_world_two.step (Op.assign y 0) = Outcome.ret w1 () ∧
            CopyResult ex_world_two w1 0 y) ∧
        ex_world_two.step (Op.assign 0 0) = Outcome.ret ex_world_two ()) :=
  ⟨by decide, reachable_ex_world_two, by decide,
    copy_round_trip (by decide) ex_world_two reachable_ex_world_two 0 (by decide)⟩

end ClaimCopy

/-! ## Growth: C11, C12 -/

section ClaimsGrowth
variable {α : Type} {C : Nat}

theorem inlineActive_of_WF {s : State α C} (h : WF s) (hm : s.v._size ≤ C) :
    InlineActive s :=
  ⟨hm, (h.inline hm).1, (h.inline hm).2, data_inline hm⟩

theorem spilled_of_WF {s : State α C} (h : WF s) (hm : C < s.v._size) : Spilled s := by
  obtain ⟨b, blk, hb, hblk, hlen⟩ := h.spilled hm
  exact ⟨hm, b, blk, hb, data_spilled hm hb, hblk, hlen⟩

/-- C11, what the code does instead: `alloc_new_heap_storage` assigns
`_capacity` before it runs `new`.  On the full inline container `ex_full`
(`[1, 2]`, `StaticCapacity = 2`, capacity 2) a `push_back`, an `insert` or a
range `insert` whose allocation fails lets `bad_alloc` escape from a state
whose `_size` is still 2 but whose `_capacity` is already the planned 4 (6 for
two inserted elements); a later `push_back` trusts that capacity, skips the
reallocation and writes through the null `_heap_storage`.  On the full
spilled container `ex_spilled_full` the handler also deletes the block: the
state at the throw has capacity 7 and a dangling `_heap_storage`, its elements
can no longer be read, and its destructor deletes the block a second time. -/
theorem alloc_failure_overwrites_capacity :
    capacity ex_full = 2 ∧
      push_back false ex_full (ConstRef.value 3)
        = Outcome.thrown (⟨[], ⟨2, 4, [1, 2], none⟩⟩ : State Nat 2) Exn.bad_alloc ∧
      insert false ex_full ((begin ex_full).add 1) (ConstRef.value 3)
        = Outcome.thrown (⟨[], ⟨2, 4, [1, 2], none⟩⟩ : State Nat 2) Exn.bad_alloc ∧
      insert_range false ex_full ((begin ex_full).add 1) [7, 8]
        = Outcome.thrown (⟨[], ⟨2, 6, [1, 2], none⟩⟩ : State Nat 2) Exn.bad_alloc ∧
      push_back true (⟨[], ⟨2, 4, [1, 2], none⟩⟩ : State Nat 2) (ConstRef.value 3)
        = Outcome.undefined ∧
      capacity ex_spilled_full = 4 ∧
      push_back false ex_spilled_full (ConstRef.value 5)
        = Outcome.thrown (⟨[none], ⟨4, 7, [1, 2], some 0⟩⟩ : State Nat 2) Exn.bad_alloc ∧
      elements (⟨[none], ⟨4, 7, [1, 2], some 0⟩⟩ : State Nat 2) = none ∧
      destroy (⟨[none], ⟨4, 7, [1, 2], some 0⟩⟩ : State Nat 2) = none :=
  ⟨rfl, rfl, rfl, rfl, rfl, rfl, rfl, rfl, rfl⟩

theorem inplace_capacity (s : State α C) (L : List α) (n : Nat) :
    (s.inplace L n).v._capacity = s.v._capacity := by
  simp [State.inplace]

theorem data_inplace (s : State α C) (L : List α) (n : Nat)
    (h : n ≤ C ↔ s.v._size ≤ C) : data (s.inplace L n) = data s := by
  rw [State.inplace, data_set_size _ _ (by simpa using h), data_store]

theorem mode_of_fit {s : State α C} (h : WF s) (k : Nat)
    (hfit : s.v._size + k ≤ s.v._capacity) : s.v._size + k ≤ C ↔ s.v._size ≤ C := by
  constructor
  · intro; omega
  · intro hm; rw [(h.inline hm).1] at hfit; exact hfit

/-- C12: the capacity planner.  For a well-formed container of size `n` and
capacity `c`, `push_back` and the single `insert` (`k = 1`) and the range
`insert` of `k ≥ 1` elements at a position `p ≤ n` return, and the capacity
after the call is `3 * (n + k) / 2` when `n + k > c`, and is `c`, with `data()`
where it was, when `n + k ≤ c`.  Allocation succeeds, and where the call
reallocates `3 * (n + k)` fits `size_t`; the `element` argument refers to an
object outside the container's storage. -/
theorem capacity_planner [Inhabited α] (s : State α C) (p : Nat) (x : α) (ys : List α)
    (hwf : WF s) (hp : p ≤ size s) (hk : 1 ≤ ys.length)
    (hov1 : capacity s < size s + 1 → 3 * (size s + 1) < SIZE_MOD)
    (hovk : capacity s < size s + ys.length → 3 * (size s + ys.length) < SIZE_MOD) :
    (∃ s1, push_back true s (ConstRef.value x) = Outcome.ret s1 () ∧
      (capacity s < size s + 1 → capacity s1 = 3 * (size s + 1) / 2) ∧
      (size s + 1 ≤ capacity s → capacity s1 = capacity s ∧ data s1 = data s)) ∧
    (∃ s1 r, insert true s ((begin s).add p) (ConstRef.value x) = Outcome.ret s1 r ∧
      (capacity s < size s + 1 → capacity s1 = 3 * (size s + 1) / 2) ∧
      (size s + 1 ≤ capacity s → capacity s1 = capacity s ∧ data s1 = data s)) ∧
    (∃ s1 r, insert_range true s ((begin s).add p) ys = Outcome.ret s1 r ∧
      (capacity s < size s + ys.length →
        capacity s1 = 3 * (size s + ys.length) / 2) ∧
      (size s + ys.length ≤ capacity s → capacity s1 = capacity s ∧ data s1 = data s)) := by
  simp only [size, capacity] at hp hov1 hovk ⊢
  have hne : ys ≠ [] := by
    intro e
    rw [e] at hk
    exact Nat.lt_irrefl 0 hk
  rw [begin_add hwf]
  refine ⟨?_, ?_, ?_⟩
  · by_cases hfit : s.v._size + 1 ≤ s.v._capacity
    · exact ⟨_, push_back_inplace true hwf x hfit, fun h => absurd hfit (by omega),
        fun _ => ⟨inplace_capacity _ _ _, data_inplace _ _ _ (mode_of_fit hwf 1 hfit)⟩⟩
    · have hfull : s.v._capacity < s.v._size + 1 := by omega
      exact ⟨_, push_back_grow hwf x hfull (hov1 hfull),
        fun _ => by rw [grown_capacity, UPSIZE_CAP_eq _ _ (hov1 hfull)],
        fun h => absurd h hfit⟩
  · by_cases hfit : s.v._size + 1 ≤ s.v._capacity
    · exact ⟨_, _, insert_inplace true hwf p x hp hfit, fun h => absurd hfit (by omega),
        fun _ => ⟨inplace_capacity _ _ _, data_inplace _ _ _ (mode_of_fit hwf 1 hfit)⟩⟩
    · have hfull : s.v._capacity < s.v._size + 1 := by omega
      exact ⟨_, _, insert_grow hwf p x hp hfull (hov1 hfull),
        fun _ => by rw [grown_capacity, UPSIZE_CAP_eq _ _ (hov1 hfull)],
        fun h => absurd h hfit⟩
  · by_cases hfit : s.v._size + ys.length ≤ s.v._capacity
    · exact ⟨_, _, insert_range_inplace hwf p ys hp hne hfit,
        fun h => absurd hfit (by omega),
        fun _ => ⟨inplace_capacity _ _ _,
          data_inplace _ _ _ (mode_of_fit hwf ys.length hfit)⟩⟩
    · have hfull : s.v._capacity < s.v._size + ys.length := by omega
      exact ⟨_, _, insert_range_grow hwf p ys hp hne hfull (hovk hfull),
        fun _ => by rw [grown_capacity, UPSIZE_CAP_eq _ _ (hovk hfull)],
        fun h => absurd h hfit⟩

/-- Witness of C12 on the full inline container `ex_full` (every call
reallocates: capacities 4, 4 and 6) and on the spilled container `ex_spilled`
with one free slot (no call reallocates). -/
theorem capacity_planner_witness :
    (WF ex_full ∧ 1 ≤ size ex_full ∧ 1 ≤ [7, 8].length ∧
      (capacity ex_full < size ex_full + 1 → 3 * (size ex_full + 1) < SIZE_MOD) ∧
      (capacity ex_full < size ex_full + [7, 8].length →
        3 * (size ex_full + [7, 8].length) < SIZE_MOD) ∧
      ((∃ s1, push_back true ex_full (ConstRef.value 3) = Outcome.ret s1 () ∧
        (capacity ex_full < size ex_full + 1 →
          capacity s1 = 3 * (size ex_full + 1) / 2) ∧
        (size ex_full + 1 ≤ capacity ex_full →
          capacity s1 = capacity ex_full ∧ data s1 = data ex_full)) ∧
      (∃ s1 r, insert true ex_full ((begin ex_full).add 1) (ConstRef.value 3)
          = Outcome.ret s1 r ∧
        (capacity ex_full < size ex_full + 1 →
          capacity s1 = 3 * (size ex_full + 1) / 2) ∧
        (size ex_full + 1 ≤ capacity ex_full →
          capacity s1 = capacity ex_full ∧ data s1 = data ex_full)) ∧
      (∃ s1 r, insert_range true ex_full ((begin ex_full).add 1) [7, 8]
          = Outcome.ret s1 r ∧
        (capacity ex_full < size ex_full + [7, 8].length →
          capacity s1 = 3 * (size ex_full + [7, 8].length) / 2) ∧
        (size ex_full + [7, 8].length ≤ capacity ex_full →
          capacity s1 = capacity ex_full ∧ data s1 = data ex_full)))) ∧
    (WF ex_spilled ∧ 1 ≤ size ex_spilled ∧ 1 ≤ [7].length ∧
      (capacity ex_spilled < size ex_spilled + 1 →
        3 * (size ex_spilled + 1) < SIZE_MOD) ∧
      (capacity ex_spilled < size ex_spilled + [7].length →
        3 * (size ex_spilled + [7].length) < SIZE_MOD) ∧
      ((∃ s1, push_back true ex_spilled (ConstRef.value 3) = Outcome.ret s1 () ∧
        (capacity ex_spilled < size ex_spilled + 1 →
          capacity s1 = 3 * (size ex_spilled + 1) / 2) ∧
        (size ex_spilled + 1 ≤ capacity ex_spilled →
          capacity s1 = capacity ex_spilled ∧ data s1 = data ex_spilled)) ∧
      (∃ s1 r, insert true ex_spilled ((begin ex_spilled).add 1) (ConstRef.value 3)
          = Outcome.ret s1 r ∧
        (capacity ex_spilled < size ex_spilled + 1 →
          capacity s1 = 3 * (size ex_spilled + 1) / 2) ∧
        (size ex_spilled + 1 ≤ capacity ex_spilled →
          capacity s1 = capacity ex_spilled ∧ data s1 = data ex_spilled)) ∧
      (∃ s1 r, insert_range true ex_spilled ((begin ex_spilled).add 1) [7]
          = Outcome.ret s1 r ∧
        (capacity ex_spilled < size ex_spilled + [7].length →
          capacity s1 = 3 * (size ex_spilled + [7].length) / 2) ∧
        (size ex_spilled + [7].length ≤ capacity ex_spilled →
          capacity s1 = capacity ex_spilled ∧ data s1 = data ex_spilled)))) :=
  ⟨⟨WF_ex_full, by decide, by decide, fun _ => by decide, fun _ => by decide,
      capacity_planner ex_full 1 3 [7, 8] WF_ex_full (by decide) (by decide)
        (fun _ => by decide) (fun _ => by decide)⟩,
    ⟨WF_ex_spilled, by decide, by decide, fun _ => by decide, fun _ => by decide,
      capacity_planner ex_spilled 1 3 [7] WF_ex_spilled (by decide) (by decide)
        (fun _ => by decide) (fun _ => by decide)⟩⟩

end ClaimsGrowth

/-! ## Threshold crossings: C13, C14 -/

section ClaimsThreshold
variable {α : Type} {C : Nat}

theorem WF_of_reachable [Inhabited α] (hC : C < SIZE_MOD) {w : World α C}
    (hw : Reachable w) {i : Nat} {v : VLVector α C} (hv : w.objs[i]? = some v) :
    WF (⟨w.heap, v⟩ : State α C) :=
  (WInv_of_reachable hC hw).wf i v hv

theorem released_block {s : State α C} (h : WF s) {b : Nat}
    (hb : s.v._heap_storage = some b) : s.released[b]? = some none := by
  have hlt := block_lt h hb
  simp [State.released, hb, hlt]

/-- C13: growth across the threshold.  A container of a reachable world that
is full and inline (`size = StaticCapacity`), taken in the store of that
world: one `push_back` returns and leaves `size = StaticCapacity + 1`,
`capacity = 3 * (StaticCapacity + 1) / 2`, and the container spilled, `data()`
being a live heap block of `capacity` slots.  Allocation succeeds and
`3 * (StaticCapacity + 1)` fits `size_t`; `StaticCapacity = 0` is covered
too.  The `element` argument refers to an object outside the container's
storage. -/
theorem push_back_crosses_threshold [Inhabited α] (w : World α C) (i : Nat)
    (v : VLVector α C) (x : α) (hw : Reachable w) (hv : w.objs[i]? = some v)
    (hfull : v._size = C) (hov : 3 * (C + 1) < SIZE_MOD) :
    ∃ s1, push_back true (⟨w.heap, v⟩ : State α C) (ConstRef.value x) = Outcome.ret s1 () ∧
      size s1 = C + 1 ∧ capacity s1 = 3 * (C + 1) / 2 ∧ Spilled s1 := by
  have hwf := WF_of_reachable (by omega) hw hv
  have hcap : v._capacity = C := (hwf.inline (by dsimp only; omega)).1
  obtain ⟨-, hlen⟩ := elements_inj hwf (elements_of_WF hwf)
  obtain ⟨s1, hs, hp, hc⟩ := push_back_spec hwf (elements_of_WF hwf) x
    (fun _ => by dsimp only; rw [hfull]; exact hov)
  dsimp only at hc hlen
  have hsz : s1.v._size = C + 1 := by
    rw [hp.size_eq, List.length_append, hlen, hfull]
    rfl
  refine ⟨s1, hs, hsz, ?_, spilled_of_WF hp.wf (by omega)⟩
  rw [capacity, hc, hcap, hfull, if_pos (Nat.lt_succ_self C)]

theorem reachable_ex_world_full : Reachable ex_world_full := by
  have h0 : Reachable (⟨[], []⟩ : World Nat 2) := Reachable.start []
  have h1 := Reachable.call _ (⟨[], [⟨0, 2, [0, 0], none⟩]⟩ : World Nat 2)
    Op.construct_default h0 trivial rfl
  have h2 := Reachable.call _ (⟨[], [⟨1, 2, [1, 0], none⟩]⟩ : World Nat 2)
    (Op.push_back 0 1) h1 (Or.inl (by decide)) rfl
  exact Reachable.call _ ex_world_full (Op.push_back 0 2) h2 (Or.inl (by decide)) rfl

/-- Witness of C13 with `StaticCapacity = 2`: the full container of
`ex_world_full`. -/
theorem push_back_crosses_threshold_witness :
    Reachable ex_world_full ∧
      ex_world_full.objs[0]? = some (⟨2, 2, [1, 2], none⟩ : VLVector Nat 2) ∧
      (⟨2, 2, [1, 2], none⟩ : VLVector Nat 2)._size = 2 ∧ 3 * (2 + 1) < SIZE_MOD ∧
      ∃ s1, push_back true (⟨ex_world_full.heap, ⟨2, 2, [1, 2], none⟩⟩ : State Nat 2)
            (ConstRef.value 3)
          = Outcome.ret s1 () ∧
        size s1 = 2 + 1 ∧ capacity s1 = 3 * (2 + 1) / 2 ∧ Spilled s1 :=
  ⟨reachable_ex_world_full, rfl, rfl, by decide,
    push_back_crosses_threshold ex_world_full 0 ⟨2, 2, [1, 2], none⟩ 3
      reachable_ex_world_full rfl rfl (by decide)⟩

/-- C14: shrink across the threshold.  For a well-formed (hence spilled)
container of size `StaticCapacity + 1` holding `xs`, one `pop_back` returns
and leaves `size = StaticCapacity`, `capacity = StaticCapacity`, and the
container inline-active: the heap block it had is released, `_heap_storage`
is null, `data()` is the static array, and the elements, read from it, are
the first `StaticCapacity` elements of `xs`. -/
theorem pop_back_crosses_threshold (s : State α C) (xs : List α)
    (hwf : WF s) (hxs : elements s = some xs) (hsz : size s = C + 1) :
    Spilled s ∧
    ∃ s1, pop_back s = Outcome.ret s1 () ∧ size s1 = C ∧ capacity s1 = C ∧
      InlineActive s1 ∧
      (∀ b, s.v._heap_storage = some b → s1.heap[b]? = some none) ∧
      elements s1 = some (xs.take C) ∧ s1.v._static_storage.take C = xs.take C := by
  have he : s.v._size = C + 1 := hsz
  obtain ⟨s1, hs, hp, hc⟩ := pop_back_spec hwf hxs (by omega)
  have hcl := pop_back_shrink hwf he
  rw [hcl] at hs
  have e1 : s1.v._size = C := by
    injection hs with e _
    rw [← e]
    rfl
  have hin := inlineActive_of_WF hp.wf (Nat.le_of_eq e1)
  have he2 : s.v._size - 1 = C := by omega
  rw [he2] at hp
  refine ⟨spilled_of_WF hwf (by omega), s1, hcl.trans hs, e1, hin.2.1, hin, fun b hb => ?_,
    hp.elems, ?_⟩
  · injection hs with e _
    rw [← e]
    exact released_block hwf hb
  · have h1 := elements_of_WF hp.wf
    rw [hp.elems] at h1
    have h2 : s1.active = s1.v._static_storage := by
      simp [State.active, hin.2.2.2, State.load]
    rw [h2, e1] at h1
    exact (Option.some.inj h1).symm

/-- Witness of C14: `ex_spilled` holds `[1, 2, 3]` with `StaticCapacity = 2`. -/
theorem pop_back_crosses_threshold_witness :
    WF ex_spilled ∧ elements ex_spilled = some [1, 2, 3] ∧ size ex_spilled = 2 + 1 ∧
      (Spilled ex_spilled ∧
        ∃ s1, pop_back ex_spilled = Outcome.ret s1 () ∧ size s1 = 2 ∧ capacity s1 = 2 ∧
          InlineActive s1 ∧
          (∀ b, ex_spilled.v._heap_storage = some b → s1.heap[b]? = some none) ∧
          elements s1 = some ([1, 2, 3].take 2) ∧
          s1.v._static_storage.take 2 = [1, 2, 3].take 2) :=
  ⟨WF_ex_spilled, rfl, rfl, pop_back_crosses_threshold ex_spilled [1, 2, 3] WF_ex_spilled rfl rfl⟩

end ClaimsThreshold

/-! ## `clear` and the inverse pair: C15, C16 -/

section ClaimsClear
variable {α : Type} {C : Nat}

theorem clear_empty {s : State α C} (h0 : s.v._size = 0) : clear s = Outcome.ret s () := by
  have e : s.set_size 0 = s := by
    rw [← h0]
    rfl
  simp [clear, h0, e]

theorem seq_insert_erase (xs ys : List α) (p : Nat) (hp : p ≤ xs.length) :
    (xs.take p ++ ys ++ xs.drop p).take p
      ++ (xs.take p ++ ys ++ xs.drop p).drop (p + ys.length) = xs := by
  have h1 : (xs.take p).length = p := by simp [hp]
  have e1 : (xs.take p ++ ys ++ xs.drop p).take p = xs.take p := by
    rw [List.append_assoc, List.take_append_of_le_length (by omega), List.take_of_length_le
      (by omega)]
  have e2 : (xs.take p ++ ys ++ xs.drop p).drop (p + ys.length) = xs.drop p := by
    have : (xs.take p ++ ys).length = p + ys.length := by simp [h1]
    rw [← this, List.drop_left]
  rw [e1, e2, List.take_append_drop]

/-- C15: erasing the range just inserted.  A container of a reachable world,
holding `xs`, a position `p ≤ size` and an input range `ys` of length `k`:
`it = insert(begin() + p, ys)` followed by `erase(it, it + k)` returns, and
the container has its original size and holds `xs` again.  Allocation
succeeds, and where the insert reallocates `3 * (size + k)` fits `size_t`. -/
theorem erase_undoes_insert [Inhabited α] (w : World α C) (i : Nat) (v : VLVector α C)
    (xs ys : List α) (p : Nat) (hC : C < SIZE_MOD) (hw : Reachable w)
    (hv : w.objs[i]? = some v) (hxs : elements (⟨w.heap, v⟩ : State α C) = some xs)
    (hp : p ≤ v._size)
    (hov : v._capacity < v._size + ys.length → 3 * (v._size + ys.length) < SIZE_MOD) :
    ∃ s1 it s2 r,
      insert_range true (⟨w.heap, v⟩ : State α C) ((begin ⟨w.heap, v⟩).add p) ys
        = Outcome.ret s1 it ∧
      erase_range s1 it (it.add ys.length) = Outcome.ret s2 r ∧
      size s2 = v._size ∧ elements s2 = some xs := by
  have hwf := WF_of_reachable hC hw hv
  obtain ⟨-, hlen⟩ := elements_inj hwf hxs
  dsimp only at hlen
  obtain ⟨s1, hs1, hp1, -⟩ := insert_range_spec hwf hxs p ys hp hov
  have hsz1 : s1.v._size = v._size + ys.length := by
    rw [hp1.size_eq]
    simp [hlen]
    omega
  obtain ⟨s2, hs2, hp2, -⟩ := erase_range_spec hp1.wf hp1.elems p (p + ys.length)
    (Nat.le_add_right _ _) (by omega)
  have hseq := seq_insert_erase xs ys p (by omega)
  rw [hseq] at hp2
  have e : ((begin s1).add p).add ys.length = (begin s1).add (p + ys.length) := by
    simp [Ptr.add, Nat.add_assoc]
  refine ⟨s1, (begin s1).add p, s2, (begin s2).add p, hs1, ?_, ?_, hp2.elems⟩
  · rw [e, hs2]
  · rw [size, hp2.size_eq, hlen]

/-- Witness of C15 in `ex_world_full`: inserting `[7, 8]` at position 1 spills
the full inline container, erasing the two elements moves it back. -/
theorem erase_undoes_insert_witness :
    2 < SIZE_MOD ∧ Reachable ex_world_full ∧
      ex_world_full.objs[0]? = some (⟨2, 2, [1, 2], none⟩ : VLVector Nat 2) ∧
      elements (⟨ex_world_full.heap, ⟨2, 2, [1, 2], none⟩⟩ : State Nat 2) = some [1, 2] ∧
      1 ≤ (⟨2, 2, [1, 2], none⟩ : VLVector Nat 2)._size ∧
      ((⟨2, 2, [1, 2], none⟩ : VLVector Nat 2)._capacity
          < (⟨2, 2, [1, 2], none⟩ : VLVector Nat 2)._size + [7, 8].length →
        3 * ((⟨2, 2, [1, 2], none⟩ : VLVector Nat 2)._size + [7, 8].length) < SIZE_MOD) ∧
      ∃ s1 it s2 r,
        insert_range true (⟨ex_world_full.heap, ⟨2, 2, [1, 2], none⟩⟩ : State Nat 2)
            ((begin (⟨ex_world_full.heap, ⟨2, 2, [1, 2], none⟩⟩ : State Nat 2)).add 1) [7, 8]
          = Outcome.ret s1 it ∧
        erase_range s1 it (it.add [7, 8].length) = Outcome.ret s2 r ∧
        size s2 = (⟨2, 2, [1, 2], none⟩ : VLVector Nat 2)._size ∧
        elements s2 = some [1, 2] :=
  ⟨by decide, reachable_ex_world_full, rfl, rfl, by decide, fun _ => by decide,
    erase_undoes_insert ex_world_full 0 ⟨2, 2, [1, 2], none⟩ [1, 2] [7, 8] 1 (by decide)
      reachable_ex_world_full rfl rfl (by decide) (fun _ => by decide)⟩

/-- C16: `clear`.  For a well-formed container, inline or spilled, `clear()`
returns and leaves `size = 0`, `capacity = StaticCapacity`, no elements, and
the container inline-active, the heap block it had being released.  A second
`clear()` returns the state the first one left, and on a container that is
already empty `clear()` returns the state it was called in. -/
theorem clear_resets (s : State α C) (hwf : WF s) :
    ∃ s1, clear s = Outcome.ret s1 () ∧ size s1 = 0 ∧ capacity s1 = C ∧
      InlineActive s1 ∧ elements s1 = some [] ∧
      (∀ b, s.v._heap_storage = some b → s1.heap[b]? = some none) ∧
      clear s1 = Outcome.ret s1 () ∧
      (size s = 0 → s1 = s) := by
  obtain ⟨s1, hs, hp, hc⟩ := clear_spec hwf
  have e1 : s1.v._size = 0 := by rw [hp.size_eq]; rfl
  have hin := inlineActive_of_WF hp.wf (by omega)
  refine ⟨s1, hs, e1, hc, hin, hp.elems, fun b hb => ?_, clear_empty e1, fun h0 => ?_⟩
  · have hm : C < s.v._size := by
      rcases Nat.lt_or_ge C s.v._size with h | h
      · exact h
      · have := (hwf.inline h).2
        rw [hb] at this
        cases this
    rw [clear_shrink hwf hm] at hs
    injection hs with e _
    rw [← e]
    exact released_block hwf hb
  · rw [clear_empty h0] at hs
    injection hs with e _
    exact e.symm

/-- Witness of C16 on the spilled container `ex_spilled`. -/
theorem clear_resets_witness :
    WF ex_spilled ∧
      ∃ s1, clear ex_spilled = Outcome.ret s1 () ∧ size s1 = 0 ∧ capacity s1 = 2 ∧
        InlineActive s1 ∧ elements s1 = some [] ∧
        (∀ b, ex_spilled.v._heap_storage = some b → s1.heap[b]? = some none) ∧
        clear s1 = Outcome.ret s1 () ∧
        (size ex_spilled = 0 → s1 = ex_spilled) :=
  ⟨WF_ex_spilled, clear_resets ex_spilled WF_ex_spilled⟩

end ClaimsClear

/-! ## Capacity across calls: C17 -/

section ClaimCapacity
variable {α : Type} {C : Nat}

theorem getElem?_set_self_of_some {L : List (VLVector α C)} {i : Nat} {v : VLVector α C}
    (hv : L[i]? = some v) (u : VLVector α C) : (L.set i u)[i]? = some u := by
  have hlt := (List.getElem?_eq_some_iff.mp hv).1
  simp [hlt]

/-- What each call does to the capacity of its target: the resulting
container is well-formed; unless the call is a copy assignment, a container
that is spilled afterwards has at least its old capacity; a copy assignment
leaves the capacity of its source. -/
theorem step_capacity [Inhabited α] {w : World α C} (hw : WInv w)
    (op : Op α) (ha : w.allowed op) {i : Nat} {v : VLVector α C}
    (hop : op.target = some i) (hv : w.objs[i]? = some v) :
    ∃ s1 : State α C, w.step op = Outcome.ret ⟨s1.heap, w.objs.set i s1.v⟩ () ∧ WF s1 ∧
      ((∀ j, op ≠ Op.assign i j) → C < s1.v._size → v._capacity ≤ s1.v._capacity) ∧
      (∀ j u, op = Op.assign i j → w.objs[j]? = some u → s1.v._capacity = u._capacity) := by
  have hwf := hw.wf i v hv
  obtain ⟨hb1, hb2, hb3, hb4, hb5, hb6⟩ := hwf.bounds
  obtain ⟨-, hlen⟩ := elements_inj hwf (elements_of_WF hwf)
  dsimp only at hb1 hb2 hb4 hb5 hb6 hlen
  cases op with
  | construct_default => cases hop
  | construct_range xs => cases hop
  | construct_fill count x => cases hop
  | construct_copy j => cases hop
  | push_back i0 x =>
    cases hop
    simp only [World.allowed, hv] at ha
    obtain ⟨s1, hs, hp, hc⟩ := push_back_spec hwf (elements_of_WF hwf) x
      (fun hfull => by dsimp only at hfull ⊢; omega)
    dsimp only at hc
    refine ⟨s1, ?_, hp.wf, fun _ _ => ?_, fun j u e => by cases e⟩
    · simp only [World.step]
      exact run_eq hv hs
    · rw [hc]
      split <;> omega
  | insert i0 p x =>
    cases hop
    simp only [World.allowed, hv] at ha
    obtain ⟨s1, hs, hp, hc⟩ := insert_spec hwf (elements_of_WF hwf) p x ha.1
      (fun hfull => by have := ha.2; dsimp only at hfull ⊢; omega)
    dsimp only at hc
    refine ⟨s1, discard_run_eq hv hs, hp.wf, fun _ _ => ?_, fun j u e => by cases e⟩
    rw [hc]
    split <;> omega
  | insert_range i0 p xs =>
    cases hop
    simp only [World.allowed, hv] at ha
    obtain ⟨s1, hs, hp, hc⟩ := insert_range_spec hwf (elements_of_WF hwf) p xs ha.1
      (fun hfull => by have := ha.2; dsimp only at hfull ⊢; omega)
    dsimp only at hc
    refine ⟨s1, discard_run_eq hv hs, hp.wf, fun _ _ => ?_, fun j u e => by cases e⟩
    rw [hc]
    split <;> omega
  | pop_back i0 =>
    cases hop
    by_cases h0 : v._size = 0
    · refine ⟨⟨w.heap, v⟩, ?_, hwf, fun _ _ => Nat.le_refl _, fun j u e => by cases e⟩
      simp only [World.step]
      exact run_eq hv (pop_back_empty (s := ⟨w.heap, v⟩) h0)
    · obtain ⟨s1, hs, hp, hc⟩ := pop_back_spec hwf (elements_of_WF hwf) h0
      have hsz := hp.size_eq
      simp only [List.length_take, hlen] at hsz
      dsimp only at hc
      refine ⟨s1, ?_, hp.wf, fun _ hm => ?_, fun j u e => by cases e⟩
      · simp only [World.step]
        exact run_eq hv hs
      · rw [hc]
        split <;> omega
  | erase i0 p =>
    cases hop
    simp only [World.allowed, hv] at ha
    by_cases hpe : p = v._size
    · refine ⟨⟨w.heap, v⟩,
        discard_run_eq (r := (⟨(data ⟨w.heap, v⟩).region, v._size⟩ : Ptr)) hv ?_, hwf,
        fun _ _ => Nat.le_refl _, fun j u e => by cases e⟩
      rw [begin_add hwf, hpe]
      exact erase_end hwf
    · obtain ⟨s1, hs, hp, hc⟩ := erase_spec hwf (elements_of_WF hwf) p
        (by dsimp only; omega)
      have hsz := hp.size_eq
      simp only [List.length_append, List.length_take, List.length_drop, hlen] at hsz
      dsimp only at hc
      refine ⟨s1, discard_run_eq hv hs, hp.wf, fun _ hm => ?_, fun j u e => by cases e⟩
      rw [hc]
      split <;> omega
  | erase_range i0 a b =>
    cases hop
    simp only [World.allowed, hv] at ha
    obtain ⟨s1, hs, hp, hc⟩ := erase_range_spec hwf (elements_of_WF hwf) a b ha.1 ha.2
    have hsz := hp.size_eq
    simp only [List.length_append, List.length_take, List.length_drop, hlen] at hsz
    dsimp only at hc
    refine ⟨s1, discard_run_eq hv hs, hp.wf, fun _ hm => ?_, fun j u e => by cases e⟩
    rw [hc]
    split <;> omega
  | clear i0 =>
    cases hop
    obtain ⟨s1, hs, hp, hc⟩ := clear_spec hwf
    have hsz := hp.size_eq
    refine ⟨s1, ?_, hp.wf, fun _ hm => ?_, fun j u e => by cases e⟩
    · simp only [World.step]
      exact run_eq hv hs
    · rw [hsz] at hm
      exact absurd hm (Nat.not_lt_zero _)
  | assign i0 j =>
    cases hop
    obtain ⟨r, hr⟩ := exists_obj (w := w) ha.2
    by_cases hij : i = j
    · subst hij
      refine ⟨⟨w.heap, v⟩, ?_, hwf, fun hne => absurd rfl (hne i),
        fun j u e hu => ?_⟩
      · simp only [World.step, hr, if_true]
        exact run_eq (f := fun s => assign true s Rhs.self) hv rfl
      · cases e
        rw [hv] at hu
        cases hu
        rfl
    · have hrf := hw.wf j r hr
      obtain ⟨s1, hs, hp, hc⟩ := assign_spec hwf r hrf
        (fun b hb => hw.disjoint i j v r b hij hv hr hb) (elements_of_WF hrf)
      refine ⟨s1, ?_, hp.wf, fun hne => absurd rfl (hne j), fun j1 u e hu => ?_⟩
      · simp only [World.step, hr, hij, if_false]
        exact run_eq hv hs
      · cases e
        rw [hr] at hu
        cases hu
        exact hc
  | write i0 k x =>
    cases hop
    simp only [World.allowed, hv] at ha
    obtain ⟨s1, hs, hp, hc⟩ := write_spec hwf (elements_of_WF hwf) k x ha
    refine ⟨s1, ?_, hp.wf, fun _ _ => by rw [hc], fun j u e => by cases e⟩
    simp only [World.step]
    refine run_eq hv ?_
    simp only [hs, orUndefined]

theorem reachable_ex_world_caps : Reachable ex_world_caps := by
  have h0 : Reachable (⟨[], []⟩ : World Nat 2) := Reachable.start []
  have h1 := Reachable.call _
    (⟨[some [1, 2, 3, 4, 5, 0, 0]], [⟨5, 7, [0, 0], some 0⟩]⟩ : World Nat 2)
    (Op.construct_range [1, 2, 3, 4, 5]) h0 (Or.inr (by decide)) rfl
  exact Reachable.call _ ex_world_caps (Op.construct_range [1, 2, 3]) h1
    (Or.inr (by decide)) rfl

/-- C17 as stated fails for copy assignment.  In the reachable world
`ex_world_caps` the container `a` is spilled with capacity 7 and `b` is spilled
with capacity 4; `a = b` returns, and `a` is spilled, in a new block, with
capacity 4. -/
theorem assign_lowers_capacity :
    Reachable ex_world_caps ∧ ex_world_caps.allowed (Op.assign 0 1) ∧
      ex_world_caps.step (Op.assign 0 1)
        = Outcome.ret (⟨[none, some [1, 2, 3, 0], some [1, 2, 3, 0]],
            [⟨3, 4, [0, 0], some 2⟩, ⟨3, 4, [0, 0], some 1⟩]⟩ : World Nat 2) () ∧
      ¬ CapacityRule ex_world_caps (Op.assign 0 1) := by
  refine ⟨reachable_ex_world_caps, ⟨by decide, by decide⟩, rfl, fun h => ?_⟩
  have h1 := (h 0 ⟨5, 7, [0, 0], some 0⟩ ⟨3, 4, [0, 0], some 2⟩ _ rfl rfl rfl rfl).1
    (by decide)
  exact absurd h1 (by decide)

/-- C17, amended.  In a reachable world every call whose preconditions hold
returns.  For every call other than a copy assignment (`push_back`, `insert`,
range `insert`, `pop_back`, `erase`, range `erase`, `clear`, a write through
`operator[]`) the capacity rule holds: the container it changed, if spilled
afterwards, has at least the capacity it had before, and if inline
afterwards, has capacity `StaticCapacity`.  A copy assignment leaves its
target with the capacity of its source, and again with capacity
`StaticCapacity` if that is inline. -/
theorem capacity_lowered_only_to_inline [Inhabited α] (w : World α C) (op : Op α)
    (hC : C < SIZE_MOD) (hw : Reachable w) (ha : w.allowed op) :
    (∃ w1, w.step op = Outcome.ret w1 ()) ∧
    ((∀ i j, op ≠ Op.assign i j) → CapacityRule w op) ∧
    (∀ (i j : Nat) (v u v1 : VLVector α C) (w1 : World α C), op = Op.assign i j →
      w.objs[i]? = some v → w.objs[j]? = some u →
      w.step op = Outcome.ret w1 () → w1.objs[i]? = some v1 →
      v1._capacity = u._capacity ∧ (v1._size ≤ C → v1._capacity = C)) := by
  have hinv := WInv_of_reachable hC hw
  refine ⟨?_, fun hne i v v1 w1 hop hv hs hv1 => ?_, fun i j v u v1 w1 e hv hu hs hv1 => ?_⟩
  · obtain ⟨w1, hs, -, -⟩ := step_spec hC hinv op ha
    exact ⟨w1, hs⟩
  · obtain ⟨s1, hs1, hwf1, hmono, -⟩ := step_capacity hinv op ha hop hv
    rw [hs1] at hs
    injection hs with e _
    rw [← e, getElem?_set_self_of_some hv] at hv1
    cases hv1
    exact ⟨hmono (hne i), fun hm => (hwf1.inline hm).1⟩
  · have hop : op.target = some i := by rw [e]; rfl
    obtain ⟨s1, hs1, hwf1, -, hsrc⟩ := step_capacity hinv op ha hop hv
    rw [hs1] at hs
    injection hs with e1 _
    rw [← e1, getElem?_set_self_of_some hv] at hv1
    cases hv1
    exact ⟨hsrc j u e hu, fun hm => (hwf1.inline hm).1⟩

/-- Witness of the amended C17 in `ex_world_caps`, for a `push_back` on the
container `a`. -/
theorem capacity_lowered_only_to_inline_witness :
    2 < SIZE_MOD ∧ Reachable ex_world_caps ∧ ex_world_caps.allowed (Op.push_back 0 9) ∧
      ((∃ w1, ex_world_caps.step (Op.push_back 0 9) = Outcome.ret w1 ()) ∧
        ((∀ i j, Op.push_back 0 9 ≠ Op.assign i j) →
          CapacityRule ex_world_caps (Op.push_back 0 9)) ∧
        (∀ (i j : Nat) (v u v1 : VLVector Nat 2) (w1 : World Nat 2),
          Op.push_back 0 9 = Op.assign i j →
          ex_world_caps.objs[i]? = some v → ex_world_caps.objs[j]? = some u →
          ex_world_caps.step (Op.push_back 0 9) = Outcome.ret w1 () →
          w1.objs[i]? = some v1 →
          v1._capacity = u._capacity ∧ (v1._size ≤ 2 → v1._capacity = 2))) :=
  ⟨by decide, reachable_ex_world_caps, Or.inl (by decide),
    capacity_lowered_only_to_inline ex_world_caps (Op.push_back 0 9) (by decide)
      reachable_ex_world_caps (Or.inl (by decide))⟩

end ClaimCapacity

/-! ## Scenario, erase rule, constructors: C18, C19, C20 -/

section ClaimsRest
variable {α : Type} {C : Nat}

/-- C18: the scenario with `StaticCapacity = 2`, run in an empty store.  From
the default-constructed container, `push_back(1)` gives size 1, inline;
`push_back(2)` gives size 2, inline, capacity 2; `push_back(3)` gives size 3,
spilled, capacity 4; `erase(begin() + 1)` then gives size 2, inline again,
capacity 2, holding `[1, 3]`. -/
theorem scenario_push_push_push_erase :
    push_back true (construct_default [] : State Nat 2) (ConstRef.value 1)
        = Outcome.ret ex_one () ∧
      size ex_one = 1 ∧ InlineActive ex_one ∧
    push_back true ex_one (ConstRef.value 2) = Outcome.ret ex_full () ∧
      size ex_full = 2 ∧ InlineActive ex_full ∧ capacity ex_full = 2 ∧
    push_back true ex_full (ConstRef.value 3) = Outcome.ret ex_spilled () ∧
      size ex_spilled = 3 ∧ Spilled ex_spilled ∧ capacity ex_spilled = 4 ∧
    erase ex_spilled ((begin ex_spilled).add 1)
        = Outcome.ret (⟨[none], ⟨2, 2, [1, 3], none⟩⟩ : State Nat 2) ⟨Region.stat, 1⟩ ∧
      size (⟨[none], ⟨2, 2, [1, 3], none⟩⟩ : State Nat 2) = 2 ∧
      InlineActive (⟨[none], ⟨2, 2, [1, 3], none⟩⟩ : State Nat 2) ∧
      capacity (⟨[none], ⟨2, 2, [1, 3], none⟩⟩ : State Nat 2) = 2 ∧
      elements (⟨[none], ⟨2, 2, [1, 3], none⟩⟩ : State Nat 2) = some [1, 3] :=
  ⟨rfl, rfl, ⟨by decide, rfl, rfl, rfl⟩,
    rfl, rfl, ⟨by decide, rfl, rfl, rfl⟩, rfl,
    rfl, rfl, ⟨by decide, 0, [1, 2, 3, 0], rfl, rfl, rfl, rfl⟩, rfl,
    rfl, rfl, ⟨by decide, rfl, rfl, rfl⟩, rfl, rfl⟩

/-- C19: single erase and range erase.  For a well-formed container and a
position `p < size`, `erase(begin() + p)` and
`erase(begin() + p, begin() + p + 1)` have the same outcome: the same
resulting state, whole, and the same returned iterator, which is `begin() + p`
of that state.  The call moves a spilled container back to the static array
exactly when its size before is above `StaticCapacity` and its size after is
at most `StaticCapacity`. -/
theorem erase_agrees_with_erase_range (s : State α C) (p : Nat)
    (hwf : WF s) (hp : p < size s) :
    erase s ((begin s).add p) = erase_range s ((begin s).add p) ((begin s).add (p + 1)) ∧
    ∃ s1, erase s ((begin s).add p) = Outcome.ret s1 ((begin s1).add p) ∧
      size s1 = size s - 1 ∧
      ((Spilled s ∧ InlineActive s1) ↔ (C < size s ∧ size s - 1 ≤ C)) := by
  have hp1 : p < s.v._size := hp
  obtain ⟨s1, hs, hpost, -⟩ := erase_spec hwf (elements_of_WF hwf) p hp1
  obtain ⟨-, hlen⟩ := elements_inj hwf (elements_of_WF hwf)
  have hsz : s1.v._size = s.v._size - 1 := by
    rw [hpost.size_eq]
    simp [hlen]
    omega
  refine ⟨?_, s1, hs, hsz, ⟨fun h => ⟨h.1.1, by rw [size, ← hsz]; exact h.2.1⟩,
    fun h => ⟨spilled_of_WF hwf h.1, inlineActive_of_WF hpost.wf (by rw [hsz]; exact h.2)⟩⟩⟩
  rw [begin_add hwf, begin_add hwf]
  by_cases he : s.v._size = C + 1
  · rw [erase_shrink hwf p hp1 he,
      erase_range_shrink hwf p (p + 1) (Nat.le_succ _) hp1 (by omega) (by omega)]
    have e : s.v._size - (p + 1 - p) = C := by omega
    rw [e]
  · rw [erase_inplace hwf p hp1 he,
      erase_range_inplace hwf p (p + 1) (Nat.le_succ _) hp1 (by omega)]
    have e : s.v._size - (p + 1 - p) = s.v._size - 1 := by omega
    rw [e]

/-- Witness of C19 on `ex_spilled` (size `StaticCapacity + 1`: both calls move
back to the static array) and on `ex_spilled_full` (both shift in place). -/
theorem erase_agrees_with_erase_range_witness :
    (WF ex_spilled ∧ 1 < size ex_spilled ∧
      (erase ex_spilled ((begin ex_spilled).add 1)
          = erase_range ex_spilled ((begin ex_spilled).add 1)
              ((begin ex_spilled).add (1 + 1)) ∧
        ∃ s1, erase ex_spilled ((begin ex_spilled).add 1)
            = Outcome.ret s1 ((begin s1).add 1) ∧
          size s1 = size ex_spilled - 1 ∧
          ((Spilled ex_spilled ∧ InlineActive s1) ↔
            (2 < size ex_spilled ∧ size ex_spilled - 1 ≤ 2)))) ∧
    (WF ex_spilled_full ∧ 1 < size ex_spilled_full ∧
      (erase ex_spilled_full ((begin ex_spilled_full).add 1)
          = erase_range ex_spilled_full ((begin ex_spilled_full).add 1)
              ((begin ex_spilled_full).add (1 + 1)) ∧
        ∃ s1, erase ex_spilled_full ((begin ex_spilled_full).add 1)
            = Outcome.ret s1 ((begin s1).add 1) ∧
          size s1 = size ex_spilled_full - 1 ∧
          ((Spilled ex_spilled_full ∧ InlineActive s1) ↔
            (2 < size ex_spilled_full ∧ size ex_spilled_full - 1 ≤ 2)))) :=
  ⟨⟨WF_ex_spilled, by decide,
      erase_agrees_with_erase_range ex_spilled 1 WF_ex_spilled (by decide)⟩,
    ⟨WF_ex_spilled_full, by decide,
      erase_agrees_with_erase_range ex_spilled_full 1 WF_ex_spilled_full (by decide)⟩⟩

/-- C20: the constructors.  In any store, with allocation succeeding and, for
`n > StaticCapacity`, `3 * n` fitting `size_t`: the range constructor on `xs`
of length `n` returns a well-formed container holding `xs`, the fill
constructor on `(n, v)` one holding `n` copies of `v`; in both `size = n`, and
the container is inline-active with `capacity = StaticCapacity` when
`n ≤ StaticCapacity`, spilled with `capacity = 3 * n / 2` otherwise.  The
default constructor gives a well-formed, empty, inline-active container of
`capacity = StaticCapacity`. -/
theorem constructors_establish_invariant [Inhabited α] (heap : List (Option (List α)))
    (xs : List α) (n : Nat) (v : α) (hC : C < SIZE_MOD)
    (hovx : xs.length ≤ C ∨ 3 * xs.length < SIZE_MOD)
    (hovn : n ≤ C ∨ 3 * n < SIZE_MOD) :
    (∃ s1 : State α C, construct_range true heap xs = Outcome.ret s1 () ∧ WF s1 ∧
      elements s1 = some xs ∧ size s1 = xs.length ∧
      (xs.length ≤ C → capacity s1 = C ∧ InlineActive s1) ∧
      (C < xs.length → capacity s1 = 3 * xs.length / 2 ∧ Spilled s1)) ∧
    (∃ s1 : State α C, construct_fill true heap n v = Outcome.ret s1 () ∧ WF s1 ∧
      elements s1 = some (List.replicate n v) ∧ size s1 = n ∧
      (n ≤ C → capacity s1 = C ∧ InlineActive s1) ∧
      (C < n → capacity s1 = 3 * n / 2 ∧ Spilled s1)) ∧
    (WF (construct_default heap : State α C) ∧
      elements (construct_default heap : State α C) = some [] ∧
      size (construct_default heap : State α C) = 0 ∧
      capacity (construct_default heap : State α C) = C ∧
      InlineActive (construct_default heap : State α C)) := by
  refine ⟨?_, ?_, WF_default heap hC, elements_default heap, rfl, rfl,
    inlineActive_of_WF (WF_default heap hC) (Nat.zero_le _)⟩
  · obtain ⟨s1, hs, hp, hc⟩ := construct_range_spec (C := C) heap xs hC hovx
    refine ⟨s1, hs, hp.wf, hp.elems, hp.size_eq, fun hm => ?_, fun hm => ?_⟩
    · exact ⟨by rw [capacity, hc, if_neg (by omega)],
        inlineActive_of_WF hp.wf (by rw [hp.size_eq]; exact hm)⟩
    · exact ⟨by rw [capacity, hc, if_pos hm],
        spilled_of_WF hp.wf (by rw [hp.size_eq]; exact hm)⟩
  · obtain ⟨s1, hs, hp, hc⟩ := construct_fill_spec (C := C) heap n v hC hovn
    have hsz : s1.v._size = n := by rw [hp.size_eq, List.length_replicate]
    refine ⟨s1, hs, hp.wf, hp.elems, hsz, fun hm => ?_, fun hm => ?_⟩
    · exact ⟨by rw [capacity, hc, if_neg (by omega)],
        inlineActive_of_WF hp.wf (by rw [hsz]; exact hm)⟩
    · exact ⟨by rw [capacity, hc, if_pos hm],
        spilled_of_WF hp.wf (by rw [hsz]; exact hm)⟩

/-- Witness of C20 with `StaticCapacity = 2` in an empty store: the range
`[1, 2, 3]` spills, one copy of `7` stays inline. -/
theorem constructors_establish_invariant_witness :
    2 < SIZE_MOD ∧ ([1, 2, 3].length ≤ 2 ∨ 3 * [1, 2, 3].length < SIZE_MOD) ∧
      (1 ≤ 2 ∨ 3 * 1 < SIZE_MOD) ∧
      ((∃ s1 : State Nat 2, construct_range true [] [1, 2, 3] = Outcome.ret s1 () ∧ WF s1 ∧
        elements s1 = some [1, 2, 3] ∧ size s1 = [1, 2, 3].length ∧
        ([1, 2, 3].length ≤ 2 → capacity s1 = 2 ∧ InlineActive s1) ∧
        (2 < [1, 2, 3].length → capacity s1 = 3 * [1, 2, 3].length / 2 ∧ Spilled s1)) ∧
      (∃ s1 : State Nat 2, construct_fill true [] 1 7 = Outcome.ret s1 () ∧ WF s1 ∧
        elements s1 = some (List.replicate 1 7) ∧ size s1 = 1 ∧
        (1 ≤ 2 → capacity s1 = 2 ∧ InlineActive s1) ∧
        (2 < 1 → capacity s1 = 3 * 1 / 2 ∧ Spilled s1)) ∧
      (WF (construct_default [] : State Nat 2) ∧
        elements (construct_default [] : State Nat 2) = some [] ∧
        size (construct_default [] : State Nat 2) = 0 ∧
        capacity (construct_default [] : State Nat 2) = 2 ∧
        InlineActive (construct_default [] : State Nat 2))) :=
  ⟨by decide, Or.inr (by decide), Or.inl (by decide),
    constructors_establish_invariant [] [1, 2, 3] 1 7 (by decide) (Or.inr (by decide))
      (Or.inl (by decide))⟩

end ClaimsRest

end VLVec
